import Mathlib

/-!
# GKDTerm: scrollback store, virtual line space and region copy

A shallow embedding of the scrollback / selection core of `gkd_term.c`.

* C `int` values are `Int`; the result of an `int` addition or subtraction
  whose operands are not bounded by the surrounding control flow is reduced
  with `wrap32` (two's complement, 32 bit).  C `%` on `int` is `Int.tmod`.
* Arrays are functions of their index (`sb_buf p c`, `sb_cont p`,
  `g_sessions i`); only the indices inside the C array bounds are storage
  the program owns.  Where a claim is about which indices are used, the
  functions also return a ghost log of the accesses they perform.
* `SESS()` is the session the function is applied to.
* libvterm and the pty are external: the live grid is the function
  `vts row col` (`none` when `vterm_screen_get_cell` returns 0) and the
  colour conversion of the engine is the function `vts_state`.
-/

namespace GKDTerm

/-! ## Constants -/

/-- Constant `TERM_COLS` (`#define TERM_COLS 53`). -/
@[simp] def TERM_COLS : Int := 53

/-- Constant `TERM_ROWS` (`#define TERM_ROWS 13`). -/
@[simp] def TERM_ROWS : Int := 13

/-- Constant `SCROLLBACK_LINES` (`#define SCROLLBACK_LINES 2000`). -/
@[simp] def SCROLLBACK_LINES : Int := 2000

/-- Constant `MAX_SESSIONS` (`#define MAX_SESSIONS 5`). -/
@[simp] def MAX_SESSIONS : Int := 5

/-- Smallest value of a C `int` (32 bit). -/
@[simp] def INT_MIN : Int := -2147483648

/-- Largest value of a C `int` (32 bit). -/
@[simp] def INT_MAX : Int := 2147483647

/-- Two's complement reduction of an integer result to 32 bit `int`. -/
def wrap32 (x : Int) : Int := (x + 2147483648) % 4294967296 - 2147483648

/-- The value fits a C `int`. -/
def isInt (x : Int) : Prop := INT_MIN ≤ x ∧ x ≤ INT_MAX

instance (x : Int) : Decidable (isInt x) := by unfold isInt; infer_instance

/-! ## Data model -/

/-- Type `SDL_Color`: four 8-bit channels. -/
structure SDL_Color where
  r : Nat
  g : Nat
  b : Nat
  a : Nat
deriving DecidableEq, Repr

/-- Type `sb_cell_t`: one stored scrollback cell. -/
structure sb_cell_t where
  ch : Nat
  fg : SDL_Color
  bg : SDL_Color
  width : Nat
  reverse : Nat
deriving DecidableEq, Repr

/-- libvterm `VTermColor`: the type tag and the three colour bytes. -/
structure VTermColor where
  type : Nat
  red : Nat
  green : Nat
  blue : Nat
deriving DecidableEq, Repr

/-- libvterm `VTermScreenCell`, the fields the program reads: `chars[0]`,
`width`, `attrs.reverse`, `fg`, `bg`. -/
structure VTermScreenCell where
  chars0 : Nat
  width : Int
  reverse : Bool
  fg : VTermColor
  bg : VTermColor
deriving DecidableEq, Repr

/-- libvterm `VTERM_COLOR_RGB` (vterm.h). -/
@[simp] def VTERM_COLOR_RGB : Nat := 0

/-- libvterm `VTERM_COLOR_DEFAULT_FG` (vterm.h). -/
@[simp] def VTERM_COLOR_DEFAULT_FG : Nat := 2

/-- libvterm `VTERM_COLOR_DEFAULT_BG` (vterm.h). -/
@[simp] def VTERM_COLOR_DEFAULT_BG : Nat := 4

/-- Handle `VTermState *`: what `vterm_state_convert_color_to_rgb` turns a colour
into (external engine). -/
abbrev VTermState := VTermColor → VTermColor

/-- Handle `VTermScreen *`: what `vterm_screen_get_cell` delivers for `(row, col)`,
`none` when it returns 0 (external engine). -/
abbrev VTermScreen := Int → Int → Option VTermScreenCell

/-- The screen behind a null `vts` handle: no cell can be fetched. -/
def null_screen : VTermScreen := fun _ _ => none

/-- The state behind a null `vts_state` handle. -/
def null_state : VTermState := fun c => c

/-- Type `session_t`. `vt` is `true` when the `VTerm *` is non-null. -/
structure session_t where
  used : Int
  pty_fd : Int
  pid : Int
  vt : Bool
  vts : VTermScreen
  vts_state : VTermState
  sb_buf : Int → Int → sb_cell_t
  sb_cont : Int → Nat
  sb_head : Int
  sb_count : Int
  view_offset_lines : Int
  region_mode : Int
  selecting : Int
  reg_line : Int
  reg_col : Int
  sel_line : Int
  sel_col : Int

/-- Global `g_def_fg = {240,240,240,255}`. -/
def g_def_fg : SDL_Color := ⟨240, 240, 240, 255⟩

/-- Global `g_def_bg = {0,0,0,255}`. -/
def g_def_bg : SDL_Color := ⟨0, 0, 0, 255⟩

/-- The all-zero cell left by `memset`. -/
def zero_cell : sb_cell_t := ⟨0, ⟨0, 0, 0, 0⟩, ⟨0, 0, 0, 0⟩, 0, 0⟩

/-! ## Colour conversion -/

/-- Function `vterm_color_to_rgb`. -/
def vterm_color_to_rgb (st : VTermState) (c : VTermColor) : SDL_Color :=
  if c.type = VTERM_COLOR_RGB then ⟨c.red, c.green, c.blue, 255⟩
  else
    let c := st c
    ⟨c.red, c.green, c.blue, 255⟩

/-- Function `vterm_fg_to_sdl`. -/
def vterm_fg_to_sdl (st : VTermState) (c : VTermColor) : SDL_Color :=
  if c.type = VTERM_COLOR_DEFAULT_FG then g_def_fg else vterm_color_to_rgb st c

/-- Function `vterm_bg_to_sdl`. -/
def vterm_bg_to_sdl (st : VTermState) (c : VTermColor) : SDL_Color :=
  if c.type = VTERM_COLOR_DEFAULT_BG then g_def_bg else vterm_color_to_rgb st c

/-! ## Scrollback ring helpers -/

/-- The loop `while (idx < 0) idx += SCROLLBACK_LINES;` run for at most
`n` iterations. -/
def sb_oldest_loop : Nat → Int → Int
  | 0, idx => idx
  | n + 1, idx =>
    if idx < 0 then sb_oldest_loop n (wrap32 (idx + SCROLLBACK_LINES)) else idx

/-- Function `sb_oldest_index`. The loop adds `SCROLLBACK_LINES` to a negative start
value `idx`; `(-idx) / SCROLLBACK_LINES + 1` iterations always bring it to
`idx >= 0` (lemma `sb_oldest_loop_nonneg`). -/
def sb_oldest_index (s : session_t) : Int :=
  let idx := wrap32 (s.sb_head - s.sb_count)
  sb_oldest_loop ((-idx).toNat / 2000 + 1) idx

/-- Function `sb_phys_index`. -/
def sb_phys_index (s : session_t) (i : Int) : Int :=
  let base := sb_oldest_index s
  Int.tmod (wrap32 (base + i)) SCROLLBACK_LINES

/-! ## Store operations (libvterm callbacks) -/

/-- Callback `cb_sb_clear`; the returned `int` is always 1. -/
def cb_sb_clear (s : session_t) : session_t :=
  { s with
    sb_head := 0
    sb_count := 0
    view_offset_lines := 0
    sb_cont := fun _ => 0 }

/-- The cell `out` built from one engine cell in the first loop of
`cb_sb_pushline4`. -/
def pushline_out (st : VTermState) (cell : VTermScreenCell) : sb_cell_t :=
  let ch : Nat := if cell.width = 0 then 32 else (if cell.chars0 ≠ 0 then cell.chars0 else 32)
  let width : Nat := if cell.width = 0 then 1 else (if cell.width = 2 then 2 else 1)
  { ch := ch
    width := width
    fg := vterm_fg_to_sdl st cell.fg
    bg := vterm_bg_to_sdl st cell.bg
    reverse := if cell.reverse then 1 else 0 }

/-- The blank cell written by the second loop of `cb_sb_pushline4`. -/
def pushline_blank : sb_cell_t :=
  { ch := 32, fg := g_def_fg, bg := g_def_bg, width := 1, reverse := 0 }

/-- Loop `for (c = c0; c < maxc; c++) dst[c] = out(cells[c]);` with `n` iterations
left. -/
def pushline_copy (st : VTermState) (cells : Int → VTermScreenCell) :
    Nat → Int → (Int → sb_cell_t) → (Int → sb_cell_t)
  | 0, _, dst => dst
  | n + 1, c, dst =>
    pushline_copy st cells n (c + 1) (fun k => if k = c then pushline_out st (cells c) else dst k)

/-- Loop `for (c = c0; c < TERM_COLS; c++) dst[c] = blank;` with `n` iterations
left. -/
def pushline_fill : Nat → Int → (Int → sb_cell_t) → (Int → sb_cell_t)
  | 0, _, dst => dst
  | n + 1, c, dst =>
    pushline_fill n (c + 1) (fun k => if k = c then pushline_blank else dst k)

/-- Callback `cb_sb_pushline4(cols, cells, continuation, user)`; the returned `int`
is always 1. -/
def cb_sb_pushline4 (cols : Int) (cells : Int → VTermScreenCell) (continuation : Bool)
    (s : session_t) : session_t :=
  let dst := s.sb_buf s.sb_head
  let maxc := if cols > TERM_COLS then TERM_COLS else cols
  let dst := pushline_copy s.vts_state cells maxc.toNat 0 dst
  let dst := pushline_fill (TERM_COLS - maxc).toNat maxc dst
  { s with
    sb_buf := fun p => if p = s.sb_head then dst else s.sb_buf p
    sb_cont := fun p => if p = s.sb_head then (if continuation then 1 else 0) else s.sb_cont p
    sb_head := Int.tmod (wrap32 (s.sb_head + 1)) SCROLLBACK_LINES
    sb_count := if s.sb_count < SCROLLBACK_LINES then wrap32 (s.sb_count + 1) else s.sb_count }

/-! ## Virtual lines and view -/

/-- Function `virtual_total_lines`. -/
def virtual_total_lines (s : session_t) : Int :=
  wrap32 (s.sb_count + TERM_ROWS)

/-- Function `virtual_start_line`: the returned line and the session with the
re-clamped `view_offset_lines`. -/
def virtual_start_line (s : session_t) : Int × session_t :=
  let s := if s.view_offset_lines < 0 then { s with view_offset_lines := 0 } else s
  let s := if s.view_offset_lines > s.sb_count then { s with view_offset_lines := s.sb_count } else s
  (wrap32 (s.sb_count - s.view_offset_lines), s)

/-- Function `region_ensure_visible`. -/
def region_ensure_visible (s : session_t) : session_t :=
  let (start, s) := virtual_start_line s
  let end_ := wrap32 (start + (TERM_ROWS - 1))
  if s.reg_line < start then
    let delta := wrap32 (start - s.reg_line)
    let s := { s with view_offset_lines := wrap32 (s.view_offset_lines + delta) }
    if s.view_offset_lines > s.sb_count then { s with view_offset_lines := s.sb_count } else s
  else if s.reg_line > end_ then
    let delta := wrap32 (s.reg_line - end_)
    let s := { s with view_offset_lines := wrap32 (s.view_offset_lines - delta) }
    if s.view_offset_lines < 0 then { s with view_offset_lines := 0 } else s
  else s

/-- Function `clampi`. -/
def clampi (v lo hi : Int) : Int :=
  if v < lo then lo else if v > hi then hi else v

/-- Function `region_norm`: the four out-parameters `(l1, c1, l2, c2)`. -/
def region_norm (s : session_t) : Int × Int × Int × Int :=
  let aL := s.sel_line
  let aC := s.sel_col
  let bL := s.reg_line
  let bC := s.reg_col
  if aL > bL ∨ (aL = bL ∧ aC > bC) then (bL, bC, aL, aC) else (aL, aC, bL, bC)

/-- Branch `case BTN_L2:` of `process_key_move`. -/
def process_key_move_BTN_L2 (s : session_t) : session_t :=
  let s := { s with view_offset_lines := wrap32 (s.view_offset_lines + 5) }
  if s.view_offset_lines > s.sb_count then { s with view_offset_lines := s.sb_count } else s

/-- Branch `case BTN_R2:` of `process_key_move`. -/
def process_key_move_BTN_R2 (s : session_t) : session_t :=
  let s := { s with view_offset_lines := wrap32 (s.view_offset_lines - 5) }
  if s.view_offset_lines < 0 then { s with view_offset_lines := 0 } else s

/-! ## Reading cells of the virtual line space -/

/-- Ghost record of what the copy extractor does: the calls it makes, the
array slots it reads and what it appends to the copy buffer. -/
inductive Event where
  /-- A call `get_cell_ch_virtual(vline, col, _)`. -/
  | get_cell (vline col : Int)
  /-- A call `virtual_line_is_continuation(vline)`. -/
  | is_continuation (vline : Int)
  /-- A read of `sb_buf[p][col]`. -/
  | sb_buf_read (p col : Int)
  /-- A read of `sb_cont[p]`. -/
  | sb_cont_read (p : Int)
  /-- A call `vterm_screen_get_cell` at live `(row, col)`. -/
  | screen_get_cell (row col : Int)
  /-- The call `copybuf_append_utf8(ch)` for the cell at `(vline, col)`;
  `width2` is the flag the cell read returned. -/
  | append_utf8 (vline col : Int) (ch : Nat) (width2 : Int)
  /-- The call `copybuf_append_byte(10)` after the text of `vline`. -/
  | append_newline (vline : Int)
deriving DecidableEq, Repr

/-- Result of `virtual_line_is_continuation` with the reads it made. -/
structure cont_read where
  val : Int
  log : List Event

/-- Function `virtual_line_is_continuation`. -/
def virtual_line_is_continuation (s : session_t) (vline : Int) : cont_read :=
  if vline < 0 then ⟨0, [Event.is_continuation vline]⟩
  else if vline < s.sb_count then
    let p := sb_phys_index s vline
    ⟨if s.sb_cont p ≠ 0 then 1 else 0, [Event.is_continuation vline, Event.sb_cont_read p]⟩
  else ⟨0, [Event.is_continuation vline]⟩

/-- Result of `get_cell_ch_virtual`: the returned codepoint, `*out_width2`
and the reads it made. -/
structure cell_read where
  ch : Nat
  out_width2 : Int
  log : List Event

/-- Function `get_cell_ch_virtual`. -/
def get_cell_ch_virtual (s : session_t) (vline col : Int) : cell_read :=
  if vline < s.sb_count then
    let p := sb_phys_index s vline
    let cell := s.sb_buf p col
    { ch := if cell.ch ≠ 0 then cell.ch else 32
      out_width2 := if cell.width = 2 then 1 else 0
      log := [Event.get_cell vline col, Event.sb_buf_read p col] }
  else
    let vrow := wrap32 (vline - s.sb_count)
    if vrow < 0 ∨ vrow ≥ TERM_ROWS then ⟨32, 0, [Event.get_cell vline col]⟩
    else
      match s.vts vrow col with
      | none => ⟨32, 0, [Event.get_cell vline col, Event.screen_get_cell vrow col]⟩
      | some cell =>
        if cell.width = 0 then
          ⟨32, 0, [Event.get_cell vline col, Event.screen_get_cell vrow col]⟩
        else
          { ch := if cell.chars0 ≠ 0 then cell.chars0 else 32
            out_width2 := if cell.width = 2 then 1 else 0
            log := [Event.get_cell vline col, Event.screen_get_cell vrow col] }

/-! ## Copy buffer -/

/-- The local array `utf8[0..len)` filled by `copybuf_append_utf8(c)`; each
entry is the `(char)` cast of the expression, kept as a byte value. -/
def copybuf_utf8_bytes (c : Nat) : List Nat :=
  if c ≤ 0x7F then [c % 256]
  else if c ≤ 0x7FF then
    [(0xC0 ||| (c >>> 6)) % 256, (0x80 ||| (c &&& 0x3F)) % 256]
  else if c ≤ 0xFFFF then
    [(0xE0 ||| (c >>> 12)) % 256, (0x80 ||| ((c >>> 6) &&& 0x3F)) % 256,
     (0x80 ||| (c &&& 0x3F)) % 256]
  else
    [(0xF0 ||| (c >>> 18)) % 256, (0x80 ||| ((c >>> 12) &&& 0x3F)) % 256,
     (0x80 ||| ((c >>> 6) &&& 0x3F)) % 256, (0x80 ||| (c &&& 0x3F)) % 256]

/-- Function `copybuf_append_utf8` on the bytes `g_copy_buf[0..g_copy_len)`. -/
def copybuf_append_utf8 (c : Nat) (buf : List Nat) : List Nat :=
  buf ++ copybuf_utf8_bytes c

/-- Function `copybuf_append_byte` on the bytes `g_copy_buf[0..g_copy_len)`. -/
def copybuf_append_byte (b : Nat) (buf : List Nat) : List Nat :=
  buf ++ [b % 256]

/-- Function `copybuf_reset`. -/
def copybuf_reset (_buf : List Nat) : List Nat := []

/-- The copy buffer `g_copy_buf[0..g_copy_len)` together with the ghost log. -/
structure copy_state where
  buf : List Nat
  log : List Event

/-! ## Copy extractor -/

/-- The `from` / `to` selection of one line in `region_copy_selection_stream`. -/
def copy_line_range (l1 c1 l2 c2 v : Int) : Int × Int :=
  if l1 = l2 then (c1, c2)
  else if v = l1 then (c1, TERM_COLS - 1)
  else if v = l2 then (0, c2)
  else (0, TERM_COLS - 1)

/-- The loop `while (eff_to >= from) { ...; if (ch != 32) break; eff_to--; }`
run for at most `n` iterations; returns the final `eff_to`. -/
def copy_trim_loop (s : session_t) (v from_ : Int) : Nat → Int → copy_state → Int × copy_state
  | 0, eff_to, st => (eff_to, st)
  | n + 1, eff_to, st =>
    if eff_to ≥ from_ then
      let r := get_cell_ch_virtual s v eff_to
      let st := { st with log := st.log ++ r.log }
      if r.ch ≠ 32 then (eff_to, st)
      else copy_trim_loop s v from_ n (eff_to - 1) st
    else (eff_to, st)

/-- Computation of `eff_to` for one line (trailing-space trimming). The
loop starts at `eff_to = to` and lowers it by one per iteration while
`eff_to >= from`, so `to - from + 1` iterations exhaust it. -/
def copy_eff_to (s : session_t) (v from_ to_ : Int) (st : copy_state) : Int × copy_state :=
  if to_ = TERM_COLS - 1 then
    let r := copy_trim_loop s v from_ (to_ - from_ + 1).toNat to_ st
    (if r.1 < from_ then from_ - 1 else r.1, r.2)
  else (to_, st)

/-- The loop `for (col = from; col <= eff_to; col++) { ... }` run for at
most `n` iterations, started at `col`. -/
def copy_col_loop (s : session_t) (v eff_to : Int) : Nat → Int → copy_state → copy_state
  | 0, _, st => st
  | n + 1, col, st =>
    if col ≤ eff_to then
      let r := get_cell_ch_virtual s v col
      let st : copy_state :=
        { buf := copybuf_append_utf8 r.ch st.buf
          log := st.log ++ r.log ++ [Event.append_utf8 v col r.ch r.out_width2] }
      let col := if r.out_width2 ≠ 0 ∧ col < eff_to then col + 1 else col
      copy_col_loop s v eff_to n (col + 1) st
    else st

/-- The text part of one iteration of the line loop: range, trimming and
emission of the cells. `col` grows by at least one per iteration, so
`eff_to - from + 1` iterations exhaust the column loop. -/
def copy_line_text (s : session_t) (l1 c1 l2 c2 v : Int) (st : copy_state) : copy_state :=
  let ft := copy_line_range l1 c1 l2 c2 v
  let r := copy_eff_to s v ft.1 ft.2 st
  copy_col_loop s v r.1 (r.1 - ft.1 + 1).toNat ft.1 r.2

/-- The line-break part of one iteration of the line loop. -/
def copy_line_break (s : session_t) (l2 v : Int) (st : copy_state) : copy_state :=
  if v ≠ l2 then
    let r := virtual_line_is_continuation s (v + 1)
    let st := { st with log := st.log ++ r.log }
    if r.val = 0 then
      { buf := copybuf_append_byte 10 st.buf, log := st.log ++ [Event.append_newline v] }
    else st
  else st

/-- The loop `for (v = l1; v <= l2; v++) { ... }` with `n` iterations left,
at line `v`. -/
def copy_lines (s : session_t) (l1 c1 l2 c2 : Int) : Nat → Int → copy_state → copy_state
  | 0, _, st => st
  | n + 1, v, st =>
    let st := copy_line_text s l1 c1 l2 c2 v st
    let st := copy_line_break s l2 v st
    copy_lines s l1 c1 l2 c2 n (v + 1) st

/-- The span `(l1, c1, l2, c2)` after normalisation and clamping in
`region_copy_selection_stream`. -/
def copy_span (s : session_t) : Int × Int × Int × Int :=
  let n := region_norm s
  let total := virtual_total_lines s
  (clampi n.1 0 (total - 1), clampi n.2.1 0 (TERM_COLS - 1),
   clampi n.2.2.1 0 (total - 1), clampi n.2.2.2 0 (TERM_COLS - 1))

/-- Function `region_copy_selection_stream`, applied to the session and the
current copy buffer; the log starts empty. The final hand-over of the text
to `SDL_SetClipboardText` changes no program state and is left out. -/
def region_copy_selection_stream (s : session_t) (buf : List Nat) : copy_state :=
  if s.region_mode = 0 ∨ s.selecting = 0 then ⟨buf, []⟩
  else
    let total := virtual_total_lines s
    if total ≤ 0 then ⟨buf, []⟩
    else
      let sp := copy_span s
      let st : copy_state := ⟨copybuf_reset buf, []⟩
      copy_lines s sp.1 sp.2.1 sp.2.2.1 sp.2.2.2 (sp.2.2.1 - sp.1 + 1).toNat sp.1 st

/-! ## Session creation -/

/-- Process-wide state of the session manager. -/
structure Globals where
  g_sessions : Int → session_t
  g_active_sess : Int
  g_menu_active : Int
  g_menu_sel : Int
  g_cursor_mode : Int
  g_mod_shift : Int
  g_mod_ctrl : Int
  g_mod_alt : Int
  g_mod_meta : Int

/-- What the call `forkpty(&s->pty_fd, ...)` leaves in the parent process:
the returned pid and the value of `s->pty_fd` after the call. -/
structure forkpty_result where
  pid : Int
  pty_fd : Int

/-- What `vterm_new` / `vterm_obtain_screen` / `vterm_obtain_state` hand
out: a fresh engine. -/
structure vterm_new_result where
  screen : VTermScreen
  state : VTermState

/-- Function `session_init`: `memset(s, 0, sizeof *s); s->pty_fd = -1;`. -/
def session_init (_s : session_t) : session_t :=
  { used := 0, pty_fd := -1, pid := 0, vt := false
    vts := null_screen, vts_state := null_state
    sb_buf := fun _ _ => zero_cell, sb_cont := fun _ => 0
    sb_head := 0, sb_count := 0, view_offset_lines := 0
    region_mode := 0, selecting := 0
    reg_line := 0, reg_col := 0, sel_line := 0, sel_col := 0 }

/-- Function `session_start_shell`, parent side. -/
def session_start_shell (s : session_t) (f : forkpty_result) : session_t :=
  { s with pty_fd := f.pty_fd, pid := f.pid }

/-- Function `session_init_vterm`. -/
def session_init_vterm (s : session_t) (e : vterm_new_result) : session_t :=
  { s with vt := true, vts := e.screen, vts_state := e.state }

/-- Function `session_create(idx)`: the returned `int` and the new globals. -/
def session_create (idx : Int) (g : Globals) (f : forkpty_result) (e : vterm_new_result) :
    Int × Globals :=
  if idx < 0 ∨ idx ≥ MAX_SESSIONS then (-1, g)
  else
    let s := g.g_sessions idx
    if s.used ≠ 0 then (0, g)
    else
      let s := session_init s
      let s := { s with used := 1 }
      let s := session_start_shell s f
      let s := session_init_vterm s e
      let s := { s with sb_head := 0, sb_count := 0, view_offset_lines := 0, sb_cont := fun _ => 0 }
      let s := { s with region_mode := 0, selecting := 0 }
      (0, { g with g_sessions := fun i => if i = idx then s else g.g_sessions i })

/-- The zero-initialised static `g_sessions[i]`. -/
def zero_session : session_t :=
  { used := 0, pty_fd := 0, pid := 0, vt := false
    vts := null_screen, vts_state := null_state
    sb_buf := fun _ _ => zero_cell, sb_cont := fun _ => 0
    sb_head := 0, sb_count := 0, view_offset_lines := 0
    region_mode := 0, selecting := 0
    reg_line := 0, reg_col := 0, sel_line := 0, sel_col := 0 }

/-- The globals at program start (static initialisers). -/
def g_start : Globals :=
  { g_sessions := fun _ => zero_session
    g_active_sess := 0, g_menu_active := 0, g_menu_sel := 0
    g_cursor_mode := 0, g_mod_shift := 0, g_mod_ctrl := 0, g_mod_alt := 0, g_mod_meta := 0 }

/-! ## Specification vocabulary -/

/-- One call of `cb_sb_pushline4`: its arguments. -/
structure push_args where
  cols : Int
  cells : Int → VTermScreenCell
  continuation : Bool

/-- A store operation issued by the engine. -/
inductive store_op where
  | push (a : push_args)
  | clear

/-- Effect of one store operation. -/
def store_op.apply (s : session_t) : store_op → session_t
  | store_op.push a => cb_sb_pushline4 a.cols a.cells a.continuation s
  | store_op.clear => cb_sb_clear s

/-- A sequence of `cb_sb_pushline4` calls. -/
def push_all (s : session_t) (ps : List push_args) : session_t :=
  ps.foldl (fun s a => cb_sb_pushline4 a.cols a.cells a.continuation s) s

/-- The store invariant `0 <= sb_count <= SCROLLBACK_LINES` and
`0 <= sb_head < SCROLLBACK_LINES`. -/
def store_inv (s : session_t) : Prop :=
  0 ≤ s.sb_count ∧ s.sb_count ≤ SCROLLBACK_LINES ∧ 0 ≤ s.sb_head ∧ s.sb_head < SCROLLBACK_LINES

instance (s : session_t) : Decidable (store_inv s) := by unfold store_inv; infer_instance

/-- The row a push is meant to retire into the store, column by column:
the converted engine cell for the first `min(cols, TERM_COLS)` columns and
a blank for the rest. -/
def pushed_row (st : VTermState) (a : push_args) (c : Int) : sb_cell_t :=
  if c < a.cols ∧ c < TERM_COLS then pushline_out st (a.cells c) else pushline_blank

/-- A scroll adjustment. -/
inductive scroll_adj where
  | l2
  | r2
  | ensure_visible

/-- Effect of one scroll adjustment. -/
def scroll_adj.apply (s : session_t) : scroll_adj → session_t
  | scroll_adj.l2 => process_key_move_BTN_L2 s
  | scroll_adj.r2 => process_key_move_BTN_R2 s
  | scroll_adj.ensure_visible => region_ensure_visible s

/-! ## Vocabulary of the statements and example inputs -/

/-- An engine cell holding the ASCII codepoint `ch`, width 1. -/
def ascii_cell (ch : Nat) : VTermScreenCell :=
  { chars0 := ch, width := 1, reverse := false, fg := ⟨2, 0, 0, 0⟩, bg := ⟨4, 0, 0, 0⟩ }

/-- Two retired rows: `ab` (hard newline) and its soft-wrapped tail `c`. -/
def two_pushes : List push_args :=
  [ { cols := 53, cells := fun c => if c = 0 then ascii_cell 97 else if c = 1 then ascii_cell 98 else ascii_cell 32, continuation := false },
    { cols := 53, cells := fun c => if c = 0 then ascii_cell 99 else ascii_cell 32, continuation := true } ]

/-- A shell on pid 100 behind pty descriptor 5. -/
def fork_ok : forkpty_result := ⟨100, 5⟩

/-- A fresh engine whose grid holds spaces. -/
def blank_engine : vterm_new_result := ⟨fun _ _ => some (ascii_cell 32), fun c => c⟩

/-- The empty copy state. -/
def copy_empty : copy_state := ⟨[], []⟩

/-- Extension of a copy state by the output of a run from the empty state. -/
def copy_state.extend (st d : copy_state) : copy_state := ⟨st.buf ++ d.buf, st.log ++ d.log⟩

/-- Output of one iteration of the line loop, from the empty state. -/
def copy_line_out (s : session_t) (l1 c1 l2 c2 v : Int) : copy_state :=
  (copy_line_text s l1 c1 l2 c2 v copy_empty).extend (copy_line_break s l2 v copy_empty)

/-- The access recorded by an event stays inside the virtual line space, the
row width and the scrollback array. -/
def event_ok (s : session_t) : Event → Prop
  | Event.get_cell vline col =>
      0 ≤ vline ∧ vline ≤ virtual_total_lines s - 1 ∧ 0 ≤ col ∧ col ≤ TERM_COLS - 1
  | Event.is_continuation vline => 0 ≤ vline ∧ vline ≤ virtual_total_lines s - 1
  | Event.sb_buf_read p col => 0 ≤ p ∧ p < SCROLLBACK_LINES ∧ 0 ≤ col ∧ col < TERM_COLS
  | Event.sb_cont_read p => 0 ≤ p ∧ p < SCROLLBACK_LINES
  | Event.screen_get_cell row col => 0 ≤ row ∧ row < TERM_ROWS ∧ 0 ≤ col ∧ col < TERM_COLS
  | Event.append_utf8 _ _ _ _ => True
  | Event.append_newline _ => True

/-- The session in slot 0 after `session_create(0)` at program start. -/
def created_session : session_t :=
  (session_create 0 g_start fork_ok blank_engine).2.g_sessions 0

/-- One retired row of 53 cells `x`. -/
def text_push : push_args :=
  { cols := 53, cells := fun _ => ascii_cell 120, continuation := false }

/-- The created session after 100 rows were retired into its scrollback. -/
def hundred_rows : session_t :=
  push_all created_session (List.replicate 100 text_push)

/-- A session with 100 retired rows whose selection coordinates are stale. -/
def stale_session : session_t :=
  { hundred_rows with
    region_mode := 1, selecting := 1
    sel_line := -7, sel_col := 99, reg_line := 5000, reg_col := -3 }

/-- A session with 100 retired rows in region mode: the cursor on virtual
line 40 and the anchor on virtual line 30, scrolled back by 70 lines. -/
def scrolled_selection : session_t :=
  { hundred_rows with
    view_offset_lines := 70, region_mode := 1, selecting := 1
    sel_line := 30, sel_col := 0, reg_line := 40, reg_col := 7 }

/-- The session `scrolled_selection` with the view back at the live bottom. -/
def bottom_view_selection : session_t :=
  { scrolled_selection with view_offset_lines := 0 }

/-- The cursor line is inside the viewport of a session with scroll offset
`o`: `sb_count - o <= reg_line <= sb_count - o + TERM_ROWS - 1`. -/
def cursor_visible_at (s : session_t) (o : Int) : Prop :=
  s.sb_count - o ≤ s.reg_line ∧ s.reg_line ≤ s.sb_count - o + (TERM_ROWS - 1)

/-- The log holds an emission (`copybuf_append_utf8`) for the cell at
`(v, k)`. -/
def emits_col (log : List Event) (v k : Int) : Bool :=
  log.any (fun ev =>
    match ev with
    | Event.append_utf8 v' k' _ _ => decide (v' = v ∧ k' = k)
    | _ => false)

/-- The log holds an emission for the cell at `(v, k)` whose read reported a
width-2 cell. -/
def emits_wide (log : List Event) (v k : Int) : Bool :=
  log.any (fun ev =>
    match ev with
    | Event.append_utf8 v' k' _ w => decide (v' = v ∧ k' = k ∧ w ≠ 0)
    | _ => false)

/-- An engine cell holding a width-2 glyph. -/
def wide_cell (ch : Nat) : VTermScreenCell :=
  { chars0 := ch, width := 2, reverse := false, fg := ⟨2, 0, 0, 0⟩, bg := ⟨4, 0, 0, 0⟩ }

/-- The padding slot the engine reports after a width-2 glyph. -/
def pad_cell : VTermScreenCell :=
  { chars0 := 0, width := 0, reverse := false, fg := ⟨2, 0, 0, 0⟩, bg := ⟨4, 0, 0, 0⟩ }

/-- One retired row: a width-2 glyph (U+6F22) at column 0, its padding slot
at column 1, `a` at column 2 and spaces up to the row end. -/
def wide_push : push_args :=
  { cols := 53
    cells := fun c =>
      if c = 0 then wide_cell 0x6F22 else if c = 1 then pad_cell
      else if c = 2 then ascii_cell 97 else ascii_cell 32
    continuation := false }

/-- A session whose scrollback holds the row `wide_push`, with that whole row
selected: anchor `(0, 0)`, cursor `(0, TERM_COLS - 1)`. -/
def wide_session : session_t :=
  { push_all created_session [wide_push] with
    region_mode := 1, selecting := 1
    sel_line := 0, sel_col := 0, reg_line := 0, reg_col := 52 }

/-- Two retired rows (`ab` and its soft-wrapped tail `c`) above a blank
grid, selected from `(0, 0)` to `(2, 0)`. -/
def wrapped_session : session_t :=
  { push_all created_session two_pushes with
    region_mode := 1, selecting := 1
    sel_line := 0, sel_col := 0, reg_line := 2, reg_col := 0 }

/-- The event is not an emission. -/
def not_emission : Event → Prop
  | Event.append_utf8 _ _ _ _ => False
  | _ => True

/-- Column range `(from, to)` of line `v` for the clamped span of the
session. -/
def span_line_range (s : session_t) (v : Int) : Int × Int :=
  copy_line_range (copy_span s).1 (copy_span s).2.1 (copy_span s).2.2.1 (copy_span s).2.2.2 v

/-- The `eff_to` computed for line `v` of the clamped span of the session. -/
def span_line_eff_to (s : session_t) (v : Int) : Int :=
  (copy_eff_to s v (span_line_range s v).1 (span_line_range s v).2 copy_empty).1

/-- The bytes the line loop emits for the cells of line `v` of the clamped
span of the session. -/
def span_line_text (s : session_t) (v : Int) : List Nat :=
  (copy_line_text s (copy_span s).1 (copy_span s).2.1 (copy_span s).2.2.1 (copy_span s).2.2.2 v
    copy_empty).buf

/-- An emission event carries the codepoint and width flag of the cell read
at its position. -/
def emission_faithful (s : session_t) : Event → Prop
  | Event.append_utf8 v k ch w =>
      ch = (get_cell_ch_virtual s v k).ch ∧ w = (get_cell_ch_virtual s v k).out_width2
  | _ => True

/-- The bytes an event adds to the copy buffer. -/
def render_event : Event → List Nat
  | Event.append_utf8 _ _ ch _ => copybuf_utf8_bytes ch
  | Event.append_newline _ => [10]
  | _ => []

/-- The event adds nothing to the copy buffer. -/
def silent : Event → Prop
  | Event.append_utf8 _ _ _ _ => False
  | Event.append_newline _ => False
  | _ => True

/-- UTF-8 decoding of one encoded codepoint, written from the standard
byte layout: lead byte `0xxxxxxx`, `110xxxxx`, `1110xxxx` or `11110xxx`
followed by continuation bytes `10xxxxxx`; a sequence longer than the value
needs, or beyond U+10FFFF, is rejected. -/
def utf8_decode_spec : List Nat → Option Nat
  | [b0] => if b0 / 128 = 0 then some b0 else none
  | [b0, b1] =>
    if b0 / 32 = 6 ∧ b1 / 64 = 2 then
      let c := (b0 % 32) * 64 + b1 % 64
      if 0x80 ≤ c then some c else none
    else none
  | [b0, b1, b2] =>
    if b0 / 16 = 14 ∧ b1 / 64 = 2 ∧ b2 / 64 = 2 then
      let c := (b0 % 16) * 4096 + (b1 % 64) * 64 + b2 % 64
      if 0x800 ≤ c then some c else none
    else none
  | [b0, b1, b2, b3] =>
    if b0 / 8 = 30 ∧ b1 / 64 = 2 ∧ b2 / 64 = 2 ∧ b3 / 64 = 2 then
      let c := (b0 % 8) * 262144 + (b1 % 64) * 4096 + (b2 % 64) * 64 + b3 % 64
      if 0x10000 ≤ c ∧ c ≤ 0x10FFFF then some c else none
    else none
  | _ => none

/-! ## Region selector -/

/-- Function `region_enter`. -/
def region_enter (s : session_t) : session_t :=
  let s := { s with region_mode := 1, selecting := 0 }
  let r := virtual_start_line s
  let start := r.1
  let s := r.2
  let v := wrap32 (start + (TERM_ROWS - 1))
  let total := virtual_total_lines s
  let v := if total > 0 then clampi v 0 (total - 1) else v
  { s with reg_line := v, reg_col := 0 }

/-- Function `region_exit`. -/
def region_exit (s : session_t) : session_t :=
  { s with region_mode := 0, selecting := 0 }

/-- Function `region_line_hl_range`: the out-parameters `(from, to)`. -/
def region_line_hl_range (s : session_t) (vline : Int) : Int × Int :=
  if s.region_mode = 0 ∨ s.selecting = 0 then (1, 0)
  else
    let n := region_norm s
    let l1 := n.1
    let c1 := n.2.1
    let l2 := n.2.2.1
    let c2 := n.2.2.2
    if vline < l1 ∨ vline > l2 then (1, 0)
    else if l1 = l2 then (c1, c2)
    else if vline = l1 then (c1, TERM_COLS - 1)
    else if vline = l2 then (0, c2)
    else (0, TERM_COLS - 1)

/-! ## Paste -/

/-- The bytes of a C string: those before the first NUL. -/
def c_string (t : List Nat) : List Nat := t.takeWhile (fun b => b ≠ 0)

/-- Function `paste_text_to_pty`: the bytes written to the pty of the
session; `none` is a null pointer. -/
def paste_text_to_pty (s : session_t) (text : Option (List Nat)) : List Nat :=
  match text with
  | none => []
  | some t =>
    if t.headD 0 = 0 then []
    else if s.pty_fd ≥ 0 then c_string t else []

/-- Function `paste_from_buffers`: the bytes written to the pty. `clip` is
the OS clipboard: `none` when `SDL_HasClipboardText` is false, else the text
`SDL_GetClipboardText` returns; `buf` is `g_copy_buf[0..g_copy_len)`. -/
def paste_from_buffers (s : session_t) (clip : Option (List Nat)) (buf : List Nat) : List Nat :=
  match clip with
  | some t =>
    if t.headD 0 ≠ 0 then paste_text_to_pty s (some t)
    else if buf.headD 0 ≠ 0 then paste_text_to_pty s (some buf) else []
  | none =>
    if buf.headD 0 ≠ 0 then paste_text_to_pty s (some buf) else []

/-! ## Keys of the region selector -/

/-- Macro `SESS()`: the active session. -/
def SESS (g : Globals) : session_t := g.g_sessions g.g_active_sess

/-- Assignment through `SESS()`. -/
def set_SESS (g : Globals) (s : session_t) : Globals :=
  { g with g_sessions := fun i => if i = g.g_active_sess then s else g.g_sessions i }

/-- Function `pty_send_byte`: the bytes written to the pty. -/
def pty_send_byte (g : Globals) (b : Nat) : List Nat :=
  if (SESS g).pty_fd ≥ 0 then [b] else []

/-- Function `pty_send_byte_with_altmeta`: the bytes written to the pty. -/
def pty_send_byte_with_altmeta (g : Globals) (b : Nat) : List Nat :=
  (if g.g_mod_alt ≠ 0 ∨ g.g_mod_meta ≠ 0 then pty_send_byte g 0x1B else [])
    ++ pty_send_byte g b

/-- The call `send_key("BS")`: the `strcmp` chain selects
`pty_send_byte_with_altmeta(0x7f)`. -/
def send_key_BS (g : Globals) : List Nat := pty_send_byte_with_altmeta g 0x7f

/-- The call `send_key("ENT")`: the `strcmp` chain selects
`pty_send_byte_with_altmeta(10)`. -/
def send_key_ENT (g : Globals) : List Nat := pty_send_byte_with_altmeta g 10

/-- Branch `case BTN_B:` of `process_key_move`: the new globals and the bytes
written to the pty. -/
def process_key_move_BTN_B (g : Globals) : Globals × List Nat :=
  if (SESS g).region_mode ≠ 0 then
    if (SESS g).selecting ≠ 0 then (set_SESS g { SESS g with selecting := 0 }, [])
    else (set_SESS g (region_exit (SESS g)), [])
  else (g, send_key_BS g)

/-- Branch `case BTN_X:` of `process_key_move`: the new globals and the bytes
written to the pty. -/
def process_key_move_BTN_X (g : Globals) : Globals × List Nat :=
  if (SESS g).region_mode ≠ 0 then
    if (SESS g).selecting = 0 then
      (set_SESS g { SESS g with
        selecting := 1, sel_line := (SESS g).reg_line, sel_col := (SESS g).reg_col }, [])
    else (set_SESS g { SESS g with selecting := 0 }, [])
  else if g.g_cursor_mode ≠ 0 then (set_SESS g (region_enter (SESS g)), [])
  else (g, send_key_ENT g)

/-! ## Vocabulary for the region claims -/

/-- The session with anchor and cursor exchanged. -/
def swap_selection (s : session_t) : session_t :=
  { s with sel_line := s.reg_line, sel_col := s.reg_col,
           reg_line := s.sel_line, reg_col := s.sel_col }

/-- The session with the anchor at `(al, ac)` and the cursor at `(bl, bc)`. -/
def with_selection (s : session_t) (al ac bl bc : Int) : session_t :=
  { s with sel_line := al, sel_col := ac, reg_line := bl, reg_col := bc }

/-- Lexicographic order on `(line, col)`. -/
def pos_le (l1 c1 l2 c2 : Int) : Prop := l1 < l2 ∨ (l1 = l2 ∧ c1 ≤ c2)

/-- The created session scrolled back by 14 presses of `BTN_L2` over 100
retired rows. -/
def scrolled_back : session_t :=
  (List.replicate 14 scroll_adj.l2).foldl scroll_adj.apply hundred_rows

/-- The globals with the session `scrolled_selection` active in slot 0, its
selection cancelled (region mode on, no anchor). -/
def positioned_globals : Globals :=
  { g_start with
    g_sessions := fun i => if i = 0 then { scrolled_selection with selecting := 0 }
                           else zero_session }

/-- One retired row `0123...` of 53 printable ASCII cells, none a space:
column `c` holds the codepoint `48 + c`. -/
def digits_push : push_args :=
  { cols := 53, cells := fun c => ascii_cell (48 + c.toNat), continuation := false }

/-- A session whose scrollback holds the row `digits_push`, with that whole
row selected: anchor `(0, 0)`, cursor `(0, TERM_COLS - 1)`. -/
def digits_session : session_t :=
  { push_all created_session [digits_push] with
    region_mode := 1, selecting := 1
    sel_line := 0, sel_col := 0, reg_line := 0, reg_col := 52 }

/-- The event is not an inserted line break. -/
def not_newline : Event → Prop
  | Event.append_newline _ => False
  | _ => True

/-! ## Session manager -/

/-- Button `BTN_B`. -/
@[simp] def BTN_B : Int := 0

/-- Button `BTN_A`. -/
@[simp] def BTN_A : Int := 1

/-- Button `BTN_X`. -/
@[simp] def BTN_X : Int := 2

/-- Button `BTN_Y`. -/
@[simp] def BTN_Y : Int := 3

/-- Button `BTN_UP`. -/
@[simp] def BTN_UP : Int := 10

/-- Button `BTN_DOWN`. -/
@[simp] def BTN_DOWN : Int := 11

/-- Button `BTN_MENU`. -/
@[simp] def BTN_MENU : Int := 14

/-- Answers of the operating system to the process-group queries:
`tcgetpgrp(fd)` and `getpgid(pid)`, negative on failure. -/
structure os_procs where
  tcgetpgrp : Int → Int
  getpgid : Int → Int

/-- Function `session_is_locked`. -/
def session_is_locked (os : os_procs) (s : session_t) : Int :=
  if s.used = 0 ∨ s.pty_fd < 0 ∨ s.pid ≤ 0 then 0
  else
    let fg := os.tcgetpgrp s.pty_fd
    if fg < 0 then 0
    else
      let sh_pgrp := os.getpgid s.pid
      if sh_pgrp < 0 then 0
      else if fg ≠ sh_pgrp then 1 else 0

/-- A call of `session_destroy` into the operating system or libvterm. -/
inductive sys_call where
  /-- The call `kill(pid, SIGHUP)`. -/
  | kill_sighup (pid : Int)
  /-- The call `waitpid(pid, NULL, WNOHANG)`. -/
  | waitpid_nohang (pid : Int)
  /-- The call `close(fd)`. -/
  | close (fd : Int)
  /-- The call `vterm_free(vt)`. -/
  | vterm_free
deriving DecidableEq, Repr

/-- Function `session_destroy(idx)`: the new globals and the external calls
made, in order. -/
def session_destroy (idx : Int) (g : Globals) : Globals × List sys_call :=
  if idx < 0 ∨ idx ≥ MAX_SESSIONS then (g, [])
  else
    let s := g.g_sessions idx
    if s.used = 0 then (g, [])
    else
      let calls :=
        (if s.pid > 0 then [sys_call.kill_sighup s.pid, sys_call.waitpid_nohang s.pid] else [])
        ++ (if s.pty_fd ≥ 0 then [sys_call.close s.pty_fd] else [])
        ++ (if s.vt then [sys_call.vterm_free] else [])
      let s := session_init s
      let s := { s with used := 0 }
      ({ g with g_sessions := fun i => if i = idx then s else g.g_sessions i }, calls)

/-- The loop `for (i = i0; i < MAX_SESSIONS; i++) if (g_sessions[i].used) n++;`
with `k` iterations left. -/
def sessions_alive_loop (g : Globals) : Nat → Int → Int → Int
  | 0, _, n => n
  | k + 1, i, n =>
    sessions_alive_loop g k (i + 1) (if (g.g_sessions i).used ≠ 0 then n + 1 else n)

/-- Function `sessions_alive_count`. -/
def sessions_alive_count (g : Globals) : Int :=
  sessions_alive_loop g MAX_SESSIONS.toNat 0 0

/-- The loop `for (i = i0; i <= MAX_SESSIONS; i++) { ... return idx; }` of
`find_next_alive` with `k` iterations left; `-1` when it runs out. -/
def find_next_alive_loop (g : Globals) (from_ : Int) : Nat → Int → Int
  | 0, _ => -1
  | k + 1, i =>
    let idx := Int.tmod (wrap32 (from_ + i)) MAX_SESSIONS
    if (g.g_sessions idx).used ≠ 0 then idx
    else find_next_alive_loop g from_ k (i + 1)

/-- Function `find_next_alive(from)`. -/
def find_next_alive (g : Globals) (from_ : Int) : Int :=
  find_next_alive_loop g from_ MAX_SESSIONS.toNat 1

/-- Function `session_switch(idx)`. -/
def session_switch (idx : Int) (g : Globals) (f : forkpty_result) (e : vterm_new_result) :
    Globals :=
  if idx < 0 ∨ idx ≥ MAX_SESSIONS then g
  else
    let g := if (g.g_sessions idx).used = 0 then (session_create idx g f e).2 else g
    let g := { g with g_cursor_mode := 0 }
    let g := { g with g_mod_ctrl := 0, g_mod_alt := 0, g_mod_meta := 0, g_mod_shift := 0 }
    { g with g_active_sess := idx }

/-- Function `session_menu_open`. -/
def session_menu_open (g : Globals) : Globals :=
  { g with g_menu_active := 1, g_menu_sel := g.g_active_sess }

/-- Function `session_menu_close`. -/
def session_menu_close (g : Globals) : Globals :=
  { g with g_menu_active := 0 }

/-- Function `session_menu_delete_selected`: the new globals and the external
calls made by `session_destroy`. -/
def session_menu_delete_selected (os : os_procs) (g : Globals) (f : forkpty_result)
    (e : vterm_new_result) : Globals × List sys_call :=
  let idx := g.g_menu_sel
  if (g.g_sessions idx).used = 0 then (g, [])
  else if session_is_locked os (g.g_sessions idx) ≠ 0 then (g, [])
  else
    let was_active : Bool := decide (idx = g.g_active_sess)
    let r := session_destroy idx g
    let g := r.1
    if sessions_alive_count g = 0 then
      let g := (session_create 0 g f e).2
      let g := { g with g_active_sess := 0 }
      (session_menu_close g, r.2)
    else
      let g :=
        if was_active then
          let next := find_next_alive g idx
          if next ≥ 0 then { g with g_active_sess := next } else g
        else g
      let g :=
        if (g.g_sessions g.g_menu_sel).used = 0 then
          let next := find_next_alive g g.g_menu_sel
          if next ≥ 0 then { g with g_menu_sel := next } else g
        else g
      (g, r.2)

/-- Function `process_session_menu(btn)`: the new globals and the external
calls made. -/
def process_session_menu (btn : Int) (os : os_procs) (g : Globals) (f : forkpty_result)
    (e : vterm_new_result) : Globals × List sys_call :=
  if btn = BTN_MENU ∨ btn = BTN_B then (session_menu_close g, [])
  else if btn = BTN_UP then
    let sel := Int.tmod (wrap32 (wrap32 (g.g_menu_sel + MAX_SESSIONS) - 1)) MAX_SESSIONS
    ({ g with g_menu_sel := sel }, [])
  else if btn = BTN_DOWN then
    ({ g with g_menu_sel := Int.tmod (wrap32 (g.g_menu_sel + 1)) MAX_SESSIONS }, [])
  else if btn = BTN_A then (session_menu_close (session_switch g.g_menu_sel g f e), [])
  else if btn = BTN_X then ((session_create g.g_menu_sel g f e).2, [])
  else if btn = BTN_Y then session_menu_delete_selected os g f e
  else (g, [])

/-- The globals after the start-up code of `main`:
`session_create(0); g_active_sess = 0;`. -/
def main_start (f : forkpty_result) (e : vterm_new_result) : Globals :=
  { (session_create 0 g_start f e).2 with g_active_sess := 0 }

/-! ## Vocabulary for the session manager claims -/

/-- What the environment answers during one manager action. -/
structure mgr_env where
  os : os_procs
  fork : forkpty_result
  vterm : vterm_new_result

/-- An action on the session manager. -/
inductive mgr_action where
  | create (idx : Int)
  | switch (idx : Int)
  | delete_selected
  | menu_open
  | menu_button (btn : Int)

/-- Effect of one manager action on the globals. -/
def mgr_step (g : Globals) (a : mgr_action × mgr_env) : Globals :=
  match a.1 with
  | mgr_action.create idx => (session_create idx g a.2.fork a.2.vterm).2
  | mgr_action.switch idx => session_switch idx g a.2.fork a.2.vterm
  | mgr_action.delete_selected => (session_menu_delete_selected a.2.os g a.2.fork a.2.vterm).1
  | mgr_action.menu_open => session_menu_open g
  | mgr_action.menu_button btn => (process_session_menu btn a.2.os g a.2.fork a.2.vterm).1

/-- The manager invariant: the active index and the menu selection are slots
of the array and the active slot is used. -/
def mgr_inv (g : Globals) : Prop :=
  0 ≤ g.g_active_sess ∧ g.g_active_sess < MAX_SESSIONS
  ∧ (g.g_sessions g.g_active_sess).used ≠ 0
  ∧ 0 ≤ g.g_menu_sel ∧ g.g_menu_sel < MAX_SESSIONS

/-- A failed `forkpty`: it returns -1 and leaves the descriptor at -1. -/
def fork_fail : forkpty_result := ⟨-1, -1⟩

/-- Process groups in which the shell itself is in the foreground: pty 5 has
foreground group 100, the group of pid 100. -/
def os_idle : os_procs := ⟨fun _ => 100, fun _ => 100⟩

/-- Process groups in which a job is in the foreground: pty 5 has foreground
group 200, the shell (pid 100) is in group 100. -/
def os_job : os_procs := ⟨fun _ => 200, fun _ => 100⟩

/-- The environment of an action with the shell idle and a working
`forkpty`. -/
def env_idle : mgr_env := ⟨os_idle, fork_ok, blank_engine⟩

/-- The globals after start-up with the menu opened on slot 0. -/
def menu_on_first : Globals := session_menu_open (main_start fork_ok blank_engine)

/-- The globals after the start-up code of `main` followed by a sequence of
manager actions. -/
def mgr_run (f : forkpty_result) (e : vterm_new_result)
    (acts : List (mgr_action × mgr_env)) : Globals :=
  acts.foldl mgr_step (main_start f e)

/-- Switching to slot 3 (which creates it) and opening the menu: slots 0 and 3
are used, slot 3 is active and selected. -/
def acts_to_three : List (mgr_action × mgr_env) :=
  [(mgr_action.switch 3, env_idle), (mgr_action.menu_open, env_idle)]

/-- A full ring whose head has wrapped round to row 3: the oldest retained
row is physical row 3 and the newest is physical row 2. -/
def wrapped_store : session_t :=
  { created_session with sb_head := 3, sb_count := 2000 }

/-! ## Proofs -/

set_option maxRecDepth 100000

theorem wrap32_eq (x : Int) (h1 : -2147483648 ≤ x) (h2 : x ≤ 2147483647) : wrap32 x = x := by
  unfold wrap32; omega

theorem pushline_copy_apply (st : VTermState) (cells : Int → VTermScreenCell) (n : Nat) :
    ∀ (c : Int) (dst : Int → sb_cell_t) (k : Int),
      pushline_copy st cells n c dst k
        = if c ≤ k ∧ k < c + n then pushline_out st (cells k) else dst k := by
  induction n with
  | zero =>
    intro c dst k
    have : ¬ (c ≤ k ∧ k < c + ((0 : Nat) : Int)) := by omega
    rw [pushline_copy, if_neg this]
  | succ n ih =>
    intro c dst k
    rw [pushline_copy, ih]
    by_cases h1 : c + 1 ≤ k ∧ k < c + 1 + (n : Int)
    · have h2 : c ≤ k ∧ k < c + ((n + 1 : Nat) : Int) := by push_cast; omega
      rw [if_pos h1, if_pos h2]
    · rw [if_neg h1]
      by_cases h3 : k = c
      · have h2 : c ≤ k ∧ k < c + ((n + 1 : Nat) : Int) := by push_cast; omega
        rw [if_pos h3, if_pos h2, h3]
      · have h2 : ¬ (c ≤ k ∧ k < c + ((n + 1 : Nat) : Int)) := by push_cast; omega
        rw [if_neg h3, if_neg h2]

theorem pushline_fill_apply (n : Nat) :
    ∀ (c : Int) (dst : Int → sb_cell_t) (k : Int),
      pushline_fill n c dst k = if c ≤ k ∧ k < c + n then pushline_blank else dst k := by
  induction n with
  | zero =>
    intro c dst k
    have : ¬ (c ≤ k ∧ k < c + ((0 : Nat) : Int)) := by omega
    rw [pushline_fill, if_neg this]
  | succ n ih =>
    intro c dst k
    rw [pushline_fill, ih]
    by_cases h1 : c + 1 ≤ k ∧ k < c + 1 + (n : Int)
    · have h2 : c ≤ k ∧ k < c + ((n + 1 : Nat) : Int) := by push_cast; omega
      rw [if_pos h1, if_pos h2]
    · rw [if_neg h1]
      by_cases h3 : k = c
      · have h2 : c ≤ k ∧ k < c + ((n + 1 : Nat) : Int) := by push_cast; omega
        rw [if_pos h3, if_pos h2]
      · have h2 : ¬ (c ≤ k ∧ k < c + ((n + 1 : Nat) : Int)) := by push_cast; omega
        rw [if_neg h3, if_neg h2]

/-- The row written by one push, for a non-negative column count. -/
theorem pushline_row (a : push_args) (s : session_t) (h : 0 ≤ a.cols) (c : Int)
    (hc0 : 0 ≤ c) (hc1 : c < TERM_COLS) :
    (cb_sb_pushline4 a.cols a.cells a.continuation s).sb_buf s.sb_head c
      = pushed_row s.vts_state a c := by
  simp only [cb_sb_pushline4, if_true, pushed_row]
  rw [pushline_fill_apply, pushline_copy_apply]
  simp only [TERM_COLS] at *
  by_cases h53 : a.cols > 53
  · simp only [if_pos h53]
    have e1 : ¬ ((53 : Int) ≤ c ∧ c < 53 + (((53 : Int) - 53).toNat : Int)) := by omega
    have e2 : (0 ≤ c ∧ c < 0 + (((53 : Int).toNat : Nat) : Int)) := by omega
    have e3 : c < a.cols ∧ c < 53 := by omega
    rw [if_neg e1, if_pos e2, if_pos e3]
  · simp only [if_neg h53]
    by_cases hlt : c < a.cols
    · have e1 : ¬ (a.cols ≤ c ∧ c < a.cols + (((53 : Int) - a.cols).toNat : Int)) := by omega
      have e2 : (0 ≤ c ∧ c < 0 + ((a.cols.toNat : Nat) : Int)) := by omega
      have e3 : c < a.cols ∧ c < 53 := by omega
      rw [if_neg e1, if_pos e2, if_pos e3]
    · have e1 : (a.cols ≤ c ∧ c < a.cols + (((53 : Int) - a.cols).toNat : Int)) := by omega
      have e3 : ¬ (c < a.cols ∧ c < 53) := by omega
      rw [if_pos e1, if_neg e3]

theorem pushline_other_row (a : push_args) (s : session_t) (p : Int) (hp : p ≠ s.sb_head) :
    (cb_sb_pushline4 a.cols a.cells a.continuation s).sb_buf p = s.sb_buf p
    ∧ (cb_sb_pushline4 a.cols a.cells a.continuation s).sb_cont p = s.sb_cont p := by
  simp [cb_sb_pushline4, hp]

theorem pushline_cont (a : push_args) (s : session_t) :
    (cb_sb_pushline4 a.cols a.cells a.continuation s).sb_cont s.sb_head
      = if a.continuation then 1 else 0 := by
  simp [cb_sb_pushline4]

theorem pushline_head (a : push_args) (s : session_t) (h0 : 0 ≤ s.sb_head)
    (h1 : s.sb_head < SCROLLBACK_LINES) :
    (cb_sb_pushline4 a.cols a.cells a.continuation s).sb_head = (s.sb_head + 1) % 2000 := by
  simp only [cb_sb_pushline4, SCROLLBACK_LINES] at *
  rw [wrap32_eq _ (by omega) (by omega), Int.tmod_eq_emod (by omega) (by omega)]

theorem pushline_count (a : push_args) (s : session_t) (h0 : 0 ≤ s.sb_count)
    (h1 : s.sb_count ≤ SCROLLBACK_LINES) :
    (cb_sb_pushline4 a.cols a.cells a.continuation s).sb_count
      = if s.sb_count < 2000 then s.sb_count + 1 else s.sb_count := by
  simp only [cb_sb_pushline4, SCROLLBACK_LINES] at *
  split
  · rw [wrap32_eq _ (by omega) (by omega)]
  · rfl

theorem pushline_state (a : push_args) (s : session_t) :
    (cb_sb_pushline4 a.cols a.cells a.continuation s).vts_state = s.vts_state := rfl

theorem push_all_snoc (s0 : session_t) (ps : List push_args) (a : push_args) :
    push_all s0 (ps ++ [a]) = cb_sb_pushline4 a.cols a.cells a.continuation (push_all s0 ps) := by
  simp [push_all, List.foldl_append]

/-- Ring invariant after a sequence of pushes from an empty store. -/
theorem push_all_ring (s0 : session_t) (h0 : s0.sb_head = 0) (hc : s0.sb_count = 0)
    (ps : List push_args) :
    (∀ a ∈ ps, 0 ≤ a.cols) →
      (push_all s0 ps).sb_head = (ps.length : Int) % 2000
      ∧ (push_all s0 ps).sb_count = min (ps.length : Int) 2000
      ∧ (push_all s0 ps).vts_state = s0.vts_state
      ∧ ∀ (j : Nat) (a : push_args), ps[j]? = some a → ps.length ≤ j + 2000 →
          (∀ c, 0 ≤ c → c < TERM_COLS →
            (push_all s0 ps).sb_buf ((j : Int) % 2000) c = pushed_row s0.vts_state a c)
          ∧ (push_all s0 ps).sb_cont ((j : Int) % 2000) = if a.continuation then 1 else 0 := by
  induction ps using List.reverseRecOn with
  | nil =>
    intro _
    refine ⟨by simpa [push_all] using h0, by simpa [push_all] using hc, rfl, ?_⟩
    intro j a hj
    simp at hj
  | append_singleton ps b ih =>
    intro hcols
    have hps : ∀ a ∈ ps, 0 ≤ a.cols := fun a ha => hcols a (by simp [ha])
    have hb : 0 ≤ b.cols := hcols b (by simp)
    obtain ⟨ihh, ihc, ihs, ihr⟩ := ih hps
    rw [push_all_snoc]
    have hlen : ((ps ++ [b]).length : Int) = (ps.length : Int) + 1 := by simp
    have hh0 : 0 ≤ (push_all s0 ps).sb_head := by rw [ihh]; omega
    have hh1 : (push_all s0 ps).sb_head < SCROLLBACK_LINES := by
      rw [ihh]; simp only [SCROLLBACK_LINES]; omega
    have hc0 : 0 ≤ (push_all s0 ps).sb_count := by rw [ihc]; omega
    have hc1 : (push_all s0 ps).sb_count ≤ SCROLLBACK_LINES := by
      rw [ihc]; simp only [SCROLLBACK_LINES]; omega
    refine ⟨?_, ?_, ?_, ?_⟩
    · rw [pushline_head _ _ hh0 hh1, ihh, hlen]; omega
    · rw [pushline_count _ _ hc0 hc1, ihc, hlen]
      split <;> omega
    · rw [pushline_state, ihs]
    · intro j a hj hle
      have hle2 : ps.length + 1 ≤ j + 2000 := by simpa using hle
      by_cases hjn : j < ps.length
      · have hj2 : ps[j]? = some a := by
          rw [List.getElem?_append_left hjn] at hj; exact hj
        have hne : ((j : Int) % 2000) ≠ (push_all s0 ps).sb_head := by
          rw [ihh]; omega
        obtain ⟨e1, e2⟩ := pushline_other_row b (push_all s0 ps) _ hne
        rw [e1, e2]
        exact ihr j a hj2 (by omega)
      · have hjlen : j < (ps ++ [b]).length := by
          by_contra hcon
          rw [List.getElem?_eq_none (by omega)] at hj
          exact absurd hj (by simp)
        have hjeq : j = ps.length := by
          simp at hjlen; omega
        have hab : a = b := by
          subst hjeq
          simp at hj
          exact hj.symm
        have hidx : ((j : Int) % 2000) = (push_all s0 ps).sb_head := by
          rw [ihh, hjeq]
        rw [hidx, hab]
        refine ⟨?_, pushline_cont b _⟩
        intro c hc0' hc1'
        rw [pushline_row b _ hb c hc0' hc1', ihs]

theorem sb_oldest_loop_one (idx : Int) (n : Nat) (h1 : -2000 ≤ idx) (h2 : idx < 2000) :
    sb_oldest_loop (n + 1) idx = if idx < 0 then idx + 2000 else idx := by
  rw [sb_oldest_loop]
  by_cases h : idx < 0
  · rw [if_pos h, if_pos h]
    simp only [SCROLLBACK_LINES]
    rw [wrap32_eq _ (by omega) (by omega)]
    cases n with
    | zero => rfl
    | succ n => rw [sb_oldest_loop, if_neg (by omega)]
  · rw [if_neg h, if_neg h]

/-- Under the store invariant the oldest row is `(head - count)` wrapped once. -/
theorem sb_oldest_index_inv (s : session_t) (h : store_inv s) :
    sb_oldest_index s
      = if s.sb_head - s.sb_count < 0 then s.sb_head - s.sb_count + 2000
        else s.sb_head - s.sb_count := by
  obtain ⟨h1, h2, h3, h4⟩ := h
  simp only [SCROLLBACK_LINES] at *
  unfold sb_oldest_index
  simp only
  rw [wrap32_eq _ (by omega) (by omega)]
  exact sb_oldest_loop_one _ _ (by omega) (by omega)

/-- Under the store invariant the physical index is the wrapped sum. -/
theorem sb_phys_index_inv (s : session_t) (h : store_inv s) (i : Int) (hi0 : 0 ≤ i)
    (hi1 : i < s.sb_count) :
    sb_phys_index s i = (s.sb_head - s.sb_count + 2000 + i) % 2000 := by
  unfold sb_phys_index
  simp only
  rw [sb_oldest_index_inv s h]
  obtain ⟨h1, h2, h3, h4⟩ := h
  simp only [SCROLLBACK_LINES] at *
  split
  · rw [wrap32_eq _ (by omega) (by omega), Int.tmod_eq_emod (by omega) (by omega)]
  · rw [wrap32_eq _ (by omega) (by omega), Int.tmod_eq_emod (by omega) (by omega)]
    omega

theorem push_all_store_inv (s0 : session_t) (h0 : s0.sb_head = 0) (hc : s0.sb_count = 0)
    (ps : List push_args) (hcols : ∀ a ∈ ps, 0 ≤ a.cols) : store_inv (push_all s0 ps) := by
  obtain ⟨e1, e2, _, _⟩ := push_all_ring s0 h0 hc ps hcols
  unfold store_inv
  rw [e1, e2]
  simp only [SCROLLBACK_LINES]
  omega

/-- Logical row `i` after a sequence of pushes is push number
`length - count + i`. -/
theorem push_all_logical (s0 : session_t) (h0 : s0.sb_head = 0) (hc : s0.sb_count = 0)
    (ps : List push_args) (hcols : ∀ a ∈ ps, 0 ≤ a.cols) (i : Nat)
    (hi : (i : Int) < (push_all s0 ps).sb_count) (a : push_args)
    (ha : ps[ps.length - min ps.length 2000 + i]? = some a) :
    (∀ c, 0 ≤ c → c < TERM_COLS →
        (push_all s0 ps).sb_buf (sb_phys_index (push_all s0 ps) i) c
          = pushed_row s0.vts_state a c)
    ∧ (push_all s0 ps).sb_cont (sb_phys_index (push_all s0 ps) i)
          = if a.continuation then 1 else 0 := by
  have hinv := push_all_store_inv s0 h0 hc ps hcols
  obtain ⟨e1, e2, _, er⟩ := push_all_ring s0 h0 hc ps hcols
  have hphys := sb_phys_index_inv _ hinv (i : Int) (by omega) hi
  rw [e2] at hi
  have hidx : sb_phys_index (push_all s0 ps) i
      = (((ps.length - min ps.length 2000 + i : Nat) : Int) % 2000) := by
    rw [hphys, e1, e2]
    omega
  rw [hidx]
  exact er _ a ha (by omega)

/-- C1: from a cleared store, after `n` pushes the logical contents are the
last `min(n, SCROLLBACK_LINES)` pushed rows in push order. -/
theorem C1_push_order (s0 : session_t) (ps : List push_args)
    (h0 : s0.sb_head = 0) (hc : s0.sb_count = 0) (hcols : ∀ a ∈ ps, 0 ≤ a.cols) :
    ((ps.length : Int) ≤ SCROLLBACK_LINES →
      (push_all s0 ps).sb_count = ps.length
      ∧ ∀ (i : Nat) (a : push_args), ps[i]? = some a →
          (∀ c, 0 ≤ c → c < TERM_COLS →
            (push_all s0 ps).sb_buf (sb_phys_index (push_all s0 ps) i) c
              = pushed_row s0.vts_state a c)
          ∧ (push_all s0 ps).sb_cont (sb_phys_index (push_all s0 ps) i)
              = if a.continuation then 1 else 0)
    ∧ ((ps.length : Int) > SCROLLBACK_LINES →
      (push_all s0 ps).sb_count = SCROLLBACK_LINES
      ∧ ∀ (a : push_args), ps[ps.length - 2000]? = some a →
          (∀ c, 0 ≤ c → c < TERM_COLS →
            (push_all s0 ps).sb_buf (sb_phys_index (push_all s0 ps) 0) c
              = pushed_row s0.vts_state a c)
          ∧ (push_all s0 ps).sb_cont (sb_phys_index (push_all s0 ps) 0)
              = if a.continuation then 1 else 0) := by
  obtain ⟨_, e2, _, _⟩ := push_all_ring s0 h0 hc ps hcols
  simp only [SCROLLBACK_LINES]
  constructor
  · intro hn
    have hcnt : (push_all s0 ps).sb_count = ps.length := by rw [e2]; omega
    refine ⟨hcnt, ?_⟩
    intro i a hia
    have hil : i < ps.length := by
      by_contra hcon
      rw [List.getElem?_eq_none (by omega)] at hia
      exact absurd hia (by simp)
    have hidx : ps.length - min ps.length 2000 + i = i := by omega
    exact push_all_logical s0 h0 hc ps hcols i (by rw [hcnt]; omega) a (by rw [hidx]; exact hia)
  · intro hn
    have hcnt : (push_all s0 ps).sb_count = 2000 := by rw [e2]; omega
    refine ⟨hcnt, ?_⟩
    intro a ha
    have hidx : ps.length - min ps.length 2000 + 0 = ps.length - 2000 := by omega
    have := push_all_logical s0 h0 hc ps hcols 0 (by rw [hcnt]; simp) a (by rw [hidx]; exact ha)
    simpa using this

/-- Witness for C1: two pushes into the store of a freshly created session. -/
theorem C1_push_order_witness :
    (created_session.sb_head = 0 ∧ created_session.sb_count = 0
      ∧ ∀ a ∈ two_pushes, 0 ≤ a.cols)
    ∧ (push_all created_session two_pushes).sb_count = 2
    ∧ (push_all created_session two_pushes).sb_cont
        (sb_phys_index (push_all created_session two_pushes) 1) = 1 :=
  ⟨⟨by decide, by decide, by decide⟩,
   ((C1_push_order created_session two_pushes (by decide) (by decide) (by decide)).1
      (by decide)).1,
   (((C1_push_order created_session two_pushes (by decide) (by decide) (by decide)).1
      (by decide)).2 1 _ rfl).2⟩

theorem store_inv_clear (s : session_t) : store_inv (cb_sb_clear s) := by
  simp [store_inv, cb_sb_clear]

theorem store_inv_push (a : push_args) (s : session_t) (h : store_inv s) :
    store_inv (cb_sb_pushline4 a.cols a.cells a.continuation s) := by
  obtain ⟨h1, h2, h3, h4⟩ := h
  unfold store_inv
  rw [pushline_head a s h3 h4, pushline_count a s h1 h2]
  simp only [SCROLLBACK_LINES] at *
  split <;> omega

theorem store_inv_apply (s : session_t) (op : store_op) (h : store_inv s) :
    store_inv (store_op.apply s op) := by
  cases op with
  | push a => exact store_inv_push a s h
  | clear => exact store_inv_clear s

theorem store_inv_foldl (ops : List store_op) :
    ∀ s : session_t, store_inv s → store_inv (ops.foldl store_op.apply s) := by
  induction ops with
  | nil => intro s h; exact h
  | cons op ops ih => intro s h; exact ih _ (store_inv_apply s op h)

theorem session_create_slot (idx : Int) (g : Globals) (f : forkpty_result)
    (e : vterm_new_result) (h0 : 0 ≤ idx) (h1 : idx < MAX_SESSIONS) :
    ((g.g_sessions idx).used ≠ 0 → (session_create idx g f e).2.g_sessions idx = g.g_sessions idx)
    ∧ ((g.g_sessions idx).used = 0 →
        ((session_create idx g f e).2.g_sessions idx).sb_head = 0
        ∧ ((session_create idx g f e).2.g_sessions idx).sb_count = 0
        ∧ ((session_create idx g f e).2.g_sessions idx).view_offset_lines = 0
        ∧ ((session_create idx g f e).2.g_sessions idx).used = 1) := by
  have hr : ¬ (idx < 0 ∨ idx ≥ MAX_SESSIONS) := by omega
  constructor
  · intro hu
    unfold session_create
    rw [if_neg hr]
    simp [hu]
  · intro hu
    unfold session_create
    rw [if_neg hr]
    simp [hu, session_init_vterm, session_start_shell, session_init]

/-- C2: the store invariant holds after `session_create` and is preserved by
`cb_sb_pushline4` and `cb_sb_clear`, for every sequence of such operations. -/
theorem C2_store_invariant (g : Globals) (idx : Int) (f : forkpty_result)
    (e : vterm_new_result) (hidx : 0 ≤ idx ∧ idx < MAX_SESSIONS)
    (hpre : (g.g_sessions idx).used ≠ 0 → store_inv (g.g_sessions idx)) :
    store_inv ((session_create idx g f e).2.g_sessions idx)
    ∧ (∀ (s : session_t) (op : store_op), store_inv s → store_inv (store_op.apply s op))
    ∧ ∀ ops : List store_op,
        store_inv (ops.foldl store_op.apply ((session_create idx g f e).2.g_sessions idx)) := by
  obtain ⟨hu, hn⟩ := session_create_slot idx g f e hidx.1 hidx.2
  have hcreated : store_inv ((session_create idx g f e).2.g_sessions idx) := by
    by_cases h : (g.g_sessions idx).used = 0
    · obtain ⟨e1, e2, _, _⟩ := hn h
      simp [store_inv, e1, e2]
    · rw [hu h]; exact hpre h
  exact ⟨hcreated, store_inv_apply, fun ops => store_inv_foldl ops _ hcreated⟩

/-- Witness for C2: slot 0 created at program start, then a push and a clear. -/
theorem C2_store_invariant_witness :
    ((0 : Int) ≤ 0 ∧ (0 : Int) < MAX_SESSIONS)
    ∧ store_inv ((session_create 0 g_start fork_ok blank_engine).2.g_sessions 0)
    ∧ store_inv ([store_op.push ⟨53, fun _ => ascii_cell 97, false⟩, store_op.clear].foldl
        store_op.apply ((session_create 0 g_start fork_ok blank_engine).2.g_sessions 0)) :=
  ⟨by decide,
   (C2_store_invariant g_start 0 fork_ok blank_engine (by decide) (by decide)).1,
   (C2_store_invariant g_start 0 fork_ok blank_engine (by decide) (by decide)).2.2 _⟩

theorem extend_empty (st : copy_state) : st.extend copy_empty = st := by
  simp [copy_state.extend, copy_empty]

theorem trim_loop_frame (s : session_t) (v from_ : Int) (n : Nat) :
    ∀ (e : Int) (st : copy_state),
      copy_trim_loop s v from_ n e st
        = ((copy_trim_loop s v from_ n e copy_empty).1,
           st.extend (copy_trim_loop s v from_ n e copy_empty).2) := by
  induction n with
  | zero => intro e st; simp [copy_trim_loop, extend_empty]
  | succ n ih =>
    intro e st
    simp only [copy_trim_loop]
    by_cases h : e ≥ from_
    · simp only [if_pos h]
      by_cases hc : (get_cell_ch_virtual s v e).ch ≠ 32
      · simp only [if_pos hc]
        simp [copy_state.extend, copy_empty]
      · simp only [if_neg hc]
        rw [ih (e - 1) ⟨st.buf, st.log ++ _⟩]
        rw [ih (e - 1) ⟨copy_empty.buf, copy_empty.log ++ _⟩]
        simp [copy_state.extend, copy_empty]
    · simp only [if_neg h]
      simp [copy_state.extend, copy_empty]

theorem eff_to_frame (s : session_t) (v from_ to_ : Int) (st : copy_state) :
    copy_eff_to s v from_ to_ st
      = ((copy_eff_to s v from_ to_ copy_empty).1,
         st.extend (copy_eff_to s v from_ to_ copy_empty).2) := by
  unfold copy_eff_to
  by_cases h : to_ = TERM_COLS - 1
  · simp only [if_pos h]
    rw [trim_loop_frame]
  · simp only [if_neg h, extend_empty]

theorem col_loop_frame (s : session_t) (v eff_to : Int) (n : Nat) :
    ∀ (col : Int) (st : copy_state),
      copy_col_loop s v eff_to n col st
        = st.extend (copy_col_loop s v eff_to n col copy_empty) := by
  induction n with
  | zero => intro col st; simp [copy_col_loop, extend_empty]
  | succ n ih =>
    intro col st
    simp only [copy_col_loop]
    by_cases h : col ≤ eff_to
    · simp only [if_pos h]
      rw [ih _ ⟨copybuf_append_utf8 _ st.buf, _⟩]
      rw [ih _ ⟨copybuf_append_utf8 _ copy_empty.buf, _⟩]
      simp [copy_state.extend, copy_empty, copybuf_append_utf8]
    · simp only [if_neg h, extend_empty]

theorem extend_assoc (a b c : copy_state) : (a.extend b).extend c = a.extend (b.extend c) := by
  simp [copy_state.extend]

theorem empty_extend (st : copy_state) : copy_empty.extend st = st := by
  simp [copy_state.extend, copy_empty]

theorem line_text_frame (s : session_t) (l1 c1 l2 c2 v : Int) (st : copy_state) :
    copy_line_text s l1 c1 l2 c2 v st
      = st.extend (copy_line_text s l1 c1 l2 c2 v copy_empty) := by
  unfold copy_line_text
  simp only
  rw [eff_to_frame s v _ _ st, col_loop_frame]
  rw [col_loop_frame s v _ _ _ (copy_eff_to s v _ _ copy_empty).2]
  rw [extend_assoc]

theorem line_break_frame (s : session_t) (l2 v : Int) (st : copy_state) :
    copy_line_break s l2 v st = st.extend (copy_line_break s l2 v copy_empty) := by
  unfold copy_line_break
  by_cases h : v ≠ l2
  · simp only [if_pos h]
    by_cases hc : (virtual_line_is_continuation s (v + 1)).val = 0
    · simp [hc, copy_state.extend, copy_empty, copybuf_append_byte]
    · simp [hc, copy_state.extend, copy_empty]
  · simp only [if_neg h, extend_empty]

theorem lines_frame (s : session_t) (l1 c1 l2 c2 : Int) (n : Nat) :
    ∀ (v : Int) (st : copy_state),
      copy_lines s l1 c1 l2 c2 n v st
        = st.extend (copy_lines s l1 c1 l2 c2 n v copy_empty) := by
  induction n with
  | zero => intro v st; simp [copy_lines, extend_empty]
  | succ n ih =>
    intro v st
    simp only [copy_lines]
    rw [ih (v + 1) (copy_line_break s l2 v (copy_line_text s l1 c1 l2 c2 v st))]
    rw [ih (v + 1) (copy_line_break s l2 v (copy_line_text s l1 c1 l2 c2 v copy_empty))]
    rw [line_break_frame s l2 v (copy_line_text s l1 c1 l2 c2 v st)]
    rw [line_break_frame s l2 v (copy_line_text s l1 c1 l2 c2 v copy_empty)]
    rw [line_text_frame s l1 c1 l2 c2 v st]
    simp only [extend_assoc]

theorem lines_succ (s : session_t) (l1 c1 l2 c2 : Int) (n : Nat) (v : Int) :
    copy_lines s l1 c1 l2 c2 (n + 1) v copy_empty
      = (copy_line_out s l1 c1 l2 c2 v).extend (copy_lines s l1 c1 l2 c2 n (v + 1) copy_empty) := by
  rw [copy_lines, lines_frame, line_break_frame]
  rfl

theorem virtual_total_inv (s : session_t) (h : store_inv s) :
    virtual_total_lines s = s.sb_count + 13 := by
  obtain ⟨h1, h2, _, _⟩ := h
  simp only [SCROLLBACK_LINES] at *
  unfold virtual_total_lines
  simp only [TERM_ROWS]
  rw [wrap32_eq _ (by omega) (by omega)]

theorem sb_phys_index_range (s : session_t) (h : store_inv s) (i : Int) (hi0 : 0 ≤ i)
    (hi1 : i < s.sb_count) : 0 ≤ sb_phys_index s i ∧ sb_phys_index s i < 2000 := by
  rw [sb_phys_index_inv s h i hi0 hi1]
  omega

theorem get_cell_log_ok (s : session_t) (h : store_inv s) (v col : Int) (hv0 : 0 ≤ v)
    (hv1 : v ≤ virtual_total_lines s - 1) (hc0 : 0 ≤ col) (hc1 : col ≤ 52) :
    ∀ ev ∈ (get_cell_ch_virtual s v col).log, event_ok s ev := by
  have hg : event_ok s (Event.get_cell v col) := by
    simp only [event_ok, TERM_COLS]; omega
  have htot := virtual_total_inv s h
  unfold get_cell_ch_virtual
  by_cases hsb : v < s.sb_count
  · simp only [if_pos hsb]
    have hp := sb_phys_index_range s h v hv0 hsb
    intro ev hev
    simp only [List.mem_cons, List.mem_singleton, List.not_mem_nil, or_false] at hev
    rcases hev with rfl | rfl
    · exact hg
    · simp only [event_ok, SCROLLBACK_LINES, TERM_COLS]; omega
  · simp only [if_neg hsb]
    obtain ⟨h1, h2, _, _⟩ := h
    simp only [SCROLLBACK_LINES] at *
    have hw : wrap32 (v - s.sb_count) = v - s.sb_count := wrap32_eq _ (by omega) (by omega)
    rw [hw]
    have hrow : ¬ (v - s.sb_count < 0 ∨ v - s.sb_count ≥ TERM_ROWS) := by
      simp only [TERM_ROWS]; omega
    simp only [if_neg hrow]
    have hl : event_ok s (Event.screen_get_cell (v - s.sb_count) col) := by
      simp only [event_ok, TERM_ROWS, TERM_COLS]; omega
    intro ev hev
    split at hev
    · simp only [List.mem_cons, List.mem_singleton, List.not_mem_nil, or_false] at hev
      rcases hev with rfl | rfl
      · exact hg
      · exact hl
    · split at hev <;>
      · simp only [List.mem_cons, List.mem_singleton, List.not_mem_nil, or_false] at hev
        rcases hev with rfl | rfl
        · exact hg
        · exact hl

theorem is_cont_log_ok (s : session_t) (h : store_inv s) (v : Int) (hv0 : 0 ≤ v)
    (hv1 : v ≤ virtual_total_lines s - 1) :
    ∀ ev ∈ (virtual_line_is_continuation s v).log, event_ok s ev := by
  have hg : event_ok s (Event.is_continuation v) := by
    simp only [event_ok]; omega
  unfold virtual_line_is_continuation
  rw [if_neg (by omega)]
  by_cases hsb : v < s.sb_count
  · simp only [if_pos hsb]
    have hp := sb_phys_index_range s h v hv0 hsb
    intro ev hev
    simp only [List.mem_cons, List.mem_singleton, List.not_mem_nil, or_false] at hev
    rcases hev with rfl | rfl
    · exact hg
    · simp only [event_ok, SCROLLBACK_LINES]; omega
  · simp only [if_neg hsb]
    intro ev hev
    simp only [List.mem_cons, List.mem_singleton, List.not_mem_nil, or_false] at hev
    rw [hev]; exact hg

theorem trim_loop_buf (s : session_t) (v from_ : Int) (n : Nat) :
    ∀ (e : Int) (st : copy_state), (copy_trim_loop s v from_ n e st).2.buf = st.buf := by
  induction n with
  | zero => intro e st; rfl
  | succ n ih =>
    intro e st
    simp only [copy_trim_loop]
    split
    · split
      · rfl
      · rw [ih]
    · rfl

/-- Every event logged by the trimming loop comes from a cell read at a
column between `from` and the start column. -/
theorem trim_loop_log_forall (s : session_t) (v from_ : Int) (P : Event → Prop) (n : Nat) :
    ∀ (e : Int) (st : copy_state),
      (∀ ev ∈ st.log, P ev) →
      (∀ k, from_ ≤ k → k ≤ e → ∀ ev ∈ (get_cell_ch_virtual s v k).log, P ev) →
      ∀ ev ∈ (copy_trim_loop s v from_ n e st).2.log, P ev := by
  induction n with
  | zero => intro e st hst _; exact hst
  | succ n ih =>
    intro e st hst hget
    simp only [copy_trim_loop]
    by_cases h : e ≥ from_
    · simp only [if_pos h]
      have hst2 : ∀ ev ∈ st.log ++ (get_cell_ch_virtual s v e).log, P ev := by
        intro ev hev
        rcases List.mem_append.mp hev with h1 | h1
        · exact hst ev h1
        · exact hget e h (le_refl e) ev h1
      split
      · exact hst2
      · exact ih (e - 1) _ hst2 (fun k hk1 hk2 => hget k hk1 (by omega))
    · simp only [if_neg h]; exact hst

/-- Every event logged by the emission loop comes from a cell read, or is the
emission, at a column between the start column and `eff_to`. -/
theorem col_loop_log_forall (s : session_t) (v eff_to : Int) (P : Event → Prop) (n : Nat) :
    ∀ (col : Int) (st : copy_state),
      (∀ ev ∈ st.log, P ev) →
      (∀ k, col ≤ k → k ≤ eff_to →
        (∀ ev ∈ (get_cell_ch_virtual s v k).log, P ev)
        ∧ P (Event.append_utf8 v k (get_cell_ch_virtual s v k).ch
              (get_cell_ch_virtual s v k).out_width2)) →
      ∀ ev ∈ (copy_col_loop s v eff_to n col st).log, P ev := by
  induction n with
  | zero => intro col st hst _; exact hst
  | succ n ih =>
    intro col st hst hget
    simp only [copy_col_loop]
    by_cases h : col ≤ eff_to
    · simp only [if_pos h]
      apply ih
      · intro ev hev
        simp only [List.mem_append, List.mem_singleton] at hev
        rcases hev with (h1 | h1) | h1
        · exact hst ev h1
        · exact (hget col (le_refl col) h).1 ev h1
        · rw [h1]; exact (hget col (le_refl col) h).2
      · intro k hk1 hk2
        apply hget k _ hk2
        split at hk1 <;> omega
    · simp only [if_neg h]; exact hst

theorem trim_loop_bounds (s : session_t) (v from_ : Int) (n : Nat) :
    ∀ (e : Int) (st : copy_state),
      (copy_trim_loop s v from_ n e st).1 ≤ e
      ∧ (e - n ≤ (copy_trim_loop s v from_ n e st).1) := by
  induction n with
  | zero => intro e st; simp [copy_trim_loop]
  | succ n ih =>
    intro e st
    simp only [copy_trim_loop]
    split
    · split
      · simp only [Nat.cast_add, Nat.cast_one]; omega
      · have := ih (e - 1) ⟨st.buf, st.log ++ (get_cell_ch_virtual s v e).log⟩
        simp only [Nat.cast_add, Nat.cast_one]; omega
    · simp only [Nat.cast_add, Nat.cast_one]; omega

theorem eff_to_bounds (s : session_t) (v from_ to_ : Int) (st : copy_state) :
    (copy_eff_to s v from_ to_ st).1 ≤ to_ ∨ (copy_eff_to s v from_ to_ st).1 = from_ - 1 := by
  unfold copy_eff_to
  split
  · simp only
    have := (trim_loop_bounds s v from_ (to_ - from_ + 1).toNat to_ st).1
    split
    · right; rfl
    · left; exact this
  · left; exact le_refl _

theorem eff_to_log_forall (s : session_t) (v from_ to_ : Int) (P : Event → Prop)
    (st : copy_state) (hst : ∀ ev ∈ st.log, P ev)
    (hget : ∀ k, from_ ≤ k → k ≤ to_ → ∀ ev ∈ (get_cell_ch_virtual s v k).log, P ev) :
    ∀ ev ∈ (copy_eff_to s v from_ to_ st).2.log, P ev := by
  unfold copy_eff_to
  split
  · exact trim_loop_log_forall s v from_ P _ to_ st hst hget
  · exact hst

theorem line_range_bounds (l1 c1 l2 c2 v : Int) (h1 : 0 ≤ c1) (h2 : c1 ≤ 52) (h3 : 0 ≤ c2)
    (h4 : c2 ≤ 52) :
    0 ≤ (copy_line_range l1 c1 l2 c2 v).1 ∧ (copy_line_range l1 c1 l2 c2 v).1 ≤ 52
    ∧ 0 ≤ (copy_line_range l1 c1 l2 c2 v).2 ∧ (copy_line_range l1 c1 l2 c2 v).2 ≤ 52 := by
  unfold copy_line_range
  simp only [TERM_COLS]
  split
  · simp only; omega
  · split
    · simp only; omega
    · split <;> (simp only; omega)

theorem line_text_log_forall (s : session_t) (l1 c1 l2 c2 v : Int) (P : Event → Prop)
    (h1 : 0 ≤ c1) (h2 : c1 ≤ 52) (h3 : 0 ≤ c2) (h4 : c2 ≤ 52)
    (st : copy_state) (hst : ∀ ev ∈ st.log, P ev)
    (hget : ∀ k, 0 ≤ k → k ≤ 52 →
        (∀ ev ∈ (get_cell_ch_virtual s v k).log, P ev)
        ∧ P (Event.append_utf8 v k (get_cell_ch_virtual s v k).ch
              (get_cell_ch_virtual s v k).out_width2)) :
    ∀ ev ∈ (copy_line_text s l1 c1 l2 c2 v st).log, P ev := by
  obtain ⟨b1, b2, b3, b4⟩ := line_range_bounds l1 c1 l2 c2 v h1 h2 h3 h4
  unfold copy_line_text
  simp only
  apply col_loop_log_forall
  · apply eff_to_log_forall _ _ _ _ _ _ hst
    intro k hk1 hk2
    exact (hget k (by omega) (by omega)).1
  · intro k hk1 hk2
    apply hget k (by omega)
    rcases eff_to_bounds s v (copy_line_range l1 c1 l2 c2 v).1 (copy_line_range l1 c1 l2 c2 v).2 st
      with hb | hb <;> omega

theorem line_break_log_forall (s : session_t) (l2 v : Int) (P : Event → Prop)
    (st : copy_state) (hst : ∀ ev ∈ st.log, P ev)
    (hbr : v ≠ l2 →
        (∀ ev ∈ (virtual_line_is_continuation s (v + 1)).log, P ev)
        ∧ P (Event.append_newline v)) :
    ∀ ev ∈ (copy_line_break s l2 v st).log, P ev := by
  unfold copy_line_break
  by_cases h : v ≠ l2
  · simp only [if_pos h]
    have hst2 : ∀ ev ∈ st.log ++ (virtual_line_is_continuation s (v + 1)).log, P ev := by
      intro ev hev
      rcases List.mem_append.mp hev with h1 | h1
      · exact hst ev h1
      · exact (hbr h).1 ev h1
    split
    · intro ev hev
      simp only [List.mem_append, List.mem_singleton] at hev
      rcases hev with h1 | h1
      · exact hst2 ev (List.mem_append.mpr h1)
      · rw [h1]; exact (hbr h).2
    · exact hst2
  · simp only [if_neg h]; exact hst

theorem lines_log_forall (s : session_t) (l1 c1 l2 c2 : Int) (P : Event → Prop)
    (h1 : 0 ≤ c1) (h2 : c1 ≤ 52) (h3 : 0 ≤ c2) (h4 : c2 ≤ 52) (n : Nat) :
    ∀ (v : Int) (st : copy_state),
      (∀ ev ∈ st.log, P ev) →
      (∀ u, v ≤ u → u < v + n →
        (∀ k, 0 ≤ k → k ≤ 52 →
          (∀ ev ∈ (get_cell_ch_virtual s u k).log, P ev)
          ∧ P (Event.append_utf8 u k (get_cell_ch_virtual s u k).ch
                (get_cell_ch_virtual s u k).out_width2))
        ∧ (u ≠ l2 →
          (∀ ev ∈ (virtual_line_is_continuation s (u + 1)).log, P ev)
          ∧ P (Event.append_newline u))) →
      ∀ ev ∈ (copy_lines s l1 c1 l2 c2 n v st).log, P ev := by
  induction n with
  | zero => intro v st hst _; exact hst
  | succ n ih =>
    intro v st hst hline
    simp only [copy_lines]
    apply ih
    · apply line_break_log_forall
      · apply line_text_log_forall s l1 c1 l2 c2 v P h1 h2 h3 h4 st hst
        exact (hline v (le_refl v) (by push_cast; omega)).1
      · exact (hline v (le_refl v) (by push_cast; omega)).2
    · intro u hu1 hu2
      exact hline u (by omega) (by push_cast; omega)

theorem clampi_bounds (v lo hi : Int) (h : lo ≤ hi) : lo ≤ clampi v lo hi ∧ clampi v lo hi ≤ hi := by
  unfold clampi
  split
  · omega
  · split <;> omega

/-- Under the store invariant every access logged by the extraction is in
range, whatever the selection coordinates are. -/
theorem copy_log_ok (s : session_t) (buf : List Nat) (h : store_inv s) :
    ∀ ev ∈ (region_copy_selection_stream s buf).log, event_ok s ev := by
  unfold region_copy_selection_stream
  by_cases hmode : s.region_mode = 0 ∨ s.selecting = 0
  · rw [if_pos hmode]
    intro ev hev; simp at hev
  · rw [if_neg hmode]
    dsimp only
    by_cases htot : virtual_total_lines s ≤ 0
    · rw [if_pos htot]
      intro ev hev; simp at hev
    · rw [if_neg htot]
      have htot' : 0 ≤ virtual_total_lines s - 1 := by omega
      obtain ⟨a1, a2⟩ := clampi_bounds (region_norm s).1 0 (virtual_total_lines s - 1) htot'
      obtain ⟨a3, a4⟩ := clampi_bounds (region_norm s).2.2.1 0 (virtual_total_lines s - 1) htot'
      obtain ⟨b1, b2⟩ := clampi_bounds (region_norm s).2.1 0 (TERM_COLS - 1) (by decide)
      obtain ⟨b3, b4⟩ := clampi_bounds (region_norm s).2.2.2 0 (TERM_COLS - 1) (by decide)
      simp only [TERM_COLS] at b1 b2 b3 b4
      simp only [copy_span, TERM_COLS]
      apply lines_log_forall s _ _ _ _ (event_ok s) b1 (by omega) b3 (by omega)
      · intro ev hev; simp [copybuf_reset] at hev
      · intro u hu1 hu2
        have hu3 : u ≤ clampi (region_norm s).2.2.1 0 (virtual_total_lines s - 1) := by omega
        constructor
        · intro k hk1 hk2
          exact ⟨get_cell_log_ok s h u k (by omega) (by omega) hk1 hk2, trivial⟩
        · intro hne
          exact ⟨is_cont_log_ok s h (u + 1) (by omega) (by omega), trivial⟩

/-- C3: with the store invariant and arbitrary selection coordinates, every
cell read and continuation read of `region_copy_selection_stream` uses a
virtual line in `[0, virtual_total_lines()-1]` and a column in
`[0, TERM_COLS-1]`, and every scrollback access a physical row in
`[0, SCROLLBACK_LINES)`. -/
theorem C3_copy_accesses_in_range (s : session_t) (buf : List Nat) (h : store_inv s) :
    ∀ ev ∈ (region_copy_selection_stream s buf).log, event_ok s ev :=
  copy_log_ok s buf h

/-- Witness for C3: a session with stale, out-of-range selection coordinates. -/
theorem C3_copy_accesses_in_range_witness :
    store_inv stale_session
    ∧ ∀ ev ∈ (region_copy_selection_stream stale_session []).log, event_ok stale_session ev :=
  ⟨by decide, C3_copy_accesses_in_range stale_session [] (by decide)⟩

/-- Counterexample to C4 as stated: the cursor and anchor lines were valid
before `cb_sb_clear` and lie beyond the last virtual line after it. -/
theorem C4_clear_leaves_selection_counterexample :
    (store_inv scrolled_selection
      ∧ 0 ≤ scrolled_selection.reg_line
      ∧ scrolled_selection.reg_line ≤ virtual_total_lines scrolled_selection - 1
      ∧ 0 ≤ scrolled_selection.sel_line
      ∧ scrolled_selection.sel_line ≤ virtual_total_lines scrolled_selection - 1)
    ∧ ¬ ((cb_sb_clear scrolled_selection).reg_line
          ≤ virtual_total_lines (cb_sb_clear scrolled_selection) - 1)
    ∧ ¬ ((cb_sb_clear scrolled_selection).sel_line
          ≤ virtual_total_lines (cb_sb_clear scrolled_selection) - 1) := by
  decide

/-- C4 (amended): `cb_sb_clear` empties the store and resets the scroll
offset, so `view_offset_lines` is within `[0, sb_count]` and the virtual line
space shrinks to `TERM_ROWS` lines; the selection cursor and anchor are left
as they were, and a later `region_copy_selection_stream` clamps them before
any access. -/
theorem C4_clear_resets_view (s : session_t) :
    (cb_sb_clear s).sb_count = 0
    ∧ (cb_sb_clear s).sb_head = 0
    ∧ (cb_sb_clear s).view_offset_lines = 0
    ∧ (0 ≤ (cb_sb_clear s).view_offset_lines
        ∧ (cb_sb_clear s).view_offset_lines ≤ (cb_sb_clear s).sb_count)
    ∧ virtual_total_lines (cb_sb_clear s) = TERM_ROWS
    ∧ (cb_sb_clear s).reg_line = s.reg_line
    ∧ (cb_sb_clear s).sel_line = s.sel_line
    ∧ (cb_sb_clear s).reg_col = s.reg_col
    ∧ (cb_sb_clear s).sel_col = s.sel_col
    ∧ (cb_sb_clear s).region_mode = s.region_mode
    ∧ (cb_sb_clear s).selecting = s.selecting
    ∧ ∀ (buf : List Nat),
        ∀ ev ∈ (region_copy_selection_stream (cb_sb_clear s) buf).log,
          event_ok (cb_sb_clear s) ev := by
  refine ⟨rfl, rfl, rfl, ⟨by simp [cb_sb_clear], by simp [cb_sb_clear]⟩, ?_, rfl, rfl, rfl, rfl,
    rfl, rfl, ?_⟩
  · simp [virtual_total_lines, cb_sb_clear, wrap32]
  · intro buf
    exact copy_log_ok _ buf (store_inv_clear s)

theorem virtual_start_line_spec (s : session_t) (h : 0 ≤ s.sb_count) (hint : s.sb_count ≤ INT_MAX) :
    (virtual_start_line s).1 = s.sb_count - clampi s.view_offset_lines 0 s.sb_count
    ∧ (virtual_start_line s).2.view_offset_lines = clampi s.view_offset_lines 0 s.sb_count
    ∧ (virtual_start_line s).2.sb_count = s.sb_count
    ∧ (virtual_start_line s).2.reg_line = s.reg_line := by
  simp only [INT_MAX] at hint
  unfold virtual_start_line clampi
  by_cases h1 : s.view_offset_lines < 0
  · have h2 : ¬ ((0 : Int) > s.sb_count) := by omega
    simp only [if_pos h1, if_neg h2]
    refine ⟨?_, trivial, trivial, trivial⟩
    rw [wrap32_eq _ (by omega) (by omega)]
  · simp only [if_neg h1]
    by_cases h2 : s.view_offset_lines > s.sb_count
    · simp only [if_pos h2]
      refine ⟨?_, trivial, trivial, trivial⟩
      rw [wrap32_eq _ (by omega) (by omega)]
    · simp only [if_neg h2]
      refine ⟨?_, trivial, trivial, trivial⟩
      rw [wrap32_eq _ (by omega) (by omega)]

theorem scroll_adj_sb_count (s : session_t) (a : scroll_adj) :
    (scroll_adj.apply s a).sb_count = s.sb_count := by
  cases a with
  | l2 =>
    simp only [scroll_adj.apply, process_key_move_BTN_L2]
    split <;> rfl
  | r2 =>
    simp only [scroll_adj.apply, process_key_move_BTN_R2]
    split <;> rfl
  | ensure_visible =>
    simp only [scroll_adj.apply, region_ensure_visible, virtual_start_line]
    repeat' split
    all_goals rfl

theorem scroll_adjs_sb_count (adjs : List scroll_adj) :
    ∀ s : session_t, (adjs.foldl scroll_adj.apply s).sb_count = s.sb_count := by
  induction adjs with
  | nil => intro s; rfl
  | cons a adjs ih => intro s; rw [List.foldl_cons, ih, scroll_adj_sb_count]

/-- C5: `virtual_start_line()` returns `sb_count - clamp(view_offset_lines, 0,
sb_count)` and leaves `view_offset_lines` within `[0, sb_count]`; hence after
any sequence of scroll adjustments the returned start line plus the offset it
leaves equals `sb_count`. -/
theorem C5_start_line_plus_offset (s : session_t) (adjs : List scroll_adj)
    (h : 0 ≤ s.sb_count) (hint : s.sb_count ≤ INT_MAX) :
    (virtual_start_line s).1 = s.sb_count - clampi s.view_offset_lines 0 s.sb_count
    ∧ 0 ≤ (virtual_start_line s).2.view_offset_lines
    ∧ (virtual_start_line s).2.view_offset_lines ≤ (virtual_start_line s).2.sb_count
    ∧ (virtual_start_line (adjs.foldl scroll_adj.apply s)).1
        + (virtual_start_line (adjs.foldl scroll_adj.apply s)).2.view_offset_lines
        = (adjs.foldl scroll_adj.apply s).sb_count
    ∧ 0 ≤ (virtual_start_line (adjs.foldl scroll_adj.apply s)).2.view_offset_lines
    ∧ (virtual_start_line (adjs.foldl scroll_adj.apply s)).2.view_offset_lines
        ≤ (adjs.foldl scroll_adj.apply s).sb_count := by
  obtain ⟨e1, e2, e3, _⟩ := virtual_start_line_spec s h hint
  have hc := scroll_adjs_sb_count adjs s
  obtain ⟨f1, f2, f3, _⟩ := virtual_start_line_spec (adjs.foldl scroll_adj.apply s)
    (by rw [hc]; exact h) (by rw [hc]; exact hint)
  obtain ⟨c1, c2⟩ := clampi_bounds s.view_offset_lines 0 s.sb_count h
  obtain ⟨d1, d2⟩ := clampi_bounds (adjs.foldl scroll_adj.apply s).view_offset_lines 0
    (adjs.foldl scroll_adj.apply s).sb_count (by rw [hc]; exact h)
  refine ⟨e1, ?_, ?_, ?_, ?_, ?_⟩
  · rw [e2]; exact c1
  · rw [e2, e3]; exact c2
  · rw [f1, f2]; omega
  · rw [f2]; exact d1
  · rw [f2]; exact d2

/-- Witness for C5: three scroll adjustments on a scrolled-back session. -/
theorem C5_start_line_plus_offset_witness :
    (0 ≤ scrolled_selection.sb_count ∧ scrolled_selection.sb_count ≤ INT_MAX)
    ∧ (virtual_start_line ([scroll_adj.l2, scroll_adj.r2, scroll_adj.ensure_visible].foldl
          scroll_adj.apply scrolled_selection)).1
        + (virtual_start_line ([scroll_adj.l2, scroll_adj.r2, scroll_adj.ensure_visible].foldl
          scroll_adj.apply scrolled_selection)).2.view_offset_lines
        = ([scroll_adj.l2, scroll_adj.r2, scroll_adj.ensure_visible].foldl
          scroll_adj.apply scrolled_selection).sb_count :=
  ⟨by decide,
   (C5_start_line_plus_offset scrolled_selection
      [scroll_adj.l2, scroll_adj.r2, scroll_adj.ensure_visible] (by decide) (by decide)).2.2.2.1⟩

theorem ensure_visible_spec (s : session_t)
    (h0 : 0 ≤ s.view_offset_lines) (h1 : s.view_offset_lines ≤ s.sb_count)
    (hr0 : 0 ≤ s.reg_line) (hr1 : s.reg_line ≤ virtual_total_lines s - 1)
    (hint : s.sb_count ≤ INT_MAX) :
    (region_ensure_visible s).sb_count = s.sb_count
    ∧ (region_ensure_visible s).reg_line = s.reg_line
    ∧ (region_ensure_visible s).view_offset_lines
        = (if s.reg_line < s.sb_count - s.view_offset_lines then s.sb_count - s.reg_line
           else if s.reg_line > s.sb_count - s.view_offset_lines + 12
             then s.sb_count + 12 - s.reg_line
           else s.view_offset_lines)
    ∧ s.sb_count + 13 ≤ 2147483647 := by
  simp only [INT_MAX] at hint
  have hsmall : s.sb_count + 13 ≤ 2147483647 := by
    unfold virtual_total_lines wrap32 at hr1
    simp only [TERM_ROWS] at hr1
    omega
  have htot : virtual_total_lines s = s.sb_count + 13 := by
    unfold virtual_total_lines
    simp only [TERM_ROWS]
    exact wrap32_eq _ (by omega) (by omega)
  rw [htot] at hr1
  have hvs : virtual_start_line s = (s.sb_count - s.view_offset_lines, s) := by
    unfold virtual_start_line
    simp only [if_neg (not_lt.mpr h0), if_neg (not_lt.mpr h1)]
    rw [wrap32_eq _ (by omega) (by omega)]
  unfold region_ensure_visible
  rw [hvs]
  simp only [TERM_ROWS]
  have hend : wrap32 (s.sb_count - s.view_offset_lines + (13 - 1))
      = s.sb_count - s.view_offset_lines + 12 := by
    rw [wrap32_eq _ (by omega) (by omega)]; omega
  rw [hend]
  by_cases c1 : s.reg_line < s.sb_count - s.view_offset_lines
  · simp only [if_pos c1]
    have hd : wrap32 (s.sb_count - s.view_offset_lines - s.reg_line)
        = s.sb_count - s.view_offset_lines - s.reg_line := wrap32_eq _ (by omega) (by omega)
    rw [hd]
    have hs : wrap32 (s.view_offset_lines + (s.sb_count - s.view_offset_lines - s.reg_line))
        = s.sb_count - s.reg_line := by
      rw [wrap32_eq _ (by omega) (by omega)]; omega
    rw [hs]
    have hn : ¬ (s.sb_count - s.reg_line > s.sb_count) := by omega
    simp only [if_neg hn]
    exact ⟨trivial, trivial, trivial, hsmall⟩
  · simp only [if_neg c1]
    by_cases c2 : s.reg_line > s.sb_count - s.view_offset_lines + 12
    · simp only [if_pos c2]
      have hd : wrap32 (s.reg_line - (s.sb_count - s.view_offset_lines + 12))
          = s.reg_line - (s.sb_count - s.view_offset_lines + 12) := by
        exact wrap32_eq _ (by omega) (by omega)
      rw [hd]
      have hs : wrap32 (s.view_offset_lines - (s.reg_line - (s.sb_count - s.view_offset_lines + 12)))
          = s.sb_count + 12 - s.reg_line := by
        rw [wrap32_eq _ (by omega) (by omega)]; omega
      rw [hs]
      have hn : ¬ (s.sb_count + 12 - s.reg_line < 0) := by
        omega
      simp only [if_neg hn]
      exact ⟨trivial, trivial, trivial, hsmall⟩
    · simp only [if_neg c2]
      exact ⟨trivial, trivial, trivial, hsmall⟩

/-- C6: `region_ensure_visible` moves the scroll offset minimally so that the
cursor line is inside the viewport. -/
theorem C6_ensure_visible_minimal (s : session_t)
    (h0 : 0 ≤ s.view_offset_lines) (h1 : s.view_offset_lines ≤ s.sb_count)
    (hr0 : 0 ≤ s.reg_line) (hr1 : s.reg_line ≤ virtual_total_lines s - 1)
    (hint : s.sb_count ≤ INT_MAX) :
    ((virtual_start_line (region_ensure_visible s)).1 ≤ (region_ensure_visible s).reg_line
      ∧ (region_ensure_visible s).reg_line
          ≤ (virtual_start_line (region_ensure_visible s)).1 + TERM_ROWS - 1)
    ∧ (0 ≤ (region_ensure_visible s).view_offset_lines
      ∧ (region_ensure_visible s).view_offset_lines ≤ (region_ensure_visible s).sb_count)
    ∧ cursor_visible_at s (region_ensure_visible s).view_offset_lines
    ∧ (∀ o : Int, 0 ≤ o → o ≤ s.sb_count → cursor_visible_at s o →
        ((region_ensure_visible s).view_offset_lines - s.view_offset_lines).natAbs
          ≤ (o - s.view_offset_lines).natAbs)
    ∧ (cursor_visible_at s s.view_offset_lines →
        (region_ensure_visible s).view_offset_lines = s.view_offset_lines)
    ∧ (region_ensure_visible s).reg_line = s.reg_line
    ∧ (region_ensure_visible s).sb_count = s.sb_count := by
  obtain ⟨e1, e2, e3, hsmall⟩ := ensure_visible_spec s h0 h1 hr0 hr1 hint
  simp only [INT_MAX] at hint
  have htot : virtual_total_lines s = s.sb_count + 13 := by
    unfold virtual_total_lines
    simp only [TERM_ROWS]
    exact wrap32_eq _ (by omega) (by omega)
  rw [htot] at hr1
  have hoff : 0 ≤ (region_ensure_visible s).view_offset_lines
      ∧ (region_ensure_visible s).view_offset_lines ≤ s.sb_count
      ∧ s.sb_count - (region_ensure_visible s).view_offset_lines ≤ s.reg_line
      ∧ s.reg_line ≤ s.sb_count - (region_ensure_visible s).view_offset_lines + 12 := by
    rw [e3]
    split
    · omega
    · split <;> omega
  obtain ⟨o1, o2, o3, o4⟩ := hoff
  have hstart : (virtual_start_line (region_ensure_visible s)).1
      = s.sb_count - (region_ensure_visible s).view_offset_lines := by
    obtain ⟨f1, _, _, _⟩ := virtual_start_line_spec (region_ensure_visible s)
      (by rw [e1]; omega) (by rw [e1]; simp only [INT_MAX]; exact hint)
    rw [f1, e1]
    unfold clampi
    rw [if_neg (by omega), if_neg (by omega)]
  refine ⟨⟨?_, ?_⟩, ⟨o1, by rw [e1]; exact o2⟩, ?_, ?_, ?_, e2, e1⟩
  · rw [hstart, e2]; exact o3
  · rw [hstart, e2]; simp only [TERM_ROWS]; omega
  · simp only [cursor_visible_at, TERM_ROWS]; omega
  · intro o ho0 ho1 hvis
    simp only [cursor_visible_at, TERM_ROWS] at hvis
    rw [e3]
    split
    · omega
    · split <;> omega
  · intro hvis
    simp only [cursor_visible_at, TERM_ROWS] at hvis
    rw [e3, if_neg (by omega), if_neg (by omega)]

/-- Witness for C6: with the view at the live bottom and the cursor on
virtual line 40 of 113, the offset moves to 60, which puts line 40 on the
top row. -/
theorem C6_ensure_visible_minimal_witness :
    (0 ≤ bottom_view_selection.view_offset_lines
      ∧ bottom_view_selection.view_offset_lines ≤ bottom_view_selection.sb_count
      ∧ 0 ≤ bottom_view_selection.reg_line
      ∧ bottom_view_selection.reg_line ≤ virtual_total_lines bottom_view_selection - 1
      ∧ bottom_view_selection.sb_count ≤ INT_MAX)
    ∧ cursor_visible_at bottom_view_selection
        (region_ensure_visible bottom_view_selection).view_offset_lines
    ∧ (region_ensure_visible bottom_view_selection).view_offset_lines = 60 :=
  ⟨by decide,
   (C6_ensure_visible_minimal bottom_view_selection (by decide) (by decide) (by decide)
      (by decide) (by decide)).2.2.1,
   by decide⟩

theorem extend_buf (a b : copy_state) : (a.extend b).buf = a.buf ++ b.buf := rfl

theorem extend_log (a b : copy_state) : (a.extend b).log = a.log ++ b.log := rfl

theorem line_break_buf (s : session_t) (l2 v : Int) :
    (copy_line_break s l2 v copy_empty).buf
      = if v ≠ l2 ∧ (virtual_line_is_continuation s (v + 1)).val = 0 then [10] else [] := by
  unfold copy_line_break
  by_cases h : v ≠ l2
  · by_cases hc : (virtual_line_is_continuation s (v + 1)).val = 0
    · simp [h, hc, copy_empty, copybuf_append_byte]
    · simp [h, hc, copy_empty]
  · simp [h, copy_empty]

/-- The bytes produced by the line loop: per line, the text of the line and
then its line break. -/
theorem lines_buf_closed (s : session_t) (l1 c1 l2 c2 : Int) (n : Nat) :
    ∀ v : Int,
      (copy_lines s l1 c1 l2 c2 n v copy_empty).buf
        = (List.range n).flatMap (fun k =>
            (copy_line_text s l1 c1 l2 c2 (v + k) copy_empty).buf
            ++ (if v + k ≠ l2 ∧ (virtual_line_is_continuation s (v + k + 1)).val = 0
                then [10] else [])) := by
  induction n with
  | zero => intro v; simp [copy_lines, copy_empty]
  | succ n ih =>
    intro v
    rw [lines_succ, extend_buf, ih (v + 1), List.range_succ_eq_map, List.flatMap_cons,
      List.flatMap_map]
    congr 1
    · simp [copy_line_out, extend_buf, line_break_buf]
    · apply List.flatMap_congr
      intro k _
      have e : v + 1 + (k : Int) = v + ((k + 1 : Nat) : Int) := by push_cast; ring
      simp only [Function.comp, Nat.succ_eq_add_one]
      rw [e]

theorem copy_buf_closed (s : session_t) (buf : List Nat) (hmode : s.region_mode ≠ 0)
    (hsel : s.selecting ≠ 0) (htot : 0 < virtual_total_lines s) :
    (region_copy_selection_stream s buf).buf
      = (List.range ((copy_span s).2.2.1 - (copy_span s).1 + 1).toNat).flatMap (fun k =>
          (copy_line_text s (copy_span s).1 (copy_span s).2.1 (copy_span s).2.2.1
              (copy_span s).2.2.2 ((copy_span s).1 + k) copy_empty).buf
          ++ (if (copy_span s).1 + k ≠ (copy_span s).2.2.1
                ∧ (virtual_line_is_continuation s ((copy_span s).1 + k + 1)).val = 0
              then [10] else [])) := by
  unfold region_copy_selection_stream
  rw [if_neg (by simp [hmode, hsel])]
  dsimp only
  rw [if_neg (by omega), lines_frame, extend_buf, lines_buf_closed]
  simp [copybuf_reset]

theorem copy_log_closed (s : session_t) (buf : List Nat) (hmode : s.region_mode ≠ 0)
    (hsel : s.selecting ≠ 0) (htot : 0 < virtual_total_lines s) :
    (region_copy_selection_stream s buf).log
      = (copy_lines s (copy_span s).1 (copy_span s).2.1 (copy_span s).2.2.1 (copy_span s).2.2.2
          ((copy_span s).2.2.1 - (copy_span s).1 + 1).toNat (copy_span s).1 copy_empty).log := by
  unfold region_copy_selection_stream
  rw [if_neg (by simp [hmode, hsel])]
  dsimp only
  rw [if_neg (by omega), lines_frame, extend_log]
  simp

theorem is_continuation_val (s : session_t) (v : Int) :
    ((virtual_line_is_continuation s v).val = 1
      ↔ 0 ≤ v ∧ v < s.sb_count ∧ s.sb_cont (sb_phys_index s v) ≠ 0)
    ∧ ((virtual_line_is_continuation s v).val = 0
      ↔ ¬ (0 ≤ v ∧ v < s.sb_count ∧ s.sb_cont (sb_phys_index s v) ≠ 0)) := by
  unfold virtual_line_is_continuation
  by_cases h0 : v < 0
  · simp only [if_pos h0]
    constructor
    · constructor
      · intro h; exact absurd h (by decide)
      · intro h; omega
    · constructor
      · intro _ h; omega
      · intro _; trivial
  · simp only [if_neg h0]
    by_cases h1 : v < s.sb_count
    · simp only [if_pos h1]
      by_cases h2 : s.sb_cont (sb_phys_index s v) ≠ 0
      · simp only [if_pos h2]
        constructor
        · constructor
          · intro _; exact ⟨by omega, h1, h2⟩
          · intro _; trivial
        · constructor
          · intro h; exact absurd h (by decide)
          · intro h; exact absurd ⟨by omega, h1, h2⟩ h
      · simp only [if_neg h2]
        constructor
        · constructor
          · intro h; exact absurd h (by decide)
          · intro h; exact absurd h.2.2 h2
        · constructor
          · intro _ h; exact h2 h.2.2
          · intro _; trivial
    · simp only [if_neg h1]
      constructor
      · constructor
        · intro h; exact absurd h (by decide)
        · intro h; exact absurd h.2.1 h1
      · constructor
        · intro _ h; exact h1 h.2.1
        · intro _; trivial

/-- C7: in `region_copy_selection_stream` the text of consecutive extracted
lines `v` and `v + 1` is separated by exactly one line-break byte when
`virtual_line_is_continuation(v + 1)` is false and by nothing when it is
true; the test is true only for scrollback rows (`0 <= v < sb_count`) whose
row was pushed with `continuation = true`, and false for every live row. -/
theorem C7_line_breaks (s : session_t) (buf : List Nat) (hmode : s.region_mode ≠ 0)
    (hsel : s.selecting ≠ 0) (htot : 0 < virtual_total_lines s) :
    (region_copy_selection_stream s buf).buf
      = (List.range ((copy_span s).2.2.1 - (copy_span s).1 + 1).toNat).flatMap (fun k =>
          span_line_text s ((copy_span s).1 + k)
          ++ (if (copy_span s).1 + k ≠ (copy_span s).2.2.1
                ∧ (virtual_line_is_continuation s ((copy_span s).1 + k + 1)).val = 0
              then [10] else []))
    ∧ (∀ v : Int,
        ((virtual_line_is_continuation s v).val = 1
          ↔ 0 ≤ v ∧ v < s.sb_count ∧ s.sb_cont (sb_phys_index s v) ≠ 0)
        ∧ ((virtual_line_is_continuation s v).val = 0
          ↔ ¬ (0 ≤ v ∧ v < s.sb_count ∧ s.sb_cont (sb_phys_index s v) ≠ 0))
        ∧ (v ≥ s.sb_count → (virtual_line_is_continuation s v).val = 0))
    ∧ (∀ (s0 : session_t) (ps : List push_args),
        s0.sb_head = 0 → s0.sb_count = 0 → (∀ a ∈ ps, 0 ≤ a.cols) →
        ∀ (i : Nat) (a : push_args),
          (i : Int) < (push_all s0 ps).sb_count →
          ps[ps.length - min ps.length 2000 + i]? = some a →
          ((virtual_line_is_continuation (push_all s0 ps) i).val = 1
            ↔ a.continuation = true)) := by
  refine ⟨copy_buf_closed s buf hmode hsel htot, ?_, ?_⟩
  · intro v
    obtain ⟨e1, e2⟩ := is_continuation_val s v
    refine ⟨e1, e2, ?_⟩
    intro hv
    exact e2.mpr (fun h => by omega)
  · intro s0 ps h0 hc hcols i a hi ha
    obtain ⟨_, e2⟩ := push_all_logical s0 h0 hc ps hcols i hi a ha
    rw [(is_continuation_val _ _).1, e2]
    constructor
    · intro h
      by_contra hc
      simp [hc] at h
    · intro h
      refine ⟨by omega, hi, ?_⟩
      simp [h]

/-- Witness for C7: a row, its soft-wrapped tail and one live line give
`abc`, one line break and a space. -/
theorem C7_line_breaks_witness :
    (wrapped_session.region_mode ≠ 0 ∧ wrapped_session.selecting ≠ 0
      ∧ 0 < virtual_total_lines wrapped_session)
    ∧ (region_copy_selection_stream wrapped_session []).buf
        = (List.range ((copy_span wrapped_session).2.2.1
              - (copy_span wrapped_session).1 + 1).toNat).flatMap (fun k =>
          span_line_text wrapped_session ((copy_span wrapped_session).1 + k)
          ++ (if (copy_span wrapped_session).1 + k ≠ (copy_span wrapped_session).2.2.1
                ∧ (virtual_line_is_continuation wrapped_session
                    ((copy_span wrapped_session).1 + k + 1)).val = 0
              then [10] else []))
    ∧ (virtual_line_is_continuation wrapped_session 1).val = 1
    ∧ (virtual_line_is_continuation wrapped_session 2).val = 0
    ∧ (region_copy_selection_stream wrapped_session []).buf = [97, 98, 99, 10, 32] :=
  ⟨by decide,
   (C7_line_breaks wrapped_session [] (by decide) (by decide) (by decide)).1,
   by decide, by decide, by decide⟩

theorem emits_col_append (a b : List Event) (v k : Int) :
    emits_col (a ++ b) v k = (emits_col a v k || emits_col b v k) := by
  simp [emits_col, List.any_append]

theorem emits_wide_append (a b : List Event) (v k : Int) :
    emits_wide (a ++ b) v k = (emits_wide a v k || emits_wide b v k) := by
  simp [emits_wide, List.any_append]

theorem emits_col_none (log : List Event) (h : ∀ ev ∈ log, not_emission ev) (v k : Int) :
    emits_col log v k = false := by
  unfold emits_col
  rw [List.any_eq_false]
  intro ev hev
  have := h ev hev
  cases ev <;> simp_all [not_emission]

theorem emits_wide_none (log : List Event) (h : ∀ ev ∈ log, not_emission ev) (v k : Int) :
    emits_wide log v k = false := by
  unfold emits_wide
  rw [List.any_eq_false]
  intro ev hev
  have := h ev hev
  cases ev <;> simp_all [not_emission]

theorem get_cell_not_emission (s : session_t) (v col : Int) :
    ∀ ev ∈ (get_cell_ch_virtual s v col).log, not_emission ev := by
  unfold get_cell_ch_virtual
  intro ev hev
  split at hev
  · simp at hev; rcases hev with rfl | rfl <;> trivial
  · dsimp only at hev
    split at hev
    · simp at hev; rw [hev]; trivial
    · split at hev
      · simp at hev; rcases hev with rfl | rfl <;> trivial
      · split at hev <;> (simp at hev; rcases hev with rfl | rfl <;> trivial)

theorem is_cont_not_emission (s : session_t) (v : Int) :
    ∀ ev ∈ (virtual_line_is_continuation s v).log, not_emission ev := by
  unfold virtual_line_is_continuation
  intro ev hev
  split at hev
  · simp at hev; rw [hev]; trivial
  · split at hev
    · simp at hev; rcases hev with rfl | rfl <;> trivial
    · simp at hev; rw [hev]; trivial

theorem emits_col_single (v' k' : Int) (ch : Nat) (w : Int) (v k : Int) :
    emits_col [Event.append_utf8 v' k' ch w] v k = decide (v' = v ∧ k' = k) := by
  simp [emits_col]

theorem emits_wide_single (v' k' : Int) (ch : Nat) (w : Int) (v k : Int) :
    emits_wide [Event.append_utf8 v' k' ch w] v k = decide (v' = v ∧ k' = k ∧ w ≠ 0) := by
  simp [emits_wide]

/-- One iteration of the emission loop, from the empty state. -/
theorem col_loop_succ (s : session_t) (v eff_to : Int) (n : Nat) (col : Int)
    (h : col ≤ eff_to) :
    copy_col_loop s v eff_to (n + 1) col copy_empty
      = (⟨copybuf_utf8_bytes (get_cell_ch_virtual s v col).ch,
          (get_cell_ch_virtual s v col).log
            ++ [Event.append_utf8 v col (get_cell_ch_virtual s v col).ch
                  (get_cell_ch_virtual s v col).out_width2]⟩ : copy_state).extend
          (copy_col_loop s v eff_to n
            ((if (get_cell_ch_virtual s v col).out_width2 ≠ 0 ∧ col < eff_to
              then col + 1 else col) + 1) copy_empty) := by
  rw [copy_col_loop, if_pos h]
  dsimp only
  rw [col_loop_frame]
  simp [copy_empty, copybuf_append_utf8]

theorem col_loop_done (s : session_t) (v eff_to : Int) (n : Nat) (col : Int)
    (h : eff_to < col) (st : copy_state) :
    copy_col_loop s v eff_to n col st = st := by
  cases n with
  | zero => rfl
  | succ n => rw [copy_col_loop, if_neg (by omega)]

/-- Emissions of the column loop: a column is emitted exactly when it lies
in the walked range and is not the slot after an emitted width-2 cell. -/
theorem col_loop_emits (s : session_t) (v eff_to : Int) (n : Nat) :
    ∀ col : Int, (eff_to - col + 1).toNat ≤ n →
      (∀ u k, emits_wide (copy_col_loop s v eff_to n col copy_empty).log u k = true →
          u = v ∧ col ≤ k ∧ k ≤ eff_to ∧ (get_cell_ch_virtual s v k).out_width2 ≠ 0)
      ∧ (∀ u k, emits_col (copy_col_loop s v eff_to n col copy_empty).log u k = true ↔
          (u = v ∧ col ≤ k ∧ k ≤ eff_to
            ∧ emits_wide (copy_col_loop s v eff_to n col copy_empty).log v (k - 1) = false)) := by
  induction n with
  | zero =>
    intro col hn
    have hlt : eff_to < col := by omega
    constructor
    · intro u k h
      simp [copy_col_loop, copy_empty, emits_wide] at h
    · intro u k
      simp only [copy_col_loop, copy_empty, emits_col, List.any_nil]
      constructor
      · intro h; exact absurd h (by decide)
      · intro h; omega
  | succ n ih =>
    intro col hn
    by_cases hle : col ≤ eff_to
    · rw [col_loop_succ s v eff_to n col hle]
      generalize hw : (get_cell_ch_virtual s v col).out_width2 = w
      generalize hc' : ((if w ≠ 0 ∧ col < eff_to then col + 1 else col) + 1) = col'
      have hcol' : (col' = col + 1 ∧ ¬ (w ≠ 0 ∧ col < eff_to))
          ∨ (col' = col + 2 ∧ w ≠ 0 ∧ col < eff_to) := by
        rw [← hc']
        by_cases hcc : w ≠ 0 ∧ col < eff_to
        · right; rw [if_pos hcc]; exact ⟨by ring, hcc⟩
        · left; rw [if_neg hcc]; exact ⟨rfl, hcc⟩
      obtain ⟨ihw, ihc⟩ := ih col' (by rcases hcol' with h | h <;> omega)
      have hg1 := emits_col_none _ (get_cell_not_emission s v col)
      have hg2 := emits_wide_none _ (get_cell_not_emission s v col)
      have ew : ∀ u k, emits_wide
          (({ buf := copybuf_utf8_bytes (get_cell_ch_virtual s v col).ch,
              log := (get_cell_ch_virtual s v col).log
                ++ [Event.append_utf8 v col (get_cell_ch_virtual s v col).ch w] } :
              copy_state).extend (copy_col_loop s v eff_to n col' copy_empty)).log u k
          = (decide (v = u ∧ col = k ∧ w ≠ 0)
              || emits_wide (copy_col_loop s v eff_to n col' copy_empty).log u k) := by
        intro u k
        rw [extend_log, emits_wide_append, emits_wide_append, hg2, emits_wide_single]
        simp
      have ec : ∀ u k, emits_col
          (({ buf := copybuf_utf8_bytes (get_cell_ch_virtual s v col).ch,
              log := (get_cell_ch_virtual s v col).log
                ++ [Event.append_utf8 v col (get_cell_ch_virtual s v col).ch w] } :
              copy_state).extend (copy_col_loop s v eff_to n col' copy_empty)).log u k
          = (decide (v = u ∧ col = k)
              || emits_col (copy_col_loop s v eff_to n col' copy_empty).log u k) := by
        intro u k
        rw [extend_log, emits_col_append, emits_col_append, hg1, emits_col_single]
        simp
      constructor
      · intro u k h
        rw [ew] at h
        simp only [Bool.or_eq_true, decide_eq_true_eq] at h
        rcases h with ⟨h1, h2, h3⟩ | h
        · subst h1 h2
          exact ⟨rfl, le_refl _, hle, by rw [hw]; exact h3⟩
        · obtain ⟨a1, a2, a3, a4⟩ := ihw u k h
          exact ⟨a1, by rcases hcol' with h | h <;> omega, a3, a4⟩
      · intro u k
        rw [ec, ew]
        simp only [Bool.or_eq_true, decide_eq_true_eq, Bool.or_eq_false_iff,
          decide_eq_false_iff_not]
        rw [ihc u k]
        constructor
        · rintro (⟨h1, h2⟩ | ⟨h1, h2, h3, h4⟩)
          · subst h1 h2
            refine ⟨rfl, le_refl _, hle, ?_, ?_⟩
            · intro hx; omega
            · by_contra hx
              have hx' : emits_wide (copy_col_loop s v eff_to n col' copy_empty).log v (col - 1)
                  = true := by simpa using hx
              have := ihw v (col - 1) hx'
              rcases hcol' with h | h <;> omega
          · refine ⟨h1, by rcases hcol' with h | h <;> omega, h3, ?_, h4⟩
            intro hx
            rcases hcol' with h | h <;> omega
        · rintro ⟨h1, h2, h3, h4, h5⟩
          by_cases hk : k = col
          · left; exact ⟨h1.symm, hk.symm⟩
          · right
            refine ⟨h1, ?_, h3, h5⟩
            rcases hcol' with h | h
            · omega
            · have : k ≠ col + 1 := by
                intro hk1
                exact h4 ⟨trivial, by omega, h.2.1⟩
              omega
    · rw [col_loop_done s v eff_to (n + 1) col (by omega)]
      constructor
      · intro u k h
        simp [copy_empty, emits_wide] at h
      · intro u k
        simp only [copy_empty, emits_col, List.any_nil]
        constructor
        · intro h; exact absurd h (by decide)
        · intro h; omega

theorem eff_to_not_emission (s : session_t) (v from_ to_ : Int) :
    ∀ ev ∈ (copy_eff_to s v from_ to_ copy_empty).2.log, not_emission ev := by
  apply eff_to_log_forall
  · intro ev hev; simp [copy_empty] at hev
  · intro k _ _
    exact get_cell_not_emission s v k

theorem line_break_not_emission (s : session_t) (l2 v : Int) :
    ∀ ev ∈ (copy_line_break s l2 v copy_empty).log, not_emission ev := by
  apply line_break_log_forall
  · intro ev hev; simp [copy_empty] at hev
  · intro _
    exact ⟨is_cont_not_emission s (v + 1), trivial⟩

theorem line_out_log (s : session_t) (l1 c1 l2 c2 v : Int) :
    (copy_line_out s l1 c1 l2 c2 v).log
      = (copy_eff_to s v (copy_line_range l1 c1 l2 c2 v).1 (copy_line_range l1 c1 l2 c2 v).2
            copy_empty).2.log
        ++ (copy_col_loop s v
              (copy_eff_to s v (copy_line_range l1 c1 l2 c2 v).1
                (copy_line_range l1 c1 l2 c2 v).2 copy_empty).1
              ((copy_eff_to s v (copy_line_range l1 c1 l2 c2 v).1
                (copy_line_range l1 c1 l2 c2 v).2 copy_empty).1
                - (copy_line_range l1 c1 l2 c2 v).1 + 1).toNat
              (copy_line_range l1 c1 l2 c2 v).1 copy_empty).log
        ++ (copy_line_break s l2 v copy_empty).log := by
  unfold copy_line_out copy_line_text
  dsimp only
  rw [extend_log, col_loop_frame, extend_log]

theorem line_out_emits_col (s : session_t) (l1 c1 l2 c2 v u k : Int) :
    emits_col (copy_line_out s l1 c1 l2 c2 v).log u k
      = emits_col (copy_col_loop s v
              (copy_eff_to s v (copy_line_range l1 c1 l2 c2 v).1
                (copy_line_range l1 c1 l2 c2 v).2 copy_empty).1
              ((copy_eff_to s v (copy_line_range l1 c1 l2 c2 v).1
                (copy_line_range l1 c1 l2 c2 v).2 copy_empty).1
                - (copy_line_range l1 c1 l2 c2 v).1 + 1).toNat
              (copy_line_range l1 c1 l2 c2 v).1 copy_empty).log u k := by
  rw [line_out_log, emits_col_append, emits_col_append,
    emits_col_none _ (eff_to_not_emission s v _ _),
    emits_col_none _ (line_break_not_emission s l2 v)]
  simp

theorem line_out_emits_wide (s : session_t) (l1 c1 l2 c2 v u k : Int) :
    emits_wide (copy_line_out s l1 c1 l2 c2 v).log u k
      = emits_wide (copy_col_loop s v
              (copy_eff_to s v (copy_line_range l1 c1 l2 c2 v).1
                (copy_line_range l1 c1 l2 c2 v).2 copy_empty).1
              ((copy_eff_to s v (copy_line_range l1 c1 l2 c2 v).1
                (copy_line_range l1 c1 l2 c2 v).2 copy_empty).1
                - (copy_line_range l1 c1 l2 c2 v).1 + 1).toNat
              (copy_line_range l1 c1 l2 c2 v).1 copy_empty).log u k := by
  rw [line_out_log, emits_wide_append, emits_wide_append,
    emits_wide_none _ (eff_to_not_emission s v _ _),
    emits_wide_none _ (line_break_not_emission s l2 v)]
  simp

/-- Emissions of one iteration of the line loop. -/
theorem line_out_emits (s : session_t) (l1 c1 l2 c2 v : Int) :
    (∀ u k, emits_wide (copy_line_out s l1 c1 l2 c2 v).log u k = true →
        u = v ∧ (get_cell_ch_virtual s v k).out_width2 ≠ 0)
    ∧ (∀ u k, emits_col (copy_line_out s l1 c1 l2 c2 v).log u k = true ↔
        (u = v ∧ (copy_line_range l1 c1 l2 c2 v).1 ≤ k
          ∧ k ≤ (copy_eff_to s v (copy_line_range l1 c1 l2 c2 v).1
                  (copy_line_range l1 c1 l2 c2 v).2 copy_empty).1
          ∧ emits_wide (copy_line_out s l1 c1 l2 c2 v).log v (k - 1) = false)) := by
  obtain ⟨hw, hc⟩ := col_loop_emits s v
    (copy_eff_to s v (copy_line_range l1 c1 l2 c2 v).1 (copy_line_range l1 c1 l2 c2 v).2
      copy_empty).1
    ((copy_eff_to s v (copy_line_range l1 c1 l2 c2 v).1 (copy_line_range l1 c1 l2 c2 v).2
      copy_empty).1 - (copy_line_range l1 c1 l2 c2 v).1 + 1).toNat
    (copy_line_range l1 c1 l2 c2 v).1 (le_refl _)
  constructor
  · intro u k h
    rw [line_out_emits_wide] at h
    obtain ⟨a1, _, _, a4⟩ := hw u k h
    exact ⟨a1, a4⟩
  · intro u k
    rw [line_out_emits_col, line_out_emits_wide]
    exact hc u k

/-- Emissions of the line loop: those of the iteration for the line. -/
theorem lines_emits (s : session_t) (l1 c1 l2 c2 : Int) (n : Nat) :
    ∀ (v0 u k : Int),
      emits_col (copy_lines s l1 c1 l2 c2 n v0 copy_empty).log u k
        = (decide (v0 ≤ u ∧ u < v0 + n) && emits_col (copy_line_out s l1 c1 l2 c2 u).log u k)
      ∧ emits_wide (copy_lines s l1 c1 l2 c2 n v0 copy_empty).log u k
        = (decide (v0 ≤ u ∧ u < v0 + n) && emits_wide (copy_line_out s l1 c1 l2 c2 u).log u k) := by
  induction n with
  | zero =>
    intro v0 u k
    have : ¬ (v0 ≤ u ∧ u < v0 + ((0 : Nat) : Int)) := by omega
    simp [copy_lines, copy_empty, emits_col, emits_wide, this]
  | succ n ih =>
    intro v0 u k
    obtain ⟨i1, i2⟩ := ih (v0 + 1) u k
    obtain ⟨hw, hc⟩ := line_out_emits s l1 c1 l2 c2 v0
    rw [lines_succ, extend_log, emits_col_append, emits_wide_append, i1, i2]
    by_cases hu : u = v0
    · subst hu
      have d1 : decide (u + 1 ≤ u ∧ u < u + 1 + (n : Int)) = false := by
        rw [decide_eq_false_iff_not]; omega
      have d2 : decide (u ≤ u ∧ u < u + ((n + 1 : Nat) : Int)) = true := by
        rw [decide_eq_true_eq]; push_cast; omega
      rw [d1, d2]
      simp
    · have c1' : emits_col (copy_line_out s l1 c1 l2 c2 v0).log u k = false := by
        by_contra hx
        have hx' : emits_col (copy_line_out s l1 c1 l2 c2 v0).log u k = true := by simpa using hx
        exact hu ((hc u k).mp hx').1
      have c2' : emits_wide (copy_line_out s l1 c1 l2 c2 v0).log u k = false := by
        by_contra hx
        have hx' : emits_wide (copy_line_out s l1 c1 l2 c2 v0).log u k = true := by simpa using hx
        exact hu (hw u k hx').1
      have d : decide (v0 + 1 ≤ u ∧ u < v0 + 1 + (n : Int))
          = decide (v0 ≤ u ∧ u < v0 + ((n + 1 : Nat) : Int)) := by
        apply decide_eq_decide.mpr
        push_cast
        constructor <;> (intro h; omega)
      rw [c1', c2', d]
      simp

/-- Emissions of the whole extraction, per line of the span. -/
theorem copy_emits (s : session_t) (buf : List Nat) (hmode : s.region_mode ≠ 0)
    (hsel : s.selecting ≠ 0) (htot : 0 < virtual_total_lines s) (u k : Int) :
    (emits_wide (region_copy_selection_stream s buf).log u k = true →
        (get_cell_ch_virtual s u k).out_width2 ≠ 0)
    ∧ (emits_col (region_copy_selection_stream s buf).log u k = true ↔
        ((copy_span s).1 ≤ u ∧ u ≤ (copy_span s).2.2.1
          ∧ (span_line_range s u).1 ≤ k ∧ k ≤ span_line_eff_to s u
          ∧ emits_wide (region_copy_selection_stream s buf).log u (k - 1) = false)) := by
  rw [copy_log_closed s buf hmode hsel htot]
  obtain ⟨hw, hc⟩ := line_out_emits s (copy_span s).1 (copy_span s).2.1 (copy_span s).2.2.1
    (copy_span s).2.2.2 u
  have e1 := (lines_emits s (copy_span s).1 (copy_span s).2.1 (copy_span s).2.2.1
    (copy_span s).2.2.2 ((copy_span s).2.2.1 - (copy_span s).1 + 1).toNat (copy_span s).1 u k)
  have e2 := (lines_emits s (copy_span s).1 (copy_span s).2.1 (copy_span s).2.2.1
    (copy_span s).2.2.2 ((copy_span s).2.2.1 - (copy_span s).1 + 1).toNat (copy_span s).1 u
    (k - 1)).2
  rw [e1.1, e1.2, e2]
  simp only [Bool.and_eq_true, decide_eq_true_eq, Bool.and_eq_false_imp]
  constructor
  · rintro ⟨_, h⟩
    exact (hw u k h).2
  · rw [hc u k]
    unfold span_line_eff_to span_line_range
    constructor
    · rintro ⟨⟨h1, h2⟩, _, h4, h5, h6⟩
      exact ⟨h1, by omega, h4, h5, fun _ => h6⟩
    · rintro ⟨h1, h2, h3, h4, h5⟩
      exact ⟨⟨h1, by omega⟩, rfl, h3, h4, h5 ⟨h1, by omega⟩⟩

theorem copy_log_off (s : session_t) (buf : List Nat)
    (h : ¬ (s.region_mode ≠ 0 ∧ s.selecting ≠ 0 ∧ 0 < virtual_total_lines s)) :
    (region_copy_selection_stream s buf).log = [] := by
  unfold region_copy_selection_stream
  by_cases hm : s.region_mode = 0 ∨ s.selecting = 0
  · rw [if_pos hm]
  · rw [if_neg hm]
    dsimp only
    have : virtual_total_lines s ≤ 0 := by
      by_contra hx
      apply h
      refine ⟨fun h0 => hm (Or.inl h0), fun h0 => hm (Or.inr h0), by omega⟩
    rw [if_pos this]

theorem trim_loop_done (s : session_t) (v from_ : Int) (n : Nat) (e : Int) (st : copy_state)
    (h : e < from_) : copy_trim_loop s v from_ n e st = (e, st) := by
  cases n with
  | zero => rfl
  | succ n => rw [copy_trim_loop, if_neg (by omega)]

/-- Result of the trimming loop when it is given enough iterations. -/
theorem trim_loop_spec (s : session_t) (v from_ : Int) (n : Nat) :
    ∀ (e : Int) (st : copy_state), (e - from_ + 1).toNat ≤ n →
      (∀ k, (copy_trim_loop s v from_ n e st).1 < k → k ≤ e →
          (get_cell_ch_virtual s v k).ch = 32)
      ∧ (copy_trim_loop s v from_ n e st).1 ≤ e
      ∧ ((from_ ≤ (copy_trim_loop s v from_ n e st).1
            ∧ (get_cell_ch_virtual s v (copy_trim_loop s v from_ n e st).1).ch ≠ 32)
          ∨ ((copy_trim_loop s v from_ n e st).1 < from_
            ∧ (from_ ≤ e → (copy_trim_loop s v from_ n e st).1 = from_ - 1))) := by
  induction n with
  | zero =>
    intro e st hn
    simp only [copy_trim_loop]
    refine ⟨fun k h1 h2 => by omega, le_refl _, Or.inr ⟨by omega, fun h => by omega⟩⟩
  | succ n ih =>
    intro e st hn
    simp only [copy_trim_loop]
    by_cases h : e ≥ from_
    · simp only [if_pos h]
      by_cases hc : (get_cell_ch_virtual s v e).ch ≠ 32
      · simp only [if_pos hc]
        exact ⟨fun k h1 h2 => by omega, le_refl _, Or.inl ⟨h, hc⟩⟩
      · simp only [if_neg hc]
        obtain ⟨a1, a2, a3⟩ := ih (e - 1)
          ⟨st.buf, st.log ++ (get_cell_ch_virtual s v e).log⟩ (by omega)
        refine ⟨?_, by omega, ?_⟩
        · intro k h1 h2
          by_cases hk : k = e
          · rw [hk]; simpa using hc
          · exact a1 k h1 (by omega)
        · rcases a3 with a3 | ⟨a3, a4⟩
          · exact Or.inl a3
          · right
            refine ⟨a3, fun _ => ?_⟩
            by_cases he : from_ ≤ e - 1
            · exact a4 he
            · rw [trim_loop_done s v from_ n (e - 1) _ (by omega)]
              omega
    · simp only [if_neg h]
      exact ⟨fun k h1 h2 => by omega, le_refl _, Or.inr ⟨by omega, fun h' => by omega⟩⟩

/-- Trailing-space trimming: the `eff_to` of a line. -/
theorem eff_to_spec (s : session_t) (v from_ to_ : Int) (st : copy_state) :
    (to_ = TERM_COLS - 1 →
      (((copy_eff_to s v from_ to_ st).1 = from_ - 1
          ∧ ∀ k, from_ ≤ k → k ≤ to_ → (get_cell_ch_virtual s v k).ch = 32)
        ∨ (from_ ≤ (copy_eff_to s v from_ to_ st).1
          ∧ (copy_eff_to s v from_ to_ st).1 ≤ to_
          ∧ (get_cell_ch_virtual s v (copy_eff_to s v from_ to_ st).1).ch ≠ 32
          ∧ ∀ k, (copy_eff_to s v from_ to_ st).1 < k → k ≤ to_ →
              (get_cell_ch_virtual s v k).ch = 32)))
    ∧ (to_ ≠ TERM_COLS - 1 → (copy_eff_to s v from_ to_ st).1 = to_) := by
  unfold copy_eff_to
  constructor
  · intro hto
    rw [if_pos hto]
    dsimp only
    obtain ⟨a1, a2, a3⟩ := trim_loop_spec s v from_ (to_ - from_ + 1).toNat to_ st (le_refl _)
    rcases a3 with ⟨a3, a4⟩ | ⟨a3, a4⟩
    · right
      rw [if_neg (by omega)]
      exact ⟨a3, a2, a4, a1⟩
    · left
      rw [if_pos a3]
      refine ⟨rfl, fun k h1 h2 => ?_⟩
      exact a1 k (by have := a4 (by omega); omega) h2
  · intro hto
    rw [if_neg hto]

/-- Bytes of the emission loop over cells that are all of width 1. -/
theorem col_loop_buf_narrow (s : session_t) (v eff_to : Int) (n : Nat) :
    ∀ col : Int, (eff_to - col + 1).toNat ≤ n →
      (∀ k, col ≤ k → k ≤ eff_to → (get_cell_ch_virtual s v k).out_width2 = 0) →
      (copy_col_loop s v eff_to n col copy_empty).buf
        = (List.range (eff_to - col + 1).toNat).flatMap (fun j =>
            copybuf_utf8_bytes (get_cell_ch_virtual s v (col + j)).ch) := by
  induction n with
  | zero =>
    intro col hn _
    have h0 : (eff_to - col + 1).toNat = 0 := by omega
    rw [h0]
    simp [copy_col_loop, copy_empty]
  | succ n ih =>
    intro col hn hw
    by_cases hle : col ≤ eff_to
    · rw [col_loop_succ s v eff_to n col hle, extend_buf]
      have hw0 := hw col (le_refl _) hle
      have hc : ¬ ((get_cell_ch_virtual s v col).out_width2 ≠ 0 ∧ col < eff_to) := by
        rw [hw0]; simp
      rw [if_neg hc, ih (col + 1) (by omega) (fun k h1 h2 => hw k (by omega) h2)]
      have hlen : (eff_to - col + 1).toNat = (eff_to - (col + 1) + 1).toNat + 1 := by omega
      rw [hlen, List.range_succ_eq_map, List.flatMap_cons, List.flatMap_map]
      congr 1
      · simp
      · apply List.flatMap_congr
        intro k _
        have e : col + 1 + (k : Int) = col + ((k + 1 : Nat) : Int) := by push_cast; ring
        simp only [Function.comp, Nat.succ_eq_add_one]
        rw [e]
    · have h0 : (eff_to - col + 1).toNat = 0 := by omega
      rw [h0, col_loop_done s v eff_to (n + 1) col (by omega)]
      simp [copy_empty]

/-- Bytes of the emission loop over a row that starts with a width-2 cell and
has width-1 cells from column 2 on. -/
theorem col_loop_buf_wide_first (s : session_t) (v eff_to : Int) (he : 0 ≤ eff_to)
    (hw0 : (get_cell_ch_virtual s v 0).out_width2 ≠ 0)
    (hw : ∀ k, 2 ≤ k → k ≤ eff_to → (get_cell_ch_virtual s v k).out_width2 = 0) :
    (copy_col_loop s v eff_to (eff_to - 0 + 1).toNat 0 copy_empty).buf
      = copybuf_utf8_bytes (get_cell_ch_virtual s v 0).ch
        ++ (List.range (eff_to - 1).toNat).flatMap (fun j =>
            copybuf_utf8_bytes (get_cell_ch_virtual s v (2 + j)).ch) := by
  have hlen : (eff_to - 0 + 1).toNat = eff_to.toNat + 1 := by omega
  rw [hlen, col_loop_succ s v eff_to _ 0 he, extend_buf]
  congr 1
  by_cases h1 : (0 : Int) < eff_to
  · rw [if_pos ⟨hw0, h1⟩]
    rw [col_loop_buf_narrow s v eff_to _ (0 + 1 + 1) (by omega) (fun k h1 h2 => hw k (by omega) h2)]
    have e : (eff_to - (0 + 1 + 1) + 1).toNat = (eff_to - 1).toNat := by omega
    rw [e]
    apply List.flatMap_congr
    intro k _
    norm_num
  · have e0 : eff_to = 0 := by omega
    rw [if_neg (by omega), col_loop_done s v eff_to _ _ (by omega)]
    subst e0
    simp [copy_empty]

theorem get_cell_silent (s : session_t) (v col : Int) :
    ∀ ev ∈ (get_cell_ch_virtual s v col).log, silent ev := by
  unfold get_cell_ch_virtual
  intro ev hev
  split at hev
  · simp at hev; rcases hev with rfl | rfl <;> trivial
  · dsimp only at hev
    split at hev
    · simp at hev; rw [hev]; trivial
    · split at hev
      · simp at hev; rcases hev with rfl | rfl <;> trivial
      · split at hev <;> (simp at hev; rcases hev with rfl | rfl <;> trivial)

theorem is_cont_silent (s : session_t) (v : Int) :
    ∀ ev ∈ (virtual_line_is_continuation s v).log, silent ev := by
  unfold virtual_line_is_continuation
  intro ev hev
  split at hev
  · simp at hev; rw [hev]; trivial
  · split at hev
    · simp at hev; rcases hev with rfl | rfl <;> trivial
    · simp at hev; rw [hev]; trivial

theorem render_silent (log : List Event) (h : ∀ ev ∈ log, silent ev) :
    log.flatMap render_event = [] := by
  induction log with
  | nil => rfl
  | cons ev log ih =>
    rw [List.flatMap_cons, ih (fun e he => h e (List.mem_cons_of_mem _ he))]
    have := h ev (List.mem_cons_self _ _)
    cases ev <;> simp_all [silent, render_event]

theorem silent_faithful (s : session_t) (ev : Event) (h : silent ev) : emission_faithful s ev := by
  cases ev <;> simp_all [silent, emission_faithful]

theorem col_loop_render (s : session_t) (v eff_to : Int) (n : Nat) :
    ∀ col : Int,
      (copy_col_loop s v eff_to n col copy_empty).buf
        = (copy_col_loop s v eff_to n col copy_empty).log.flatMap render_event := by
  induction n with
  | zero => intro col; rfl
  | succ n ih =>
    intro col
    by_cases hle : col ≤ eff_to
    · rw [col_loop_succ s v eff_to n col hle, extend_buf, extend_log, ih]
      simp only [List.flatMap_append, render_silent _ (get_cell_silent s v col)]
      simp [render_event]
    · rw [col_loop_done s v eff_to (n + 1) col (by omega)]
      rfl

theorem eff_to_buf (s : session_t) (v from_ to_ : Int) (st : copy_state) :
    (copy_eff_to s v from_ to_ st).2.buf = st.buf := by
  unfold copy_eff_to
  split
  · exact trim_loop_buf s v from_ _ to_ st
  · rfl

theorem line_out_render (s : session_t) (l1 c1 l2 c2 v : Int) :
    (copy_line_out s l1 c1 l2 c2 v).buf
      = (copy_line_out s l1 c1 l2 c2 v).log.flatMap render_event := by
  have hs : ∀ ev ∈ (copy_eff_to s v (copy_line_range l1 c1 l2 c2 v).1
      (copy_line_range l1 c1 l2 c2 v).2 copy_empty).2.log, silent ev := by
    apply eff_to_log_forall
    · intro ev hev; simp [copy_empty] at hev
    · intro k _ _; exact get_cell_silent s v k
  rw [line_out_log]
  unfold copy_line_out copy_line_text
  dsimp only
  rw [extend_buf, col_loop_frame, extend_buf, eff_to_buf, col_loop_render]
  simp only [List.flatMap_append, render_silent _ hs]
  congr 1
  unfold copy_line_break
  by_cases h : v ≠ l2
  · rw [if_pos h]
    dsimp only
    by_cases hc : (virtual_line_is_continuation s (v + 1)).val = 0
    · rw [if_pos hc]
      simp [copy_empty, copybuf_append_byte, render_silent _ (is_cont_silent s (v + 1)),
        render_event]
    · rw [if_neg hc]
      simp [copy_empty, render_silent _ (is_cont_silent s (v + 1))]
  · rw [if_neg h]
    rfl

theorem lines_render (s : session_t) (l1 c1 l2 c2 : Int) (n : Nat) :
    ∀ v : Int,
      (copy_lines s l1 c1 l2 c2 n v copy_empty).buf
        = (copy_lines s l1 c1 l2 c2 n v copy_empty).log.flatMap render_event := by
  induction n with
  | zero => intro v; rfl
  | succ n ih =>
    intro v
    rw [lines_succ, extend_buf, extend_log, List.flatMap_append, ih, line_out_render]

/-- The copy buffer after an extraction is the rendering of the logged
emissions and line breaks, in order. -/
theorem copy_render (s : session_t) (buf : List Nat) (hmode : s.region_mode ≠ 0)
    (hsel : s.selecting ≠ 0) (htot : 0 < virtual_total_lines s) :
    (region_copy_selection_stream s buf).buf
      = (region_copy_selection_stream s buf).log.flatMap render_event := by
  rw [copy_log_closed s buf hmode hsel htot, ← lines_render]
  unfold region_copy_selection_stream
  rw [if_neg (by simp [hmode, hsel])]
  dsimp only
  rw [if_neg (by omega), lines_frame, extend_buf]
  simp [copybuf_reset]

theorem copy_faithful (s : session_t) (buf : List Nat) :
    ∀ ev ∈ (region_copy_selection_stream s buf).log, emission_faithful s ev := by
  by_cases hon : s.region_mode ≠ 0 ∧ s.selecting ≠ 0 ∧ 0 < virtual_total_lines s
  · obtain ⟨hmode, hsel, htot⟩ := hon
    rw [copy_log_closed s buf hmode hsel htot]
    obtain ⟨b1, b2⟩ := clampi_bounds (region_norm s).2.1 0 (TERM_COLS - 1) (by decide)
    obtain ⟨b3, b4⟩ := clampi_bounds (region_norm s).2.2.2 0 (TERM_COLS - 1) (by decide)
    simp only [TERM_COLS] at b1 b2 b3 b4
    simp only [copy_span, TERM_COLS]
    apply lines_log_forall s _ _ _ _ (emission_faithful s) b1 (by omega) b3 (by omega)
    · intro ev hev; simp [copy_empty] at hev
    · intro u _ _
      constructor
      · intro k _ _
        exact ⟨fun ev hev => silent_faithful s ev (get_cell_silent s u k ev hev), rfl, rfl⟩
      · intro _
        exact ⟨fun ev hev => silent_faithful s ev (is_cont_silent s (u + 1) ev hev), trivial⟩
  · rw [copy_log_off s buf hon]
    intro ev hev; simp at hev

theorem emits_col_wide (s : session_t) (log : List Event)
    (hf : ∀ ev ∈ log, emission_faithful s ev) (v k : Int)
    (h : emits_col log v k = true) (hw : (get_cell_ch_virtual s v k).out_width2 ≠ 0) :
    emits_wide log v k = true := by
  unfold emits_col at h
  unfold emits_wide
  rw [List.any_eq_true] at *
  obtain ⟨ev, hev, hp⟩ := h
  refine ⟨ev, hev, ?_⟩
  have hfe := hf ev hev
  cases ev with
  | append_utf8 v' k' ch w =>
    simp only [decide_eq_true_eq] at hp ⊢
    obtain ⟨h1, h2⟩ := hp
    subst h1 h2
    exact ⟨rfl, rfl, by rw [hfe.2]; exact hw⟩
  | _ => simp at hp

theorem emits_wide_col (log : List Event) (v k : Int) (h : emits_wide log v k = true) :
    emits_col log v k = true := by
  unfold emits_wide at h
  unfold emits_col
  rw [List.any_eq_true] at *
  obtain ⟨ev, hev, hp⟩ := h
  refine ⟨ev, hev, ?_⟩
  cases ev <;> simp_all

theorem span_line_text_eq (s : session_t) (v : Int) :
    span_line_text s v
      = (copy_col_loop s v (span_line_eff_to s v)
          (span_line_eff_to s v - (span_line_range s v).1 + 1).toNat
          (span_line_range s v).1 copy_empty).buf := by
  unfold span_line_text copy_line_text span_line_eff_to span_line_range
  dsimp only
  rw [col_loop_frame, extend_buf, eff_to_buf]
  simp [copy_empty]

/-- Emission facts shared by the padding and trimming statements. -/
theorem copy_emits_all (s : session_t) (buf : List Nat) (v k : Int) :
    emits_wide (region_copy_selection_stream s buf).log v k = true →
      emits_col (region_copy_selection_stream s buf).log v k = true
      ∧ (get_cell_ch_virtual s v k).out_width2 ≠ 0
      ∧ emits_col (region_copy_selection_stream s buf).log v (k + 1) = false := by
  intro h
  by_cases hon : s.region_mode ≠ 0 ∧ s.selecting ≠ 0 ∧ 0 < virtual_total_lines s
  · obtain ⟨hmode, hsel, htot⟩ := hon
    refine ⟨emits_wide_col _ v k h, (copy_emits s buf hmode hsel htot v k).1 h, ?_⟩
    by_contra hx
    have hx' : emits_col (region_copy_selection_stream s buf).log v (k + 1) = true := by
      simpa using hx
    have := ((copy_emits s buf hmode hsel htot v (k + 1)).2.mp hx').2.2.2.2
    rw [show k + 1 - 1 = k by ring, h] at this
    exact absurd this (by decide)
  · rw [copy_log_off s buf hon] at h
    simp [emits_wide] at h

theorem full_row_span (s : session_t) (v : Int) (hv0 : 0 ≤ v)
    (hv1 : v ≤ virtual_total_lines s - 1)
    (hsl : s.sel_line = v) (hsc : s.sel_col = 0) (hrl : s.reg_line = v)
    (hrc : s.reg_col = TERM_COLS - 1) : copy_span s = (v, 0, v, 52) := by
  have hn : region_norm s = (v, 0, v, 52) := by
    unfold region_norm
    simp only [hsl, hsc, hrl, hrc, TERM_COLS]
    rw [if_neg (by omega)]
    rfl
  unfold copy_span
  rw [hn]
  simp only [TERM_COLS]
  have e1 : clampi v 0 (virtual_total_lines s - 1) = v := by
    unfold clampi
    rw [if_neg (by omega), if_neg (by omega)]
  have e2 : clampi 0 0 (53 - 1) = 0 := by decide
  have e3 : clampi 52 0 (53 - 1) = 52 := by decide
  rw [e1, e2, e3]

/-- C8: the slot after an emitted width-2 cell is never emitted; a full row
that starts with a width-2 cell yields the codepoint of column 0 followed
directly by those of columns 2 onward. -/
theorem C8_wide_padding_skipped (s : session_t) (buf : List Nat) :
    (∀ ev ∈ (region_copy_selection_stream s buf).log, emission_faithful s ev)
    ∧ (s.region_mode ≠ 0 → s.selecting ≠ 0 → 0 < virtual_total_lines s →
        (region_copy_selection_stream s buf).buf
          = (region_copy_selection_stream s buf).log.flatMap render_event)
    ∧ (∀ v k : Int, emits_wide (region_copy_selection_stream s buf).log v k = true →
        emits_col (region_copy_selection_stream s buf).log v k = true
        ∧ (get_cell_ch_virtual s v k).out_width2 ≠ 0
        ∧ emits_col (region_copy_selection_stream s buf).log v (k + 1) = false)
    ∧ (∀ v : Int, s.region_mode ≠ 0 → s.selecting ≠ 0 →
        0 ≤ v → v ≤ virtual_total_lines s - 1 →
        s.sel_line = v → s.sel_col = 0 → s.reg_line = v → s.reg_col = TERM_COLS - 1 →
        (get_cell_ch_virtual s v 0).out_width2 ≠ 0 →
        (get_cell_ch_virtual s v 0).ch ≠ 32 →
        (∀ k, 2 ≤ k → k ≤ TERM_COLS - 1 → (get_cell_ch_virtual s v k).out_width2 = 0) →
        (region_copy_selection_stream s buf).buf
            = copybuf_utf8_bytes (get_cell_ch_virtual s v 0).ch
              ++ (List.range (span_line_eff_to s v - 1).toNat).flatMap (fun j =>
                  copybuf_utf8_bytes (get_cell_ch_virtual s v (2 + j)).ch)
        ∧ 0 ≤ span_line_eff_to s v ∧ span_line_eff_to s v ≤ TERM_COLS - 1
        ∧ emits_col (region_copy_selection_stream s buf).log v 0 = true
        ∧ emits_col (region_copy_selection_stream s buf).log v 1 = false) := by
  refine ⟨copy_faithful s buf, copy_render s buf, ?_, ?_⟩
  · intro v k
    exact copy_emits_all s buf v k
  · intro v hmode hsel hv0 hv1 hsl hsc hrl hrc hw0 hch hw
    have htot : 0 < virtual_total_lines s := by omega
    have hsp := full_row_span s v hv0 hv1 hsl hsc hrl hrc
    have hrange : span_line_range s v = (0, 52) := by
      unfold span_line_range
      rw [hsp]
      simp [copy_line_range]
    obtain ⟨t1, _⟩ := eff_to_spec s v 0 52 copy_empty
    have heff : span_line_eff_to s v = (copy_eff_to s v 0 52 copy_empty).1 := by
      unfold span_line_eff_to
      rw [hrange]
    have he : 0 ≤ span_line_eff_to s v ∧ span_line_eff_to s v ≤ 52 := by
      rw [heff]
      rcases t1 (by decide) with ⟨_, a2⟩ | ⟨a1, a2, _, _⟩
      · exact absurd (a2 0 (le_refl _) (by decide)) hch
      · exact ⟨a1, a2⟩
    simp only [TERM_COLS] at hw ⊢
    have hbuf : (region_copy_selection_stream s buf).buf = span_line_text s v := by
      rw [copy_buf_closed s buf hmode hsel htot, hsp]
      rw [show List.range (v - v + 1).toNat = [0] by rw [show (v - v + 1).toNat = 1 by omega]; rfl]
      simp [span_line_text, hsp]
    have hcol0 : emits_col (region_copy_selection_stream s buf).log v 0 = true := by
      rw [(copy_emits s buf hmode hsel htot v 0).2, hsp, hrange]
      refine ⟨le_refl _, le_refl _, le_refl _, he.1, ?_⟩
      by_contra hx
      have hx' : emits_wide (region_copy_selection_stream s buf).log v (0 - 1) = true := by
        simpa using hx
      have h1 := emits_wide_col _ _ _ hx'
      rw [(copy_emits s buf hmode hsel htot v (0 - 1)).2, hrange] at h1
      omega
    have hwide0 : emits_wide (region_copy_selection_stream s buf).log v 0 = true :=
      emits_col_wide s _ (copy_faithful s buf) v 0 hcol0 hw0
    refine ⟨?_, he.1, by omega, hcol0, ?_⟩
    · rw [hbuf, span_line_text_eq, hrange]
      exact col_loop_buf_wide_first s v _ he.1 hw0 (fun k h1 h2 => hw k h1 (by omega))
    · have := (copy_emits_all s buf v 0 hwide0).2.2
      simpa using this

/-- Witness for C8: the row with a width-2 glyph at column 0 yields the three
bytes of U+6F22 and then `a`; column 1 is not emitted. -/
theorem C8_wide_padding_skipped_witness :
    (wide_session.region_mode ≠ 0 ∧ wide_session.selecting ≠ 0
      ∧ (get_cell_ch_virtual wide_session 0 0).out_width2 ≠ 0
      ∧ (get_cell_ch_virtual wide_session 0 0).ch ≠ 32)
    ∧ (region_copy_selection_stream wide_session []).buf
        = copybuf_utf8_bytes (get_cell_ch_virtual wide_session 0 0).ch
          ++ (List.range (span_line_eff_to wide_session 0 - 1).toNat).flatMap (fun j =>
              copybuf_utf8_bytes (get_cell_ch_virtual wide_session 0 (2 + j)).ch)
    ∧ emits_col (region_copy_selection_stream wide_session []).log 0 1 = false
    ∧ (region_copy_selection_stream wide_session []).buf = [0xE6, 0xBC, 0xA2, 97] :=
  ⟨by decide,
   ((C8_wide_padding_skipped wide_session []).2.2.2 0 (by decide) (by decide) (by decide)
      (by decide) rfl rfl rfl rfl (by decide) (by decide)
      (fun k h1 h2 => by
        simp only [TERM_COLS] at h2
        interval_cases k <;> rfl)).1,
   ((C8_wide_padding_skipped wide_session []).2.2.2 0 (by decide) (by decide) (by decide)
      (by decide) rfl rfl rfl rfl (by decide) (by decide)
      (fun k h1 h2 => by
        simp only [TERM_COLS] at h2
        interval_cases k <;> rfl)).2.2.2.2,
   by decide⟩

/-- Counterexample to C9 as stated: the full row ends at `TERM_COLS - 1`, its
last non-space cell is column 2, yet not every column of `[0, 2]` is
emitted: column 1, the slot after the width-2 cell, is skipped. -/
theorem C9_trimmed_range_counterexample :
    (wide_session.region_mode ≠ 0 ∧ wide_session.selecting ≠ 0
      ∧ copy_span wide_session = (0, 0, 0, 52)
      ∧ span_line_range wide_session 0 = (0, TERM_COLS - 1))
    ∧ ((get_cell_ch_virtual wide_session 0 2).ch ≠ 32
      ∧ ∀ j : Fin 50, (get_cell_ch_virtual wide_session 0 (3 + (j.val : Int))).ch = 32)
    ∧ ¬ (∀ k : Int, 0 ≤ k → k ≤ 2 →
          emits_col (region_copy_selection_stream wide_session []).log 0 k = true) := by
  refine ⟨by decide, by decide, ?_⟩
  intro h
  exact absurd (h 1 (by decide) (by decide)) (by decide)

/-- C9 (amended): on a line whose range ends at `TERM_COLS - 1` the emission
loop walks `[from, e]`, `e` being the largest column of `[from, to]` whose
cell is not a space, and emits nothing when all of them are spaces; a range
that ends before `TERM_COLS - 1` is walked untrimmed. The emitted columns are
those of the walked range other than the slot after an emitted width-2 cell,
hence the whole walked range on a line without width-2 cells. -/
theorem C9_trailing_space_trim (s : session_t) (buf : List Nat) (v : Int)
    (hmode : s.region_mode ≠ 0) (hsel : s.selecting ≠ 0) (htot : 0 < virtual_total_lines s)
    (hv1 : (copy_span s).1 ≤ v) (hv2 : v ≤ (copy_span s).2.2.1) :
    ((span_line_range s v).2 = TERM_COLS - 1 →
      ((span_line_eff_to s v = (span_line_range s v).1 - 1
          ∧ (∀ k, (span_line_range s v).1 ≤ k → k ≤ (span_line_range s v).2 →
              (get_cell_ch_virtual s v k).ch = 32)
          ∧ span_line_text s v = []
          ∧ ∀ k, emits_col (region_copy_selection_stream s buf).log v k = false)
        ∨ ((span_line_range s v).1 ≤ span_line_eff_to s v
          ∧ span_line_eff_to s v ≤ (span_line_range s v).2
          ∧ (get_cell_ch_virtual s v (span_line_eff_to s v)).ch ≠ 32
          ∧ ∀ k, span_line_eff_to s v < k → k ≤ (span_line_range s v).2 →
              (get_cell_ch_virtual s v k).ch = 32)))
    ∧ ((span_line_range s v).2 ≠ TERM_COLS - 1 →
        span_line_eff_to s v = (span_line_range s v).2)
    ∧ (∀ k, emits_col (region_copy_selection_stream s buf).log v k = true ↔
        ((span_line_range s v).1 ≤ k ∧ k ≤ span_line_eff_to s v
          ∧ emits_wide (region_copy_selection_stream s buf).log v (k - 1) = false))
    ∧ ((∀ k, (span_line_range s v).1 ≤ k → k ≤ span_line_eff_to s v →
          (get_cell_ch_virtual s v k).out_width2 = 0) →
        ∀ k, emits_col (region_copy_selection_stream s buf).log v k = true ↔
          ((span_line_range s v).1 ≤ k ∧ k ≤ span_line_eff_to s v)) := by
  obtain ⟨t1, t2⟩ := eff_to_spec s v (span_line_range s v).1 (span_line_range s v).2 copy_empty
  have hiff : ∀ k, emits_col (region_copy_selection_stream s buf).log v k = true ↔
      ((span_line_range s v).1 ≤ k ∧ k ≤ span_line_eff_to s v
        ∧ emits_wide (region_copy_selection_stream s buf).log v (k - 1) = false) := by
    intro k
    rw [(copy_emits s buf hmode hsel htot v k).2]
    constructor
    · rintro ⟨_, _, h3, h4, h5⟩
      exact ⟨h3, h4, h5⟩
    · rintro ⟨h3, h4, h5⟩
      exact ⟨hv1, hv2, h3, h4, h5⟩
  refine ⟨?_, t2, hiff, ?_⟩
  · intro hto
    rcases t1 hto with ⟨a1, a2⟩ | a
    · left
      refine ⟨a1, a2, ?_, ?_⟩
      · rw [span_line_text_eq, col_loop_done]
        · rfl
        · have : span_line_eff_to s v = (span_line_range s v).1 - 1 := a1
          omega
      · intro k
        by_contra hx
        have hx' : emits_col (region_copy_selection_stream s buf).log v k = true := by
          simpa using hx
        obtain ⟨h3, h4, _⟩ := (hiff k).mp hx'
        have : span_line_eff_to s v = (span_line_range s v).1 - 1 := a1
        omega
    · right; exact a
  · intro hnarrow k
    rw [hiff k]
    constructor
    · rintro ⟨h1, h2, _⟩
      exact ⟨h1, h2⟩
    · rintro ⟨h1, h2⟩
      refine ⟨h1, h2, ?_⟩
      by_contra hx
      have hx' : emits_wide (region_copy_selection_stream s buf).log v (k - 1) = true := by
        simpa using hx
      obtain ⟨c1, c2, _⟩ := copy_emits_all s buf v (k - 1) hx'
      obtain ⟨h3, h4, _⟩ := (hiff (k - 1)).mp c1
      exact c2 (hnarrow (k - 1) h3 (by omega))

/-- Witness for C9 (amended): line 0 of the row with a width-2 glyph, trimmed
to column 2. -/
theorem C9_trailing_space_trim_witness :
    (wide_session.region_mode ≠ 0 ∧ wide_session.selecting ≠ 0
      ∧ 0 < virtual_total_lines wide_session
      ∧ (copy_span wide_session).1 ≤ 0 ∧ 0 ≤ (copy_span wide_session).2.2.1)
    ∧ (∀ k, emits_col (region_copy_selection_stream wide_session []).log 0 k = true ↔
        ((span_line_range wide_session 0).1 ≤ k ∧ k ≤ span_line_eff_to wide_session 0
          ∧ emits_wide (region_copy_selection_stream wide_session []).log 0 (k - 1) = false))
    ∧ span_line_eff_to wide_session 0 = 2 :=
  ⟨by decide,
   (C9_trailing_space_trim wide_session [] 0 (by decide) (by decide) (by decide) (by decide)
      (by decide)).2.2.1,
   by decide⟩

theorem and_63 (x : Nat) : x &&& 0x3F = x % 64 := Nat.and_pow_two_sub_one_eq_mod x 6

theorem or_80 (x : Nat) (h : x < 64) : 0x80 ||| x = 128 + x :=
  (Nat.mul_add_lt_is_or (i := 6) h 2).symm

theorem or_C0 (x : Nat) (h : x < 32) : 0xC0 ||| x = 192 + x :=
  (Nat.mul_add_lt_is_or (i := 5) h 6).symm

theorem or_E0 (x : Nat) (h : x < 16) : 0xE0 ||| x = 224 + x :=
  (Nat.mul_add_lt_is_or (i := 4) h 14).symm

theorem or_F0 (x : Nat) (h : x < 8) : 0xF0 ||| x = 240 + x :=
  (Nat.mul_add_lt_is_or (i := 3) h 30).symm

/-- The bytes of `copybuf_append_utf8` in arithmetic form, for codepoints up
to U+10FFFF. -/
theorem utf8_bytes_arith (c : Nat) (hc : c ≤ 0x10FFFF) :
    copybuf_utf8_bytes c
      = if c ≤ 0x7F then [c]
        else if c ≤ 0x7FF then [192 + c / 64, 128 + c % 64]
        else if c ≤ 0xFFFF then [224 + c / 4096, 128 + c / 64 % 64, 128 + c % 64]
        else [240 + c / 262144, 128 + c / 4096 % 64, 128 + c / 64 % 64, 128 + c % 64] := by
  unfold copybuf_utf8_bytes
  simp only [Nat.shiftRight_eq_div_pow, and_63]
  have h64 : ∀ x : Nat, (0x80 ||| x % 64) % 256 = 128 + x % 64 := by
    intro x
    rw [or_80 _ (Nat.mod_lt _ (by decide))]
    omega
  simp only [h64]
  by_cases h1 : c ≤ 0x7F
  · simp only [if_pos h1]
    congr 1
    omega
  · simp only [if_neg h1]
    by_cases h2 : c ≤ 0x7FF
    · simp only [if_pos h2]
      rw [or_C0 (c / 2 ^ 6) (by omega)]
      congr 1
      omega
    · simp only [if_neg h2]
      by_cases h3 : c ≤ 0xFFFF
      · simp only [if_pos h3]
        rw [or_E0 (c / 2 ^ 12) (by omega)]
        congr 1
        · omega
      · simp only [if_neg h3]
        rw [or_F0 (c / 2 ^ 18) (by omega)]
        congr 1
        · omega

theorem utf8_bytes_length (c : Nat) :
    (copybuf_utf8_bytes c).length
      = if c ≤ 0x7F then 1 else if c ≤ 0x7FF then 2 else if c ≤ 0xFFFF then 3 else 4 := by
  unfold copybuf_utf8_bytes
  split
  · rfl
  · split
    · rfl
    · split <;> rfl

theorem utf8_bytes_lt (c : Nat) : ∀ b ∈ copybuf_utf8_bytes c, b < 256 := by
  unfold copybuf_utf8_bytes
  intro b hb
  split at hb
  · simp at hb; rw [hb]; exact Nat.mod_lt _ (by decide)
  · split at hb
    · simp at hb; rcases hb with rfl | rfl <;> exact Nat.mod_lt _ (by decide)
    · split at hb
      · simp at hb; rcases hb with rfl | rfl | rfl <;> exact Nat.mod_lt _ (by decide)
      · simp at hb; rcases hb with rfl | rfl | rfl | rfl <;> exact Nat.mod_lt _ (by decide)

theorem utf8_roundtrip (c : Nat) (hc : c ≤ 0x10FFFF) :
    utf8_decode_spec (copybuf_utf8_bytes c) = some c := by
  rw [utf8_bytes_arith c hc]
  by_cases h1 : c ≤ 0x7F
  · rw [if_pos h1]
    simp only [utf8_decode_spec]
    rw [if_pos (by omega)]
  · rw [if_neg h1]
    by_cases h2 : c ≤ 0x7FF
    · rw [if_pos h2]
      simp only [utf8_decode_spec]
      rw [if_pos (by omega), if_pos (by omega)]
      congr 1
      omega
    · rw [if_neg h2]
      by_cases h3 : c ≤ 0xFFFF
      · rw [if_pos h3]
        simp only [utf8_decode_spec]
        rw [if_pos (by omega), if_pos (by omega)]
        congr 1
        omega
      · rw [if_neg h3]
        simp only [utf8_decode_spec]
        rw [if_pos (by omega), if_pos (by omega)]
        congr 1
        omega

/-- C10: `copybuf_append_utf8(c)` appends 1, 2, 3 or 4 bytes according to the
range of `c` and leaves the earlier bytes unchanged; for `c <= 0x10FFFF` the
appended bytes are the UTF-8 encoding of `c`: a lead byte `0xxxxxxx`,
`110xxxxx`, `1110xxxx` or `11110xxx` (that is `c`, `192 + ..`, `224 + ..`,
`240 + ..`) followed by continuation bytes `10xxxxxx` (`128 + ..`), and
decoding them yields `c`. -/
theorem C10_append_utf8 (c : Nat) (buf : List Nat) :
    (copybuf_append_utf8 c buf).length
        = buf.length
          + (if c ≤ 0x7F then 1 else if c ≤ 0x7FF then 2 else if c ≤ 0xFFFF then 3 else 4)
    ∧ (copybuf_append_utf8 c buf).take buf.length = buf
    ∧ (∀ b ∈ (copybuf_append_utf8 c buf).drop buf.length, b < 256)
    ∧ (c ≤ 0x10FFFF →
        (copybuf_append_utf8 c buf).drop buf.length
          = (if c ≤ 0x7F then [c]
             else if c ≤ 0x7FF then [192 + c / 64, 128 + c % 64]
             else if c ≤ 0xFFFF then [224 + c / 4096, 128 + c / 64 % 64, 128 + c % 64]
             else [240 + c / 262144, 128 + c / 4096 % 64, 128 + c / 64 % 64, 128 + c % 64])
        ∧ utf8_decode_spec ((copybuf_append_utf8 c buf).drop buf.length) = some c) := by
  have hdrop : (copybuf_append_utf8 c buf).drop buf.length = copybuf_utf8_bytes c := by
    simp [copybuf_append_utf8]
  refine ⟨?_, ?_, ?_, ?_⟩
  · simp [copybuf_append_utf8, utf8_bytes_length]
  · simp [copybuf_append_utf8]
  · rw [hdrop]; exact utf8_bytes_lt c
  · intro hc
    rw [hdrop]
    exact ⟨utf8_bytes_arith c hc, utf8_roundtrip c hc⟩

/-- Witness for C10: U+6F22 is appended as `E6 BC A2` after the byte `a`. -/
theorem C10_append_utf8_witness :
    (0x6F22 : Nat) ≤ 0x10FFFF
    ∧ (copybuf_append_utf8 0x6F22 [97]).drop 1 = [0xE6, 0xBC, 0xA2]
    ∧ utf8_decode_spec ((copybuf_append_utf8 0x6F22 [97]).drop [97].length) = some 0x6F22 :=
  ⟨by decide, by decide,
   ((C10_append_utf8 0x6F22 [97]).2.2.2 (by decide)).2⟩

/-- The iteration bound of `sb_oldest_index` suffices: the loop leaves with
`idx >= 0`. -/
theorem sb_oldest_loop_nonneg (n : Nat) :
    ∀ idx : Int, -2147483648 ≤ idx → idx ≤ 2147483647 → -idx ≤ 2000 * (n : Int) →
      0 ≤ sb_oldest_loop n idx := by
  induction n with
  | zero => intro idx _ _ h; simp only [sb_oldest_loop]; omega
  | succ n ih =>
    intro idx h1 h2 h3
    rw [sb_oldest_loop]
    by_cases h : idx < 0
    · rw [if_pos h]
      simp only [SCROLLBACK_LINES]
      rw [wrap32_eq _ (by omega) (by omega)]
      exact ih _ (by omega) (by omega) (by push_cast at h3; omega)
    · rw [if_neg h]; omega

theorem wrap32_range (x : Int) : -2147483648 ≤ wrap32 x ∧ wrap32 x ≤ 2147483647 := by
  unfold wrap32; omega

/-- The function `sb_oldest_index` always leaves its loop: the result is
non-negative. -/
theorem sb_oldest_index_nonneg (s : session_t) : 0 ≤ sb_oldest_index s := by
  unfold sb_oldest_index
  dsimp only
  obtain ⟨h1, h2⟩ := wrap32_range (s.sb_head - s.sb_count)
  apply sb_oldest_loop_nonneg _ _ h1 h2
  push_cast
  omega

/-- More iterations than the column range needs do not change the emission
loop. -/
theorem col_loop_fuel (s : session_t) (v eff_to : Int) (n : Nat) :
    ∀ (m : Nat) (col : Int) (st : copy_state),
      (eff_to - col + 1).toNat ≤ n → (eff_to - col + 1).toNat ≤ m →
      copy_col_loop s v eff_to n col st = copy_col_loop s v eff_to m col st := by
  induction n with
  | zero =>
    intro m col st hn _
    rw [col_loop_done s v eff_to 0 col (by omega), col_loop_done s v eff_to m col (by omega)]
  | succ n ih =>
    intro m col st hn hm
    by_cases hle : col ≤ eff_to
    · cases m with
      | zero => omega
      | succ m =>
        rw [copy_col_loop, copy_col_loop, if_pos hle, if_pos hle]
        dsimp only
        apply ih
        · split <;> omega
        · split <;> omega
    · rw [col_loop_done s v eff_to _ col (by omega), col_loop_done s v eff_to m col (by omega)]

/-- More iterations than the column range needs do not change the trimming
loop. -/
theorem trim_loop_fuel (s : session_t) (v from_ : Int) (n : Nat) :
    ∀ (m : Nat) (e : Int) (st : copy_state),
      (e - from_ + 1).toNat ≤ n → (e - from_ + 1).toNat ≤ m →
      copy_trim_loop s v from_ n e st = copy_trim_loop s v from_ m e st := by
  induction n with
  | zero =>
    intro m e st hn _
    rw [trim_loop_done s v from_ 0 e st (by omega), trim_loop_done s v from_ m e st (by omega)]
  | succ n ih =>
    intro m e st hn hm
    by_cases hle : e ≥ from_
    · cases m with
      | zero => omega
      | succ m =>
        rw [copy_trim_loop, copy_trim_loop, if_pos hle, if_pos hle]
        dsimp only
        split
        · rfl
        · exact ih m (e - 1) _ (by omega) (by omega)
    · rw [trim_loop_done s v from_ _ e st (by omega), trim_loop_done s v from_ m e st (by omega)]

theorem region_norm_values (s : session_t) :
    region_norm s
      = if s.sel_line > s.reg_line ∨ (s.sel_line = s.reg_line ∧ s.sel_col > s.reg_col)
        then (s.reg_line, s.reg_col, s.sel_line, s.sel_col)
        else (s.sel_line, s.sel_col, s.reg_line, s.reg_col) := rfl

theorem region_norm_swap (s : session_t) : region_norm (swap_selection s) = region_norm s := by
  rw [region_norm_values, region_norm_values]
  simp only [swap_selection]
  by_cases h1 : s.sel_line > s.reg_line ∨ (s.sel_line = s.reg_line ∧ s.sel_col > s.reg_col)
  · rw [if_pos h1, if_neg (by omega)]
  · rw [if_neg h1]
    by_cases h2 : s.reg_line > s.sel_line ∨ (s.reg_line = s.sel_line ∧ s.reg_col > s.sel_col)
    · rw [if_pos h2]
    · rw [if_neg h2]
      have e1 : s.sel_line = s.reg_line := by omega
      have e2 : s.sel_col = s.reg_col := by omega
      rw [e1, e2]

theorem get_cell_swap (s : session_t) (v c : Int) :
    get_cell_ch_virtual (swap_selection s) v c = get_cell_ch_virtual s v c := rfl

theorem is_cont_swap (s : session_t) (v : Int) :
    virtual_line_is_continuation (swap_selection s) v = virtual_line_is_continuation s v := rfl

theorem trim_loop_swap (s : session_t) (v from_ : Int) (n : Nat) :
    ∀ (e : Int) (st : copy_state),
      copy_trim_loop (swap_selection s) v from_ n e st = copy_trim_loop s v from_ n e st := by
  induction n with
  | zero => intro e st; rfl
  | succ n ih =>
    intro e st
    simp only [copy_trim_loop, get_cell_swap, ih]

theorem col_loop_swap (s : session_t) (v eff_to : Int) (n : Nat) :
    ∀ (col : Int) (st : copy_state),
      copy_col_loop (swap_selection s) v eff_to n col st = copy_col_loop s v eff_to n col st := by
  induction n with
  | zero => intro col st; rfl
  | succ n ih =>
    intro col st
    simp only [copy_col_loop, get_cell_swap, ih]

theorem line_text_swap (s : session_t) (l1 c1 l2 c2 v : Int) (st : copy_state) :
    copy_line_text (swap_selection s) l1 c1 l2 c2 v st = copy_line_text s l1 c1 l2 c2 v st := by
  simp only [copy_line_text, copy_eff_to, trim_loop_swap, col_loop_swap]

theorem line_break_swap (s : session_t) (l2 v : Int) (st : copy_state) :
    copy_line_break (swap_selection s) l2 v st = copy_line_break s l2 v st := by
  simp only [copy_line_break, is_cont_swap]

theorem lines_swap (s : session_t) (l1 c1 l2 c2 : Int) (n : Nat) :
    ∀ (v : Int) (st : copy_state),
      copy_lines (swap_selection s) l1 c1 l2 c2 n v st = copy_lines s l1 c1 l2 c2 n v st := by
  induction n with
  | zero => intro v st; rfl
  | succ n ih =>
    intro v st
    simp only [copy_lines, line_text_swap, line_break_swap, ih]

theorem copy_span_swap (s : session_t) : copy_span (swap_selection s) = copy_span s := by
  unfold copy_span
  rw [region_norm_swap]
  rfl

theorem copy_swap (s : session_t) (buf : List Nat) :
    region_copy_selection_stream (swap_selection s) buf = region_copy_selection_stream s buf := by
  unfold region_copy_selection_stream
  rw [copy_span_swap]
  simp only [lines_swap]
  rfl

theorem region_norm_idem (s : session_t) :
    region_norm (with_selection s (region_norm s).1 (region_norm s).2.1 (region_norm s).2.2.1
        (region_norm s).2.2.2) = region_norm s := by
  rw [region_norm_values (with_selection _ _ _ _ _)]
  simp only [with_selection]
  rw [region_norm_values]
  by_cases h : s.sel_line > s.reg_line ∨ (s.sel_line = s.reg_line ∧ s.sel_col > s.reg_col)
  · simp only [if_pos h]
    rw [if_neg (by omega)]
  · simp only [if_neg h]

/-- C12: extraction does not depend on which end of the selection is the
anchor: with anchor and cursor exchanged `region_copy_selection_stream`
produces the same copy buffer; `region_norm` of an already normalised pair
returns it unchanged. -/
theorem C12_order_independent (s : session_t) (buf : List Nat) (al ac bl bc : Int) :
    (region_copy_selection_stream (with_selection s al ac bl bc) buf).buf
        = (region_copy_selection_stream (with_selection s bl bc al ac) buf).buf
    ∧ region_norm (with_selection s al ac bl bc) = region_norm (with_selection s bl bc al ac)
    ∧ region_norm (with_selection s (region_norm s).1 (region_norm s).2.1
          (region_norm s).2.2.1 (region_norm s).2.2.2) = region_norm s
    ∧ (pos_le al ac bl bc → region_norm (with_selection s al ac bl bc) = (al, ac, bl, bc)) := by
  have hsw : with_selection s bl bc al ac = swap_selection (with_selection s al ac bl bc) := rfl
  refine ⟨?_, ?_, region_norm_idem s, ?_⟩
  · rw [hsw, copy_swap]
  · rw [hsw, region_norm_swap]
  · intro h
    rw [region_norm_values]
    simp only [with_selection]
    unfold pos_le at h
    rw [if_neg (by omega)]

/-- Witness for C12: the pair `(30, 0)`, `(40, 7)` is already in order and is
returned as it is; both orders of anchor and cursor copy the same bytes. -/
theorem C12_order_independent_witness :
    pos_le 30 0 40 7
    ∧ region_norm (with_selection scrolled_selection 30 0 40 7) = (30, 0, 40, 7)
    ∧ (region_copy_selection_stream (with_selection scrolled_selection 30 0 40 7) []).buf
        = (region_copy_selection_stream (with_selection scrolled_selection 40 7 30 0) []).buf :=
  ⟨Or.inl (by decide),
   (C12_order_independent scrolled_selection [] 30 0 40 7).2.2.2 (Or.inl (by decide)),
   (C12_order_independent scrolled_selection [] 30 0 40 7).1⟩

/-- C13: `region_norm` returns the anchor and the cursor, ordered
lexicographically by `(line, col)`. -/
theorem C13_region_norm_sorted (s : session_t) (al ac bl bc : Int) :
    (region_norm (with_selection s al ac bl bc) = (al, ac, bl, bc)
      ∨ region_norm (with_selection s al ac bl bc) = (bl, bc, al, ac))
    ∧ pos_le (region_norm (with_selection s al ac bl bc)).1
        (region_norm (with_selection s al ac bl bc)).2.1
        (region_norm (with_selection s al ac bl bc)).2.2.1
        (region_norm (with_selection s al ac bl bc)).2.2.2
    ∧ (pos_le al ac bl bc → region_norm (with_selection s al ac bl bc) = (al, ac, bl, bc))
    ∧ (¬ pos_le al ac bl bc → region_norm (with_selection s al ac bl bc) = (bl, bc, al, ac)) := by
  rw [region_norm_values]
  simp only [with_selection, pos_le]
  by_cases h : al > bl ∨ (al = bl ∧ ac > bc)
  · simp only [if_pos h]
    refine ⟨Or.inr trivial, by omega, fun h2 => by omega, fun _ => trivial⟩
  · simp only [if_neg h]
    refine ⟨Or.inl trivial, by omega, fun _ => trivial, fun h2 => by omega⟩

/-- Witness for C13: the anchor `(40, 7)` lies after the cursor `(30, 0)`, so
the pair is returned exchanged. -/
theorem C13_region_norm_sorted_witness :
    ¬ pos_le 40 7 30 0
    ∧ region_norm (with_selection scrolled_selection 40 7 30 0) = (30, 0, 40, 7) :=
  ⟨by unfold pos_le; decide,
   (C13_region_norm_sorted scrolled_selection 40 7 30 0).2.2.2 (by unfold pos_le; decide)⟩

theorem hl_range_active (s : session_t) (v : Int) (hmode : s.region_mode ≠ 0)
    (hsel : s.selecting ≠ 0) :
    region_line_hl_range s v
      = if v < (region_norm s).1 ∨ v > (region_norm s).2.2.1 then (1, 0)
        else if (region_norm s).1 = (region_norm s).2.2.1
          then ((region_norm s).2.1, (region_norm s).2.2.2)
        else if v = (region_norm s).1 then ((region_norm s).2.1, TERM_COLS - 1)
        else if v = (region_norm s).2.2.1 then (0, (region_norm s).2.2.2)
        else (0, TERM_COLS - 1) := by
  unfold region_line_hl_range
  rw [if_neg (by simp [hmode, hsel])]

/-- C14: the highlight range of a virtual line for an active selection, and
the empty range otherwise. -/
theorem C14_highlight_range (s : session_t) (v : Int) :
    (s.region_mode ≠ 0 → s.selecting ≠ 0 →
      ((region_norm s).1 = (region_norm s).2.2.1 → v = (region_norm s).1 →
          region_line_hl_range s v = ((region_norm s).2.1, (region_norm s).2.2.2))
      ∧ (v = (region_norm s).1 → (region_norm s).1 < (region_norm s).2.2.1 →
          region_line_hl_range s v = ((region_norm s).2.1, TERM_COLS - 1))
      ∧ ((region_norm s).1 < v → v = (region_norm s).2.2.1 →
          region_line_hl_range s v = (0, (region_norm s).2.2.2))
      ∧ ((region_norm s).1 < v → v < (region_norm s).2.2.1 →
          region_line_hl_range s v = (0, TERM_COLS - 1))
      ∧ (v < (region_norm s).1 ∨ v > (region_norm s).2.2.1 →
          (region_line_hl_range s v).1 > (region_line_hl_range s v).2))
    ∧ (s.region_mode = 0 ∨ s.selecting = 0 →
        (region_line_hl_range s v).1 > (region_line_hl_range s v).2) := by
  constructor
  · intro hmode hsel
    rw [hl_range_active s v hmode hsel]
    refine ⟨?_, ?_, ?_, ?_, ?_⟩
    · intro h1 h2
      rw [if_neg (by omega), if_pos h1]
    · intro h1 h2
      rw [if_neg (by omega), if_neg (by omega), if_pos h1]
    · intro h1 h2
      rw [if_neg (by omega), if_neg (by omega), if_neg (by omega), if_pos h2]
    · intro h1 h2
      rw [if_neg (by omega), if_neg (by omega), if_neg (by omega), if_neg (by omega)]
    · intro h
      rw [if_pos h]
      decide
  · intro h
    unfold region_line_hl_range
    rw [if_pos h]
    decide

/-- Witness for C14: the selection from `(30, 0)` to `(40, 7)`. -/
theorem C14_highlight_range_witness :
    (scrolled_selection.region_mode ≠ 0 ∧ scrolled_selection.selecting ≠ 0)
    ∧ region_line_hl_range scrolled_selection 30 = (0, TERM_COLS - 1)
    ∧ region_line_hl_range scrolled_selection 35 = (0, 52)
    ∧ region_line_hl_range scrolled_selection 40 = (0, 7)
    ∧ region_line_hl_range scrolled_selection 41 = (1, 0) :=
  ⟨by decide,
   ((C14_highlight_range scrolled_selection 30).1 (by decide) (by decide)).2.1
      (by decide) (by decide),
   by decide, by decide, by decide⟩

theorem region_enter_spec (s : session_t) (h0 : 0 ≤ s.sb_count)
    (h1 : s.sb_count ≤ SCROLLBACK_LINES) :
    (region_enter s).region_mode = 1
    ∧ (region_enter s).selecting = 0
    ∧ (region_enter s).reg_col = 0
    ∧ (region_enter s).reg_line
        = s.sb_count - clampi s.view_offset_lines 0 s.sb_count + (TERM_ROWS - 1)
    ∧ (region_enter s).sb_count = s.sb_count
    ∧ (region_enter s).view_offset_lines = clampi s.view_offset_lines 0 s.sb_count := by
  simp only [SCROLLBACK_LINES] at h1
  obtain ⟨e1, e2, e3, _⟩ := virtual_start_line_spec
    { s with region_mode := 1, selecting := 0 } h0 (by simp only [INT_MAX]; omega)
  obtain ⟨c1, c2⟩ := clampi_bounds s.view_offset_lines 0 s.sb_count h0
  have e1' : (virtual_start_line { s with region_mode := 1, selecting := 0 }).1
      = s.sb_count - clampi s.view_offset_lines 0 s.sb_count := e1
  have e2' : (virtual_start_line { s with region_mode := 1, selecting := 0 }).2.view_offset_lines
      = clampi s.view_offset_lines 0 s.sb_count := e2
  have e3' : (virtual_start_line { s with region_mode := 1, selecting := 0 }).2.sb_count
      = s.sb_count := e3
  have hmode : (virtual_start_line { s with region_mode := 1, selecting := 0 }).2.region_mode = 1
      ∧ (virtual_start_line { s with region_mode := 1, selecting := 0 }).2.selecting = 0 := by
    unfold virtual_start_line
    dsimp only
    split <;> split <;> exact ⟨rfl, rfl⟩
  have htot : virtual_total_lines (virtual_start_line { s with region_mode := 1, selecting := 0 }).2
      = s.sb_count + 13 := by
    unfold virtual_total_lines
    rw [e3']
    simp only [TERM_ROWS]
    exact wrap32_eq _ (by omega) (by omega)
  unfold region_enter
  dsimp only
  rw [htot, e1']
  simp only [TERM_ROWS]
  rw [wrap32_eq _ (by omega) (by omega), if_pos (by omega)]
  refine ⟨hmode.1, hmode.2, trivial, ?_, e3', e2'⟩
  unfold clampi
  rw [if_neg (by omega), if_neg (by omega)]

/-- Counterexample to C15 as stated: entering the selector while the view is
scrolled back by 70 lines puts the cursor on line 42, the bottom row of the
viewport, not on the last live line 112. -/
theorem C15_enter_scrolled_back_counterexample :
    (store_inv scrolled_back ∧ scrolled_back.view_offset_lines = 70)
    ∧ (region_enter scrolled_back).reg_line = 42
    ∧ virtual_total_lines (region_enter scrolled_back) - 1 = 112
    ∧ ¬ ((region_enter scrolled_back).reg_line
          = virtual_total_lines (region_enter scrolled_back) - 1) := by
  decide

/-- C15 (amended): `region_enter` puts the selector in the positioned state
with the cursor in column 0 of the bottom row of the current viewport,
`virtual_start_line() + TERM_ROWS - 1`; that row is the last live line
`virtual_total_lines() - 1` exactly when the view is not scrolled back. -/
theorem C15_region_enter (s : session_t) (h0 : 0 ≤ s.sb_count)
    (h1 : s.sb_count ≤ SCROLLBACK_LINES) :
    (region_enter s).region_mode = 1
    ∧ (region_enter s).selecting = 0
    ∧ (region_enter s).reg_col = 0
    ∧ (region_enter s).reg_line = (virtual_start_line s).1 + TERM_ROWS - 1
    ∧ (region_enter s).reg_line
        = s.sb_count - clampi s.view_offset_lines 0 s.sb_count + TERM_ROWS - 1
    ∧ (0 ≤ (region_enter s).reg_line
        ∧ (region_enter s).reg_line ≤ virtual_total_lines (region_enter s) - 1)
    ∧ ((region_enter s).reg_line = virtual_total_lines (region_enter s) - 1
        ↔ clampi s.view_offset_lines 0 s.sb_count = 0)
    ∧ (s.view_offset_lines ≤ 0 →
        (region_enter s).reg_line = virtual_total_lines (region_enter s) - 1) := by
  obtain ⟨e1, e2, e3, e4, e5, _⟩ := region_enter_spec s h0 h1
  obtain ⟨f1, _, _, _⟩ := virtual_start_line_spec s h0
    (by simp only [INT_MAX, SCROLLBACK_LINES] at *; omega)
  obtain ⟨c1, c2⟩ := clampi_bounds s.view_offset_lines 0 s.sb_count h0
  have htot : virtual_total_lines (region_enter s) = s.sb_count + 13 := by
    unfold virtual_total_lines
    rw [e5]
    simp only [TERM_ROWS, SCROLLBACK_LINES] at *
    exact wrap32_eq _ (by omega) (by omega)
  rw [htot, e4, f1]
  simp only [TERM_ROWS]
  refine ⟨e1, e2, e3, by omega, by omega, ⟨by omega, by omega⟩, ⟨fun h => by omega, fun h => by omega⟩,
    ?_⟩
  intro hoff
  have : clampi s.view_offset_lines 0 s.sb_count = 0 := by
    unfold clampi
    by_cases hlt : s.view_offset_lines < 0
    · rw [if_pos hlt]
    · rw [if_neg hlt, if_neg (by omega)]; omega
  omega

/-- Witness for C15 (amended): entering region mode with the view scrolled
back by 70 of 100 lines puts the cursor on virtual line 42. -/
theorem C15_region_enter_witness :
    (0 ≤ scrolled_back.sb_count ∧ scrolled_back.sb_count ≤ SCROLLBACK_LINES)
    ∧ (region_enter scrolled_back).reg_line = (virtual_start_line scrolled_back).1 + TERM_ROWS - 1
    ∧ (virtual_start_line scrolled_back).1 = 30 :=
  ⟨by decide, (C15_region_enter scrolled_back (by decide) (by decide)).2.2.2.1, by decide⟩

theorem SESS_set_SESS (g : Globals) (s : session_t) : SESS (set_SESS g s) = s := by
  simp [SESS, set_SESS]

theorem set_SESS_frame (g : Globals) (s : session_t) :
    (set_SESS g s).g_active_sess = g.g_active_sess
    ∧ (∀ i, i ≠ g.g_active_sess → (set_SESS g s).g_sessions i = g.g_sessions i)
    ∧ (set_SESS g s).g_menu_active = g.g_menu_active
    ∧ (set_SESS g s).g_menu_sel = g.g_menu_sel
    ∧ (set_SESS g s).g_cursor_mode = g.g_cursor_mode := by
  refine ⟨rfl, ?_, rfl, rfl, rfl⟩
  intro i hi
  simp [set_SESS, hi]

/-- C16: the four transitions of the region selector on `BTN_X` and `BTN_B`
while region mode is active; none of them moves the cursor or the scroll
offset. -/
theorem C16_selector_transitions (g : Globals) (hmode : (SESS g).region_mode ≠ 0) :
    ((SESS g).selecting = 0 →
        (SESS (process_key_move_BTN_X g).1).selecting = 1
        ∧ (SESS (process_key_move_BTN_X g).1).region_mode = (SESS g).region_mode
        ∧ (SESS (process_key_move_BTN_X g).1).sel_line = (SESS g).reg_line
        ∧ (SESS (process_key_move_BTN_X g).1).sel_col = (SESS g).reg_col)
    ∧ ((SESS g).selecting ≠ 0 →
        (SESS (process_key_move_BTN_X g).1).selecting = 0
        ∧ (SESS (process_key_move_BTN_X g).1).region_mode = (SESS g).region_mode)
    ∧ ((SESS g).selecting ≠ 0 →
        (SESS (process_key_move_BTN_B g).1).selecting = 0
        ∧ (SESS (process_key_move_BTN_B g).1).region_mode = (SESS g).region_mode)
    ∧ ((SESS g).selecting = 0 →
        (SESS (process_key_move_BTN_B g).1).region_mode = 0
        ∧ (SESS (process_key_move_BTN_B g).1).selecting = 0)
    ∧ ((SESS (process_key_move_BTN_X g).1).reg_line = (SESS g).reg_line
        ∧ (SESS (process_key_move_BTN_X g).1).reg_col = (SESS g).reg_col
        ∧ (SESS (process_key_move_BTN_X g).1).view_offset_lines = (SESS g).view_offset_lines
        ∧ (process_key_move_BTN_X g).2 = [])
    ∧ ((SESS (process_key_move_BTN_B g).1).reg_line = (SESS g).reg_line
        ∧ (SESS (process_key_move_BTN_B g).1).reg_col = (SESS g).reg_col
        ∧ (SESS (process_key_move_BTN_B g).1).view_offset_lines = (SESS g).view_offset_lines
        ∧ (process_key_move_BTN_B g).2 = []) := by
  unfold process_key_move_BTN_X process_key_move_BTN_B
  rw [if_pos hmode, if_pos hmode]
  by_cases hsel : (SESS g).selecting = 0
  · have hn : ¬ ((SESS g).selecting ≠ 0) := by simp [hsel]
    rw [if_pos hsel, if_neg hn]
    simp [SESS_set_SESS, region_exit, hsel]
  · rw [if_neg hsel, if_pos hsel]
    simp [SESS_set_SESS, hsel]

/-- Witness for C16: from the positioned state `BTN_X` sets the anchor to the
cursor `(40, 7)`, a second `BTN_X` cancels it, and `BTN_B` then leaves region
mode. -/
theorem C16_selector_transitions_witness :
    (SESS positioned_globals).region_mode ≠ 0
    ∧ ((SESS (process_key_move_BTN_X positioned_globals).1).selecting = 1
        ∧ (SESS (process_key_move_BTN_X positioned_globals).1).region_mode
            = (SESS positioned_globals).region_mode
        ∧ (SESS (process_key_move_BTN_X positioned_globals).1).sel_line
            = (SESS positioned_globals).reg_line
        ∧ (SESS (process_key_move_BTN_X positioned_globals).1).sel_col
            = (SESS positioned_globals).reg_col)
    ∧ (SESS (process_key_move_BTN_X (process_key_move_BTN_X positioned_globals).1).1).selecting = 0
    ∧ (SESS (process_key_move_BTN_B positioned_globals).1).region_mode = 0 :=
  ⟨by decide,
   (C16_selector_transitions positioned_globals (by decide)).1 (by decide),
   by decide, by decide⟩

theorem utf8_bytes_ascii (c : Nat) (h : c ≤ 0x7F) : copybuf_utf8_bytes c = [c] := by
  unfold copybuf_utf8_bytes
  rw [if_pos h]
  congr 1
  omega

theorem silent_not_newline (ev : Event) (h : silent ev) : not_newline ev := by
  cases ev <;> simp_all [silent, not_newline]

/-- A span of one line: the extraction inserts no line break and the buffer
is the text of that line. -/
theorem single_line_copy (s : session_t) (buf : List Nat) (hmode : s.region_mode ≠ 0)
    (hsel : s.selecting ≠ 0) (htot : 0 < virtual_total_lines s)
    (hline : (copy_span s).1 = (copy_span s).2.2.1) :
    (∀ ev ∈ (region_copy_selection_stream s buf).log, not_newline ev)
    ∧ (region_copy_selection_stream s buf).buf = span_line_text s (copy_span s).1 := by
  constructor
  · rw [copy_log_closed s buf hmode hsel htot]
    obtain ⟨b1, b2⟩ := clampi_bounds (region_norm s).2.1 0 (TERM_COLS - 1) (by decide)
    obtain ⟨b3, b4⟩ := clampi_bounds (region_norm s).2.2.2 0 (TERM_COLS - 1) (by decide)
    simp only [TERM_COLS] at b1 b2 b3 b4
    have hlen : ((copy_span s).2.2.1 - (copy_span s).1 + 1).toNat = 1 := by omega
    rw [hlen]
    have hc1 : (copy_span s).2.1 = clampi (region_norm s).2.1 0 (53 - 1) := rfl
    have hc2 : (copy_span s).2.2.2 = clampi (region_norm s).2.2.2 0 (53 - 1) := rfl
    apply lines_log_forall s _ _ _ _ not_newline (by rw [hc1]; exact b1) (by rw [hc1]; omega)
      (by rw [hc2]; exact b3) (by rw [hc2]; omega)
    · intro ev hev; simp [copy_empty] at hev
    · intro u hu1 hu2
      constructor
      · intro k _ _
        exact ⟨fun ev hev => silent_not_newline ev (get_cell_silent s u k ev hev), trivial⟩
      · intro hne
        exfalso
        apply hne
        push_cast at hu2
        omega
  · rw [copy_buf_closed s buf hmode hsel htot]
    have hlen : ((copy_span s).2.2.1 - (copy_span s).1 + 1).toNat = 1 := by omega
    rw [hlen, show List.range 1 = [0] from rfl]
    simp only [List.flatMap_cons, List.flatMap_nil, List.append_nil, Nat.cast_zero, add_zero]
    rw [if_neg (fun h => h.1 hline)]
    simp [span_line_text]

theorem same_line_span (s : session_t) (h : s.sel_line = s.reg_line) :
    (copy_span s).1 = (copy_span s).2.2.1 := by
  have h1 : (region_norm s).1 = s.reg_line ∧ (region_norm s).2.2.1 = s.reg_line := by
    rw [region_norm_values]
    split <;> simp [h]
  unfold copy_span
  dsimp only
  rw [h1.1, h1.2]

theorem c_string_id (t : List Nat) (h : ∀ b ∈ t, b ≠ 0) : c_string t = t := by
  unfold c_string
  rw [List.takeWhile_eq_self_iff]
  intro b hb
  simpa using h b hb

/-- C11: selecting one full row of width-1 printable ASCII cells with a
non-space last cell and copying leaves exactly the `TERM_COLS` bytes of the
row in the copy buffer, in column order, with no line break; pasting then
writes those bytes. A span of one line never gets a line break inserted. -/
theorem C11_single_row_round_trip (s : session_t) (buf : List Nat) :
    (∀ v : Int, s.region_mode ≠ 0 → s.selecting ≠ 0 →
        0 ≤ v → v ≤ virtual_total_lines s - 1 →
        s.sel_line = v → s.sel_col = 0 → s.reg_line = v → s.reg_col = TERM_COLS - 1 →
        (∀ k, 0 ≤ k → k ≤ TERM_COLS - 1 →
          (get_cell_ch_virtual s v k).out_width2 = 0
          ∧ 32 ≤ (get_cell_ch_virtual s v k).ch ∧ (get_cell_ch_virtual s v k).ch ≤ 126) →
        (get_cell_ch_virtual s v (TERM_COLS - 1)).ch ≠ 32 →
        (region_copy_selection_stream s buf).buf
            = (List.range 53).map (fun k : Nat => (get_cell_ch_virtual s v (k : Int)).ch)
        ∧ (region_copy_selection_stream s buf).buf.length = 53
        ∧ (∀ ev ∈ (region_copy_selection_stream s buf).log, not_newline ev)
        ∧ (s.pty_fd ≥ 0 → ∀ clip : Option (List Nat),
            (clip = none ∨ clip = some (region_copy_selection_stream s buf).buf) →
            paste_from_buffers s clip (region_copy_selection_stream s buf).buf
              = (List.range 53).map (fun k : Nat => (get_cell_ch_virtual s v (k : Int)).ch)))
    ∧ (s.region_mode ≠ 0 → s.selecting ≠ 0 → 0 < virtual_total_lines s →
        (s.sel_line = s.reg_line ∨ (copy_span s).1 = (copy_span s).2.2.1) →
        (∀ ev ∈ (region_copy_selection_stream s buf).log, not_newline ev)
        ∧ (region_copy_selection_stream s buf).buf = span_line_text s (copy_span s).1) := by
  constructor
  · intro v hmode hsel hv0 hv1 hsl hsc hrl hrc hcells hlast
    have htot : 0 < virtual_total_lines s := by omega
    have hsp := full_row_span s v hv0 hv1 hsl hsc hrl hrc
    have hline : (copy_span s).1 = (copy_span s).2.2.1 := by rw [hsp]
    obtain ⟨hnl, hbuf⟩ := single_line_copy s buf hmode hsel htot hline
    have hrange : span_line_range s v = (0, 52) := by
      unfold span_line_range
      rw [hsp]
      simp [copy_line_range]
    simp only [TERM_COLS] at hcells hlast
    norm_num at hcells hlast
    have heff : span_line_eff_to s v = 52 := by
      obtain ⟨t1, _⟩ := eff_to_spec s v 0 52 copy_empty
      unfold span_line_eff_to
      rw [hrange]
      dsimp only
      rcases t1 (by decide) with ⟨_, a2⟩ | ⟨a1, a2, _, a4⟩
      · exact absurd (a2 52 (by decide) (le_refl _)) (by simpa using hlast)
      · by_contra hne
        exact absurd (a4 52 (by omega) (le_refl _)) (by simpa using hlast)
    have htext : (region_copy_selection_stream s buf).buf
        = (List.range 53).map (fun k : Nat => (get_cell_ch_virtual s v (k : Int)).ch) := by
      rw [hbuf, hsp]
      dsimp only
      rw [span_line_text_eq, hrange, heff]
      dsimp only
      rw [col_loop_buf_narrow s v 52 _ 0 (le_refl _)
        (fun k h1 h2 => (hcells k h1 (by omega)).1)]
      rw [show (52 - 0 + 1 : Int).toNat = 53 from rfl, List.map_eq_flatMap]
      apply List.flatMap_congr
      intro k hk
      have hk' : k < 53 := List.mem_range.mp hk
      have := hcells (k : Int) (by omega) (by omega)
      rw [zero_add, utf8_bytes_ascii _ (by omega)]
    refine ⟨htext, by rw [htext]; simp, hnl, ?_⟩
    intro hfd clip hclip
    have hnz : ∀ b ∈ (region_copy_selection_stream s buf).buf, b ≠ 0 := by
      rw [htext]
      intro b hb
      rw [List.mem_map] at hb
      obtain ⟨k, hk, rfl⟩ := hb
      have hk' : k < 53 := List.mem_range.mp hk
      have := hcells (k : Int) (by omega) (by omega)
      omega
    have hhead : (region_copy_selection_stream s buf).buf.headD 0 ≠ 0 := by
      have hmem : (region_copy_selection_stream s buf).buf.headD 0
          ∈ (region_copy_selection_stream s buf).buf := by
        rw [htext]
        simp [List.range_succ_eq_map]
      exact hnz _ hmem
    have hpaste : paste_text_to_pty s (some (region_copy_selection_stream s buf).buf)
        = (region_copy_selection_stream s buf).buf := by
      unfold paste_text_to_pty
      dsimp only
      rw [if_neg hhead, if_pos hfd, c_string_id _ hnz]
    rw [← htext]
    rcases hclip with rfl | rfl
    · unfold paste_from_buffers
      dsimp only
      rw [if_pos hhead, hpaste]
    · unfold paste_from_buffers
      dsimp only
      rw [if_pos hhead, hpaste]
  · intro hmode hsel htot hline
    have hline' : (copy_span s).1 = (copy_span s).2.2.1 := by
      rcases hline with h | h
      · exact same_line_span s h
      · exact h
    exact single_line_copy s buf hmode hsel htot hline'

/-- Witness for C11: the row `0123...` is copied as its 53 bytes. -/
theorem C11_single_row_round_trip_witness :
    (digits_session.region_mode ≠ 0 ∧ digits_session.selecting ≠ 0
      ∧ digits_session.pty_fd ≥ 0)
    ∧ (region_copy_selection_stream digits_session [1, 2]).buf
        = (List.range 53).map (fun k : Nat => (get_cell_ch_virtual digits_session 0 (k : Int)).ch)
    ∧ (region_copy_selection_stream digits_session [1, 2]).buf
        = (List.range 53).map (fun k => 48 + k) :=
  ⟨by decide,
   ((C11_single_row_round_trip digits_session [1, 2]).1 0 (by decide) (by decide) (by decide)
      (by decide) rfl rfl rfl rfl
      (fun k h1 h2 => by
        simp only [TERM_COLS] at h2
        interval_cases k <;> decide)
      (by decide)).1,
   by decide!⟩

theorem session_create_frame (idx : Int) (g : Globals) (f : forkpty_result)
    (e : vterm_new_result) :
    (session_create idx g f e).2.g_active_sess = g.g_active_sess
    ∧ (session_create idx g f e).2.g_menu_sel = g.g_menu_sel
    ∧ (session_create idx g f e).2.g_menu_active = g.g_menu_active
    ∧ (∀ i, i ≠ idx → (session_create idx g f e).2.g_sessions i = g.g_sessions i)
    ∧ (∀ i, (g.g_sessions i).used ≠ 0 → (session_create idx g f e).2.g_sessions i = g.g_sessions i)
    ∧ (0 ≤ idx → idx < MAX_SESSIONS → ((session_create idx g f e).2.g_sessions idx).used ≠ 0) := by
  unfold session_create
  by_cases hr : idx < 0 ∨ idx ≥ MAX_SESSIONS
  · rw [if_pos hr]
    refine ⟨rfl, rfl, rfl, fun _ _ => rfl, fun _ _ => rfl, fun h1 h2 => ?_⟩
    exfalso
    rcases hr with h | h <;> omega
  · rw [if_neg hr]
    dsimp only
    by_cases hu : (g.g_sessions idx).used ≠ 0
    · rw [if_pos hu]
      exact ⟨rfl, rfl, rfl, fun _ _ => rfl, fun _ _ => rfl, fun _ _ => hu⟩
    · rw [if_neg hu]
      refine ⟨rfl, rfl, rfl, ?_, ?_, ?_⟩
      · intro i hi
        simp [hi]
      · intro i hi
        have : i ≠ idx := fun h => hu (h ▸ hi)
        simp [this]
      · intro _ _
        simp [session_init_vterm, session_start_shell, session_init]

theorem session_destroy_frame (idx : Int) (g : Globals) :
    (session_destroy idx g).1.g_active_sess = g.g_active_sess
    ∧ (session_destroy idx g).1.g_menu_sel = g.g_menu_sel
    ∧ (session_destroy idx g).1.g_menu_active = g.g_menu_active
    ∧ (∀ i, i ≠ idx → (session_destroy idx g).1.g_sessions i = g.g_sessions i)
    ∧ (0 ≤ idx → idx < MAX_SESSIONS → ((session_destroy idx g).1.g_sessions idx).used = 0) := by
  unfold session_destroy
  by_cases hr : idx < 0 ∨ idx ≥ MAX_SESSIONS
  · rw [if_pos hr]
    refine ⟨rfl, rfl, rfl, fun _ _ => rfl, fun h1 h2 => ?_⟩
    exfalso
    rcases hr with h | h <;> omega
  · rw [if_neg hr]
    dsimp only
    by_cases hu : (g.g_sessions idx).used = 0
    · rw [if_pos hu]
      exact ⟨rfl, rfl, rfl, fun _ _ => rfl, fun _ _ => hu⟩
    · rw [if_neg hu]
      refine ⟨rfl, rfl, rfl, ?_, ?_⟩
      · intro i hi
        simp [hi]
      · intro _ _
        simp

/-- The count of `sessions_alive_count` written out over the five slots. -/
theorem sessions_alive_count_eq (g : Globals) :
    sessions_alive_count g
      = (if (g.g_sessions 0).used ≠ 0 then 1 else 0)
        + (if (g.g_sessions 1).used ≠ 0 then 1 else 0)
        + (if (g.g_sessions 2).used ≠ 0 then 1 else 0)
        + (if (g.g_sessions 3).used ≠ 0 then 1 else 0)
        + (if (g.g_sessions 4).used ≠ 0 then 1 else 0) := by
  unfold sessions_alive_count
  rw [show MAX_SESSIONS.toNat = 5 from rfl]
  simp only [sessions_alive_loop]
  norm_num
  split <;> split <;> split <;> split <;> split <;> rfl

theorem sessions_alive_zero_iff (g : Globals) :
    sessions_alive_count g = 0 ↔ ∀ i, 0 ≤ i → i < 5 → (g.g_sessions i).used = 0 := by
  rw [sessions_alive_count_eq]
  constructor
  · intro h i hi0 hi1
    by_contra hu
    have hi : i = 0 ∨ i = 1 ∨ i = 2 ∨ i = 3 ∨ i = 4 := by omega
    rcases hi with rfl | rfl | rfl | rfl | rfl <;>
      · rw [if_pos hu] at h
        split at h <;> split at h <;> split at h <;> split at h <;> omega
  · intro h
    rw [if_neg (by simp [h 0 (by omega) (by omega)]), if_neg (by simp [h 1 (by omega) (by omega)]),
      if_neg (by simp [h 2 (by omega) (by omega)]), if_neg (by simp [h 3 (by omega) (by omega)]),
      if_neg (by simp [h 4 (by omega) (by omega)])]
    rfl

/-- The slot inspected in iteration `i` of `find_next_alive(from)`. -/
theorem next_slot (from_ i : Int) (h0 : 0 ≤ from_) (h1 : from_ < 5) (hi0 : 0 ≤ i) (hi1 : i ≤ 5) :
    Int.tmod (wrap32 (from_ + i)) MAX_SESSIONS = (from_ + i) % 5 := by
  simp only [MAX_SESSIONS]
  rw [wrap32_eq _ (by omega) (by omega), Int.tmod_eq_emod (by omega) (by omega)]

/-- Result of the search loop of `find_next_alive`. -/
theorem find_next_alive_loop_spec (g : Globals) (from_ : Int) (n : Nat) :
    ∀ i : Int,
      (find_next_alive_loop g from_ n i = -1
        ∧ ∀ j, i ≤ j → j < i + n →
            (g.g_sessions (Int.tmod (wrap32 (from_ + j)) MAX_SESSIONS)).used = 0)
      ∨ (∃ j, i ≤ j ∧ j < i + n
          ∧ find_next_alive_loop g from_ n i = Int.tmod (wrap32 (from_ + j)) MAX_SESSIONS
          ∧ (g.g_sessions (Int.tmod (wrap32 (from_ + j)) MAX_SESSIONS)).used ≠ 0
          ∧ ∀ j', i ≤ j' → j' < j →
              (g.g_sessions (Int.tmod (wrap32 (from_ + j')) MAX_SESSIONS)).used = 0) := by
  induction n with
  | zero =>
    intro i
    left
    exact ⟨rfl, fun j h1 h2 => by simp at h2; omega⟩
  | succ n ih =>
    intro i
    rw [find_next_alive_loop]
    by_cases hu : (g.g_sessions (Int.tmod (wrap32 (from_ + i)) MAX_SESSIONS)).used ≠ 0
    · rw [if_pos hu]
      right
      exact ⟨i, le_refl _, by push_cast; omega, rfl, hu, fun j' h1 h2 => by omega⟩
    · rw [if_neg hu]
      have hu0 : (g.g_sessions (Int.tmod (wrap32 (from_ + i)) MAX_SESSIONS)).used = 0 := by
        simpa using hu
      rcases ih (i + 1) with ⟨h1, h2⟩ | ⟨j, h1, h2, h3, h4, h5⟩
      · left
        refine ⟨h1, fun j hj1 hj2 => ?_⟩
        by_cases hji : j = i
        · rw [hji]; exact hu0
        · exact h2 j (by omega) (by push_cast at hj2; omega)
      · right
        refine ⟨j, by omega, by push_cast; omega, h3, h4, fun j' hj1 hj2 => ?_⟩
        by_cases hji : j' = i
        · rw [hji]; exact hu0
        · exact h5 j' (by omega) hj2

/-- Specification of `find_next_alive(from)` for a slot `from`: the first
used slot met when stepping forward cyclically from `from`, or -1 when no
slot is used. -/
theorem find_next_alive_spec (g : Globals) (from_ : Int) (h0 : 0 ≤ from_) (h1 : from_ < 5) :
    (find_next_alive g from_ = -1 ∧ ∀ i, 0 ≤ i → i < 5 → (g.g_sessions i).used = 0)
    ∨ (∃ j, 1 ≤ j ∧ j ≤ 5
        ∧ find_next_alive g from_ = (from_ + j) % 5
        ∧ (g.g_sessions ((from_ + j) % 5)).used ≠ 0
        ∧ ∀ j', 1 ≤ j' → j' < j → (g.g_sessions ((from_ + j') % 5)).used = 0) := by
  unfold find_next_alive
  rw [show MAX_SESSIONS.toNat = 5 from rfl]
  rcases find_next_alive_loop_spec g from_ 5 1 with ⟨a1, a2⟩ | ⟨j, b1, b2, b3, b4, b5⟩
  · left
    refine ⟨a1, fun i hi0 hi1 => ?_⟩
    have hj : ∃ j, 1 ≤ j ∧ j ≤ 5 ∧ (from_ + j) % 5 = i := by
      by_cases hlt : from_ < i
      · exact ⟨i - from_, by omega, by omega, by omega⟩
      · exact ⟨i - from_ + 5, by omega, by omega, by omega⟩
    obtain ⟨j, hj1, hj2, hj3⟩ := hj
    have := a2 j hj1 (by push_cast; omega)
    rw [next_slot from_ j h0 h1 (by omega) hj2, hj3] at this
    exact this
  · right
    push_cast at b2
    refine ⟨j, b1, by omega, ?_, ?_, ?_⟩
    · rw [b3, next_slot from_ j h0 h1 (by omega) (by omega)]
    · rw [next_slot from_ j h0 h1 (by omega) (by omega)] at b4
      exact b4
    · intro j' hj1 hj2
      have := b5 j' hj1 hj2
      rw [next_slot from_ j' h0 h1 (by omega) (by omega)] at this
      exact this

theorem find_next_alive_found (g : Globals) (from_ : Int) (h0 : 0 ≤ from_) (h1 : from_ < 5)
    (halive : sessions_alive_count g ≠ 0) :
    0 ≤ find_next_alive g from_ ∧ find_next_alive g from_ < 5
    ∧ (g.g_sessions (find_next_alive g from_)).used ≠ 0 := by
  rcases find_next_alive_spec g from_ h0 h1 with ⟨_, a2⟩ | ⟨j, b1, b2, b3, b4, _⟩
  · exact absurd ((sessions_alive_zero_iff g).mpr a2) halive
  · rw [b3]
    exact ⟨by omega, by omega, b4⟩

theorem session_is_locked_iff (os : os_procs) (s : session_t) :
    (session_is_locked os s = 1 ↔
      (s.used ≠ 0 ∧ s.pty_fd ≥ 0 ∧ s.pid > 0
        ∧ 0 ≤ os.tcgetpgrp s.pty_fd ∧ 0 ≤ os.getpgid s.pid
        ∧ os.tcgetpgrp s.pty_fd ≠ os.getpgid s.pid))
    ∧ (session_is_locked os s = 0 ∨ session_is_locked os s = 1) := by
  unfold session_is_locked
  by_cases h1 : s.used = 0 ∨ s.pty_fd < 0 ∨ s.pid ≤ 0
  · rw [if_pos h1]
    refine ⟨⟨fun h => absurd h (by decide), fun h => ?_⟩, Or.inl rfl⟩
    exfalso
    rcases h1 with h1 | h1 | h1
    · exact h.1 h1
    · omega
    · omega
  · rw [if_neg h1]
    dsimp only
    have h1' : s.used ≠ 0 ∧ s.pty_fd ≥ 0 ∧ s.pid > 0 := by
      refine ⟨fun h => h1 (Or.inl h), ?_, ?_⟩
      · by_contra h; exact h1 (Or.inr (Or.inl (by omega)))
      · by_contra h; exact h1 (Or.inr (Or.inr (by omega)))
    by_cases h2 : os.tcgetpgrp s.pty_fd < 0
    · rw [if_pos h2]
      exact ⟨⟨fun h => absurd h (by decide), fun h => by omega⟩, Or.inl rfl⟩
    · rw [if_neg h2]
      by_cases h3 : os.getpgid s.pid < 0
      · rw [if_pos h3]
        exact ⟨⟨fun h => absurd h (by decide), fun h => by omega⟩, Or.inl rfl⟩
      · rw [if_neg h3]
        by_cases h4 : os.tcgetpgrp s.pty_fd ≠ os.getpgid s.pid
        · rw [if_pos h4]
          exact ⟨⟨fun _ => ⟨h1'.1, h1'.2.1, h1'.2.2, by omega, by omega, h4⟩, fun _ => rfl⟩,
            Or.inr rfl⟩
        · rw [if_neg h4]
          exact ⟨⟨fun h => absurd h (by decide), fun h => absurd h.2.2.2.2.2 h4⟩, Or.inl rfl⟩

/-- C17: `session_is_locked` reports a used session with a valid pty and pid
whose foreground process group differs from the group of the shell, and not
one where they are equal; `session_menu_delete_selected` on a locked session
changes nothing and makes no external call. -/
theorem C17_locked_destroy_refused (os : os_procs) (s : session_t) (g : Globals)
    (f : forkpty_result) (e : vterm_new_result) :
    (session_is_locked os s = 1 ↔
      (s.used ≠ 0 ∧ s.pty_fd ≥ 0 ∧ s.pid > 0
        ∧ 0 ≤ os.tcgetpgrp s.pty_fd ∧ 0 ≤ os.getpgid s.pid
        ∧ os.tcgetpgrp s.pty_fd ≠ os.getpgid s.pid))
    ∧ (session_is_locked os s = 0 ∨ session_is_locked os s = 1)
    ∧ (os.tcgetpgrp s.pty_fd = os.getpgid s.pid → session_is_locked os s = 0)
    ∧ (session_is_locked os (g.g_sessions g.g_menu_sel) ≠ 0 →
        session_menu_delete_selected os g f e = (g, [])
        ∧ ((session_menu_delete_selected os g f e).1.g_sessions g.g_menu_sel).used ≠ 0) := by
  obtain ⟨h1, h2⟩ := session_is_locked_iff os s
  refine ⟨h1, h2, ?_, ?_⟩
  · intro heq
    rcases h2 with h | h
    · exact h
    · exact absurd heq (h1.mp h).2.2.2.2.2
  · intro hl
    have hu : (g.g_sessions g.g_menu_sel).used ≠ 0 := by
      obtain ⟨k1, k2⟩ := session_is_locked_iff os (g.g_sessions g.g_menu_sel)
      rcases k2 with h | h
      · exact absurd h hl
      · exact (k1.mp h).1
    have hres : session_menu_delete_selected os g f e = (g, []) := by
      unfold session_menu_delete_selected
      dsimp only
      rw [if_neg hu, if_pos hl]
    rw [hres]
    exact ⟨rfl, hu⟩

/-- Witness for C17: the shell of slot 0 runs a foreground job (group 200
against the shell group 100): the session is locked and deleting it changes
nothing. -/
theorem C17_locked_destroy_refused_witness :
    session_is_locked os_job (menu_on_first.g_sessions menu_on_first.g_menu_sel) ≠ 0
    ∧ session_menu_delete_selected os_job menu_on_first fork_ok blank_engine
        = (menu_on_first, [])
    ∧ session_is_locked os_idle (menu_on_first.g_sessions menu_on_first.g_menu_sel) = 0 :=
  ⟨by decide,
   ((C17_locked_destroy_refused os_job zero_session menu_on_first fork_ok blank_engine).2.2.2
      (by decide)).1,
   by decide⟩

theorem find_next_alive_congr (g h : Globals) (from_ : Int)
    (hs : h.g_sessions = g.g_sessions) : find_next_alive h from_ = find_next_alive g from_ := by
  unfold find_next_alive
  rw [show MAX_SESSIONS.toNat = 5 from rfl]
  simp only [find_next_alive_loop, hs]

/-- The three outcomes of `session_menu_delete_selected`. -/
theorem delete_selected_cases (os : os_procs) (g : Globals) (f : forkpty_result)
    (e : vterm_new_result) :
    (((g.g_sessions g.g_menu_sel).used = 0
        ∨ session_is_locked os (g.g_sessions g.g_menu_sel) ≠ 0) →
      session_menu_delete_selected os g f e = (g, []))
    ∧ ((g.g_sessions g.g_menu_sel).used ≠ 0 →
        session_is_locked os (g.g_sessions g.g_menu_sel) = 0 →
        sessions_alive_count (session_destroy g.g_menu_sel g).1 = 0 →
        (session_menu_delete_selected os g f e).1
          = session_menu_close
              { (session_create 0 (session_destroy g.g_menu_sel g).1 f e).2 with
                g_active_sess := 0 })
    ∧ ((g.g_sessions g.g_menu_sel).used ≠ 0 →
        session_is_locked os (g.g_sessions g.g_menu_sel) = 0 →
        sessions_alive_count (session_destroy g.g_menu_sel g).1 ≠ 0 →
        0 ≤ g.g_menu_sel → g.g_menu_sel < MAX_SESSIONS →
        (session_menu_delete_selected os g f e).1.g_sessions
            = (session_destroy g.g_menu_sel g).1.g_sessions
        ∧ (session_menu_delete_selected os g f e).1.g_active_sess
            = (if g.g_menu_sel = g.g_active_sess
               then find_next_alive (session_destroy g.g_menu_sel g).1 g.g_menu_sel
               else g.g_active_sess)
        ∧ (session_menu_delete_selected os g f e).1.g_menu_sel
            = find_next_alive (session_destroy g.g_menu_sel g).1 g.g_menu_sel) := by
  refine ⟨?_, ?_, ?_⟩
  · intro h
    unfold session_menu_delete_selected
    dsimp only
    rcases h with h | h
    · rw [if_pos h]
    · by_cases hu : (g.g_sessions g.g_menu_sel).used = 0
      · rw [if_pos hu]
      · rw [if_neg hu, if_pos h]
  · intro hu hl hc
    unfold session_menu_delete_selected
    dsimp only
    rw [if_neg hu, if_neg (by simp [hl]), if_pos hc]
  · intro hu hl hc h0 h1
    obtain ⟨d1, d2, d3, d4, d5⟩ := session_destroy_frame g.g_menu_sel g
    obtain ⟨n1, n2, n3⟩ := find_next_alive_found (session_destroy g.g_menu_sel g).1 g.g_menu_sel
      h0 (by simpa using h1) hc
    have hdead := d5 h0 h1
    unfold session_menu_delete_selected
    dsimp only
    rw [if_neg hu, if_neg (by simp [hl]), if_neg hc]
    dsimp only
    by_cases hact : g.g_menu_sel = g.g_active_sess
    · simp only [hact, decide_True, if_true]
      rw [← hact]
      rw [if_pos n1]
      dsimp only
      rw [d2, if_pos hdead]
      have e5 : MAX_SESSIONS.toNat = 5 := rfl
      simp only [find_next_alive, e5, find_next_alive_loop] at n1 ⊢
      rw [if_pos n1]
      exact ⟨rfl, rfl, rfl⟩
    · simp only [hact, decide_False, Bool.false_eq_true, if_false]
      rw [d2, if_pos hdead, if_pos n1]
      exact ⟨rfl, d1, rfl⟩

/-- C18: deleting the only used session, when it is selected and not locked,
leaves exactly one used slot: a freshly created session in slot 0 with an
empty scrollback, which is the active one. -/
theorem C18_delete_only_session (os : os_procs) (g : Globals) (f : forkpty_result)
    (e : vterm_new_result)
    (hs0 : 0 ≤ g.g_menu_sel) (hs1 : g.g_menu_sel < MAX_SESSIONS)
    (hused : (g.g_sessions g.g_menu_sel).used ≠ 0)
    (honly : ∀ i, 0 ≤ i → i < MAX_SESSIONS → i ≠ g.g_menu_sel → (g.g_sessions i).used = 0)
    (hfree : session_is_locked os (g.g_sessions g.g_menu_sel) = 0) :
    sessions_alive_count (session_menu_delete_selected os g f e).1 = 1
    ∧ ((session_menu_delete_selected os g f e).1.g_sessions 0).used = 1
    ∧ (∀ i, 1 ≤ i → i < MAX_SESSIONS →
        ((session_menu_delete_selected os g f e).1.g_sessions i).used = 0)
    ∧ (session_menu_delete_selected os g f e).1.g_active_sess = 0
    ∧ ((session_menu_delete_selected os g f e).1.g_sessions 0).sb_count = 0
    ∧ ((session_menu_delete_selected os g f e).1.g_sessions 0).sb_head = 0
    ∧ ((session_menu_delete_selected os g f e).1.g_sessions 0).view_offset_lines = 0
    ∧ ((session_menu_delete_selected os g f e).1.g_sessions 0).pid = f.pid
    ∧ (session_menu_delete_selected os g f e).1.g_menu_active = 0 := by
  obtain ⟨d1, d2, d3, d4, d5⟩ := session_destroy_frame g.g_menu_sel g
  have hdead : ∀ i, 0 ≤ i → i < 5 → ((session_destroy g.g_menu_sel g).1.g_sessions i).used = 0 := by
    intro i hi0 hi1
    by_cases hi : i = g.g_menu_sel
    · rw [hi]; exact d5 hs0 hs1
    · rw [d4 i hi]; exact honly i hi0 (by simpa using hi1) hi
  have hcount := (sessions_alive_zero_iff _).mpr hdead
  have hres := (delete_selected_cases os g f e).2.1 hused hfree hcount
  obtain ⟨c1, c2, c3, c4, c5, c6⟩ := session_create_frame 0 (session_destroy g.g_menu_sel g).1 f e
  obtain ⟨_, s2⟩ := session_create_slot 0 (session_destroy g.g_menu_sel g).1 f e (le_refl _)
    (by decide)
  obtain ⟨k1, k2, k3, k4⟩ := s2 (hdead 0 (le_refl _) (by decide))
  have hsess : (session_menu_delete_selected os g f e).1.g_sessions
      = (session_create 0 (session_destroy g.g_menu_sel g).1 f e).2.g_sessions := by
    rw [hres]; rfl
  have hothers : ∀ i, 1 ≤ i → i < MAX_SESSIONS →
      ((session_menu_delete_selected os g f e).1.g_sessions i).used = 0 := by
    intro i hi0 hi1
    rw [hsess, c4 i (by omega)]
    exact hdead i (by omega) (by simpa using hi1)
  have hpid : ((session_create 0 (session_destroy g.g_menu_sel g).1 f e).2.g_sessions 0).pid
      = f.pid := by
    unfold session_create
    rw [if_neg (by decide)]
    dsimp only
    rw [if_neg (by simp [hdead 0 (le_refl _) (by decide)])]
    simp [session_init_vterm, session_start_shell]
  refine ⟨?_, by rw [hsess]; exact k4, hothers, by rw [hres]; rfl, by rw [hsess]; exact k2,
    by rw [hsess]; exact k1, by rw [hsess]; exact k3, by rw [hsess]; exact hpid,
    by rw [hres]; rfl⟩
  rw [sessions_alive_count_eq]
  have h0 : ((session_menu_delete_selected os g f e).1.g_sessions 0).used = 1 := by
    rw [hsess]; exact k4
  rw [if_pos (by rw [h0]; decide), if_neg (by simp [hothers 1 (by decide) (by decide)]),
    if_neg (by simp [hothers 2 (by decide) (by decide)]),
    if_neg (by simp [hothers 3 (by decide) (by decide)]),
    if_neg (by simp [hothers 4 (by decide) (by decide)])]
  rfl

/-- Witness for C18: after start-up only slot 0 is used; with the shell idle
the menu deletes it and a new session appears in slot 0. -/
theorem C18_delete_only_session_witness :
    (0 ≤ menu_on_first.g_menu_sel ∧ menu_on_first.g_menu_sel < MAX_SESSIONS
      ∧ (menu_on_first.g_sessions menu_on_first.g_menu_sel).used ≠ 0
      ∧ session_is_locked os_idle (menu_on_first.g_sessions menu_on_first.g_menu_sel) = 0)
    ∧ sessions_alive_count
        (session_menu_delete_selected os_idle menu_on_first fork_ok blank_engine).1 = 1
    ∧ (session_menu_delete_selected os_idle menu_on_first fork_ok blank_engine).1.g_active_sess
        = 0
    ∧ (session_menu_delete_selected os_idle menu_on_first fork_ok blank_engine).2
        = [sys_call.kill_sighup 100, sys_call.waitpid_nohang 100, sys_call.close 5,
           sys_call.vterm_free] :=
  ⟨by decide,
   (C18_delete_only_session os_idle menu_on_first fork_ok blank_engine (by decide) (by decide)
      (by decide)
      (fun i h0 h1 hne => by
        simp only [MAX_SESSIONS] at h1
        have hne' : i ≠ 0 := hne
        interval_cases i
        · exact absurd rfl hne'
        all_goals rfl)
      (by decide)).1,
   (C18_delete_only_session os_idle menu_on_first fork_ok blank_engine (by decide) (by decide)
      (by decide)
      (fun i h0 h1 hne => by
        simp only [MAX_SESSIONS] at h1
        have hne' : i ≠ 0 := hne
        interval_cases i
        · exact absurd rfl hne'
        all_goals rfl)
      (by decide)).2.2.2.1,
   by decide⟩

/-- The start-up code of `main` establishes the manager invariant. -/
theorem mgr_inv_main_start (f : forkpty_result) (e : vterm_new_result) :
    mgr_inv (main_start f e) := by
  obtain ⟨_, c2, _, _, _, c6⟩ := session_create_frame 0 g_start f e
  refine ⟨le_refl _, (by decide : (0 : Int) < MAX_SESSIONS), c6 (le_refl _) (by decide), ?_, ?_⟩
  · show 0 ≤ (session_create 0 g_start f e).2.g_menu_sel
    rw [c2]; decide
  · show (session_create 0 g_start f e).2.g_menu_sel < MAX_SESSIONS
    rw [c2]; decide

/-- Function `session_create` preserves the manager invariant. -/
theorem session_create_inv (idx : Int) (g : Globals) (f : forkpty_result)
    (e : vterm_new_result) (h : mgr_inv g) : mgr_inv (session_create idx g f e).2 := by
  obtain ⟨c1, c2, _, _, c5, _⟩ := session_create_frame idx g f e
  obtain ⟨h1, h2, h3, h4, h5⟩ := h
  unfold mgr_inv
  rw [c1, c2, c5 _ h3]
  exact ⟨h1, h2, h3, h4, h5⟩

/-- Function `session_switch` preserves the manager invariant. -/
theorem session_switch_inv (idx : Int) (g : Globals) (f : forkpty_result)
    (e : vterm_new_result) (h : mgr_inv g) : mgr_inv (session_switch idx g f e) := by
  unfold session_switch
  by_cases hr : idx < 0 ∨ idx ≥ MAX_SESSIONS
  · rw [if_pos hr]; exact h
  · rw [if_neg hr]
    have hr0 : 0 ≤ idx := by omega
    have hr1 : idx < MAX_SESSIONS := by omega
    obtain ⟨_, c2, _, _, _, c6⟩ := session_create_frame idx g f e
    obtain ⟨h1, h2, h3, h4, h5⟩ := h
    by_cases hu : (g.g_sessions idx).used = 0
    · simp only [if_pos hu]
      refine ⟨hr0, hr1, c6 hr0 hr1, ?_, ?_⟩
      · show 0 ≤ (session_create idx g f e).2.g_menu_sel
        rw [c2]; exact h4
      · show (session_create idx g f e).2.g_menu_sel < MAX_SESSIONS
        rw [c2]; exact h5
    · simp only [if_neg hu]
      exact ⟨hr0, hr1, hu, h4, h5⟩

/-- Function `session_menu_delete_selected` preserves the manager invariant. -/
theorem delete_selected_inv (os : os_procs) (g : Globals) (f : forkpty_result)
    (e : vterm_new_result) (h : mgr_inv g) :
    mgr_inv (session_menu_delete_selected os g f e).1 := by
  obtain ⟨k1, k2, k3⟩ := delete_selected_cases os g f e
  obtain ⟨h1, h2, h3, h4, h5⟩ := h
  obtain ⟨d1, d2, _, d4, d5⟩ := session_destroy_frame g.g_menu_sel g
  by_cases hu : (g.g_sessions g.g_menu_sel).used = 0
  · rw [k1 (Or.inl hu)]; exact ⟨h1, h2, h3, h4, h5⟩
  by_cases hl : session_is_locked os (g.g_sessions g.g_menu_sel) ≠ 0
  · rw [k1 (Or.inr hl)]; exact ⟨h1, h2, h3, h4, h5⟩
  have hl0 : session_is_locked os (g.g_sessions g.g_menu_sel) = 0 := not_not.mp hl
  by_cases hc : sessions_alive_count (session_destroy g.g_menu_sel g).1 = 0
  · rw [k2 hu hl0 hc]
    obtain ⟨_, c2, _, _, _, c6⟩ :=
      session_create_frame 0 (session_destroy g.g_menu_sel g).1 f e
    refine ⟨le_refl _, (by decide : (0 : Int) < MAX_SESSIONS), c6 (le_refl _) (by decide),
      ?_, ?_⟩
    · show 0 ≤ (session_create 0 (session_destroy g.g_menu_sel g).1 f e).2.g_menu_sel
      rw [c2, d2]; exact h4
    · show (session_create 0 (session_destroy g.g_menu_sel g).1 f e).2.g_menu_sel < MAX_SESSIONS
      rw [c2, d2]; exact h5
  · obtain ⟨e1, e2, e3⟩ := k3 hu hl0 hc h4 h5
    obtain ⟨n1, n2, n3⟩ := find_next_alive_found (session_destroy g.g_menu_sel g).1 g.g_menu_sel
      h4 (by simpa using h5) hc
    unfold mgr_inv
    rw [e1, e2, e3]
    by_cases ha : g.g_menu_sel = g.g_active_sess
    · rw [if_pos ha]
      exact ⟨n1, by simpa using n2, n3, n1, by simpa using n2⟩
    · rw [if_neg ha, d4 _ (fun h => ha h.symm)]
      exact ⟨h1, h2, h3, n1, by simpa using n2⟩

/-- Function `process_session_menu` preserves the manager invariant. -/
theorem process_session_menu_inv (btn : Int) (os : os_procs) (g : Globals)
    (f : forkpty_result) (e : vterm_new_result) (h : mgr_inv g) :
    mgr_inv (process_session_menu btn os g f e).1 := by
  unfold process_session_menu
  have h' := h
  obtain ⟨h1, h2, h3, h4, h5⟩ := h
  simp only [MAX_SESSIONS] at h5
  split_ifs
  · exact h'
  · refine ⟨h1, h2, h3, ?_, ?_⟩
    · show 0 ≤ Int.tmod (wrap32 (wrap32 (g.g_menu_sel + MAX_SESSIONS) - 1)) MAX_SESSIONS
      simp only [MAX_SESSIONS]
      rw [wrap32_eq (g.g_menu_sel + 5) (by omega) (by omega),
        wrap32_eq (g.g_menu_sel + 5 - 1) (by omega) (by omega)]
      rw [Int.tmod_eq_emod (by omega) (by omega)]; omega
    · show Int.tmod (wrap32 (wrap32 (g.g_menu_sel + MAX_SESSIONS) - 1)) MAX_SESSIONS
        < MAX_SESSIONS
      simp only [MAX_SESSIONS]
      rw [wrap32_eq (g.g_menu_sel + 5) (by omega) (by omega),
        wrap32_eq (g.g_menu_sel + 5 - 1) (by omega) (by omega)]
      rw [Int.tmod_eq_emod (by omega) (by omega)]; omega
  · refine ⟨h1, h2, h3, ?_, ?_⟩
    · show 0 ≤ Int.tmod (wrap32 (g.g_menu_sel + 1)) MAX_SESSIONS
      simp only [MAX_SESSIONS]
      rw [wrap32_eq (g.g_menu_sel + 1) (by omega) (by omega)]
      rw [Int.tmod_eq_emod (by omega) (by omega)]; omega
    · show Int.tmod (wrap32 (g.g_menu_sel + 1)) MAX_SESSIONS < MAX_SESSIONS
      simp only [MAX_SESSIONS]
      rw [wrap32_eq (g.g_menu_sel + 1) (by omega) (by omega)]
      rw [Int.tmod_eq_emod (by omega) (by omega)]; omega
  · exact session_switch_inv g.g_menu_sel g f e h'
  · exact session_create_inv g.g_menu_sel g f e h'
  · exact delete_selected_inv os g f e h'
  · exact h'

/-- Every manager action preserves the manager invariant. -/
theorem mgr_step_inv (g : Globals) (a : mgr_action × mgr_env) (h : mgr_inv g) :
    mgr_inv (mgr_step g a) := by
  obtain ⟨act, env⟩ := a
  cases act with
  | create idx => exact session_create_inv idx g env.fork env.vterm h
  | switch idx => exact session_switch_inv idx g env.fork env.vterm h
  | delete_selected => exact delete_selected_inv env.os g env.fork env.vterm h
  | menu_open =>
    obtain ⟨h1, h2, h3, _, _⟩ := h
    exact ⟨h1, h2, h3, h1, h2⟩
  | menu_button btn => exact process_session_menu_inv btn env.os g env.fork env.vterm h

/-- The manager invariant holds after every sequence of actions. -/
theorem mgr_run_inv (acts : List (mgr_action × mgr_env)) :
    ∀ g, mgr_inv g → mgr_inv (acts.foldl mgr_step g) := by
  induction acts with
  | nil => intro g h; exact h
  | cons a rest ih => intro g h; exact ih _ (mgr_step_inv g a h)

/-- A used slot makes the count of `sessions_alive_count` positive. -/
theorem alive_of_used (g : Globals) (i : Int) (h0 : 0 ≤ i) (h1 : i < 5)
    (hu : (g.g_sessions i).used ≠ 0) : 1 ≤ sessions_alive_count g := by
  have hne : sessions_alive_count g ≠ 0 := fun h =>
    hu ((sessions_alive_zero_iff g).mp h i h0 h1)
  have hnn : 0 ≤ sessions_alive_count g := by
    rw [sessions_alive_count_eq]
    split_ifs <;> decide
  omega

/-- Deleting the active session while others remain makes the first used
slot after it, cyclically, the active one. -/
theorem delete_active_next (os : os_procs) (g : Globals) (f : forkpty_result)
    (e : vterm_new_result) (h : mgr_inv g) (hsel : g.g_menu_sel = g.g_active_sess)
    (hl : session_is_locked os (g.g_sessions g.g_menu_sel) = 0)
    (hc : sessions_alive_count (session_destroy g.g_active_sess g).1 ≠ 0) :
    (session_menu_delete_selected os g f e).1.g_active_sess
        = find_next_alive (session_destroy g.g_active_sess g).1 g.g_active_sess
    ∧ ∃ j, 1 ≤ j ∧ j ≤ 4
        ∧ (session_menu_delete_selected os g f e).1.g_active_sess
            = (g.g_active_sess + j) % MAX_SESSIONS
        ∧ (g.g_active_sess + j) % MAX_SESSIONS ≠ g.g_active_sess
        ∧ (g.g_sessions ((g.g_active_sess + j) % MAX_SESSIONS)).used ≠ 0
        ∧ (((session_menu_delete_selected os g f e).1.g_sessions
              ((g.g_active_sess + j) % MAX_SESSIONS)).used ≠ 0)
        ∧ ∀ j', 1 ≤ j' → j' < j →
            (g.g_sessions ((g.g_active_sess + j') % MAX_SESSIONS)).used = 0 := by
  obtain ⟨h1, h2, h3, h4, h5⟩ := h
  obtain ⟨_, _, k3⟩ := delete_selected_cases os g f e
  rw [hsel] at k3 hl
  obtain ⟨e1, e2, _⟩ := k3 h3 hl hc h1 h2
  rw [if_pos rfl] at e2
  obtain ⟨_, _, _, d4, d5⟩ := session_destroy_frame g.g_active_sess g
  simp only [MAX_SESSIONS] at h2 ⊢
  refine ⟨e2, ?_⟩
  rcases find_next_alive_spec (session_destroy g.g_active_sess g).1 g.g_active_sess h1 h2 with
    ⟨_, a2⟩ | ⟨j, b1, b2, b3, b4, b5⟩
  · exact absurd ((sessions_alive_zero_iff _).mpr a2) hc
  · have hj : j ≠ 5 := by
      intro hj
      rw [hj] at b4
      have : (g.g_active_sess + 5) % 5 = g.g_active_sess := by omega
      rw [this] at b4
      exact b4 (d5 h1 (by simpa using h2))
    have hne : ∀ j', 1 ≤ j' → j' ≤ 4 → (g.g_active_sess + j') % 5 ≠ g.g_active_sess := by
      intro j' hj1 hj2; omega
    refine ⟨j, b1, by omega, by rw [e2, b3], hne j b1 (by omega), ?_, ?_, ?_⟩
    · rw [← d4 _ (hne j b1 (by omega))]; exact b4
    · rw [e1]; exact b4
    · intro j' hj1 hj2
      rw [← d4 _ (hne j' hj1 (by omega))]
      exact b5 j' hj1 hj2

/-- C19: in every state reached from the start-up state of `main` by manager
actions the active index is a slot of the array and that slot is used, so at
least one session exists; and when the selected slot is the active one, is not
locked, and other sessions remain after its destruction,
`session_menu_delete_selected` makes `find_next_alive` of the destroyed slot the
active one: the first used slot going forward cyclically from it. -/
theorem C19_active_never_dangles (f : forkpty_result) (e : vterm_new_result)
    (acts : List (mgr_action × mgr_env)) :
    (0 ≤ (mgr_run f e acts).g_active_sess
      ∧ (mgr_run f e acts).g_active_sess < MAX_SESSIONS
      ∧ ((mgr_run f e acts).g_sessions (mgr_run f e acts).g_active_sess).used ≠ 0
      ∧ 1 ≤ sessions_alive_count (mgr_run f e acts))
    ∧ ∀ (os : os_procs) (f' : forkpty_result) (e' : vterm_new_result),
        (mgr_run f e acts).g_menu_sel = (mgr_run f e acts).g_active_sess →
        session_is_locked os
          ((mgr_run f e acts).g_sessions (mgr_run f e acts).g_menu_sel) = 0 →
        sessions_alive_count
          (session_destroy (mgr_run f e acts).g_active_sess (mgr_run f e acts)).1 ≠ 0 →
        (session_menu_delete_selected os (mgr_run f e acts) f' e').1.g_active_sess
            = find_next_alive
                (session_destroy (mgr_run f e acts).g_active_sess (mgr_run f e acts)).1
                (mgr_run f e acts).g_active_sess
        ∧ ∃ j, 1 ≤ j ∧ j ≤ 4
            ∧ (session_menu_delete_selected os (mgr_run f e acts) f' e').1.g_active_sess
                = ((mgr_run f e acts).g_active_sess + j) % MAX_SESSIONS
            ∧ ((mgr_run f e acts).g_active_sess + j) % MAX_SESSIONS
                ≠ (mgr_run f e acts).g_active_sess
            ∧ ((mgr_run f e acts).g_sessions
                (((mgr_run f e acts).g_active_sess + j) % MAX_SESSIONS)).used ≠ 0
            ∧ (((session_menu_delete_selected os (mgr_run f e acts) f' e').1.g_sessions
                (((mgr_run f e acts).g_active_sess + j) % MAX_SESSIONS)).used ≠ 0)
            ∧ ∀ j', 1 ≤ j' → j' < j →
                ((mgr_run f e acts).g_sessions
                  (((mgr_run f e acts).g_active_sess + j') % MAX_SESSIONS)).used = 0 := by
  have hinv : mgr_inv (mgr_run f e acts) := mgr_run_inv acts _ (mgr_inv_main_start f e)
  refine ⟨⟨hinv.1, hinv.2.1, hinv.2.2.1, ?_⟩, ?_⟩
  · exact alive_of_used _ _ hinv.1 (by simpa using hinv.2.1) hinv.2.2.1
  · intro os f' e' hsel hl hc
    exact delete_active_next os _ f' e' hinv hsel hl hc

/-- Witness for C19: with slots 0 and 3 used and slot 3 active and selected,
deleting it makes slot 0 the active one (the search wraps past slot 4). -/
theorem C19_active_never_dangles_witness :
    (mgr_run fork_ok blank_engine acts_to_three).g_active_sess = 3
    ∧ (session_menu_delete_selected os_idle (mgr_run fork_ok blank_engine acts_to_three)
        fork_ok blank_engine).1.g_active_sess = 0
    ∧ (session_menu_delete_selected os_idle (mgr_run fork_ok blank_engine acts_to_three)
        fork_ok blank_engine).1.g_active_sess
        = find_next_alive
            (session_destroy (mgr_run fork_ok blank_engine acts_to_three).g_active_sess
              (mgr_run fork_ok blank_engine acts_to_three)).1
            (mgr_run fork_ok blank_engine acts_to_three).g_active_sess :=
  ⟨by decide, by decide,
   ((C19_active_never_dangles fork_ok blank_engine acts_to_three).2 os_idle fork_ok
      blank_engine (by decide) (by decide) (by decide)).1⟩

/-- Counterexample to C20 as stated: with a failing `forkpty` (pid -1),
`session_create(0)` on the unused slot 0 returns 0 and leaves the slot used. -/
theorem C20_spawn_failure_counterexample :
    (0 ≤ (0 : Int) ∧ (0 : Int) < MAX_SESSIONS ∧ (g_start.g_sessions 0).used = 0
      ∧ fork_fail.pid < 0)
    ∧ (session_create 0 g_start fork_fail blank_engine).1 = 0
    ∧ ((session_create 0 g_start fork_fail blank_engine).2.g_sessions 0).used = 1
    ∧ ¬ (∀ (idx : Int) (g : Globals) (f : forkpty_result) (e : vterm_new_result),
          0 ≤ idx → idx < MAX_SESSIONS → (g.g_sessions idx).used = 0 → f.pid < 0 →
          ((session_create idx g f e).2.g_sessions idx).used = 0
          ∧ (session_create idx g f e).1 ≠ 0) := by
  refine ⟨by decide, by decide, by decide, fun h => ?_⟩
  exact (h 0 g_start fork_fail blank_engine (by decide) (by decide) (by decide)
    (by decide)).2 (by decide)

/-- C20 (amended): when `forkpty` fails during `session_create(idx)` on an
in-range unused slot, `session_create` still returns 0 and marks the slot used,
with the negative pid stored; the session is inert: `session_is_locked` is 0
for it and `session_destroy` frees the slot without sending a signal. -/
theorem C20_spawn_failure_keeps_slot (idx : Int) (g : Globals) (f : forkpty_result)
    (e : vterm_new_result) (h0 : 0 ≤ idx) (h1 : idx < MAX_SESSIONS)
    (hu : (g.g_sessions idx).used = 0) (hf : f.pid < 0) :
    (session_create idx g f e).1 = 0
    ∧ ((session_create idx g f e).2.g_sessions idx).used = 1
    ∧ ((session_create idx g f e).2.g_sessions idx).pid = f.pid
    ∧ ((session_create idx g f e).2.g_sessions idx).pty_fd = f.pty_fd
    ∧ (∀ os : os_procs,
        session_is_locked os ((session_create idx g f e).2.g_sessions idx) = 0)
    ∧ (∀ p : Int,
        sys_call.kill_sighup p ∉ (session_destroy idx (session_create idx g f e).2).2)
    ∧ ((session_destroy idx (session_create idx g f e).2).1.g_sessions idx).used = 0 := by
  have hr : ¬ (idx < 0 ∨ idx ≥ MAX_SESSIONS) := by omega
  have hcreate : (session_create idx g f e).1 = 0
      ∧ ((session_create idx g f e).2.g_sessions idx).used = 1
      ∧ ((session_create idx g f e).2.g_sessions idx).pid = f.pid
      ∧ ((session_create idx g f e).2.g_sessions idx).pty_fd = f.pty_fd := by
    unfold session_create
    rw [if_neg hr]
    dsimp only
    rw [if_neg (by simp [hu])]
    simp [session_init_vterm, session_start_shell]
  obtain ⟨r1, r2, r3, r4⟩ := hcreate
  refine ⟨r1, r2, r3, r4, ?_, ?_, (session_destroy_frame idx _).2.2.2.2 h0 h1⟩
  · intro os
    unfold session_is_locked
    rw [if_pos (Or.inr (Or.inr (by rw [r3]; omega)))]
  · intro p
    unfold session_destroy
    rw [if_neg hr]
    dsimp only
    rw [if_neg (by rw [r2]; decide), if_neg (by rw [r3]; omega)]
    intro hmem
    simp only [List.nil_append, List.mem_append] at hmem
    rcases hmem with hmem | hmem
    · split_ifs at hmem <;> simp at hmem
    · split_ifs at hmem <;> simp at hmem

/-- Witness for C20: slot 0 of the start-up globals with a failing `forkpty`. -/
theorem C20_spawn_failure_keeps_slot_witness :
    (0 ≤ (0 : Int) ∧ (0 : Int) < MAX_SESSIONS ∧ (g_start.g_sessions 0).used = 0
      ∧ fork_fail.pid < 0)
    ∧ (session_create 0 g_start fork_fail blank_engine).1 = 0
    ∧ ((session_create 0 g_start fork_fail blank_engine).2.g_sessions 0).used = 1
    ∧ (session_destroy 0 (session_create 0 g_start fork_fail blank_engine).2).2
        = [sys_call.vterm_free] :=
  ⟨by decide,
   (C20_spawn_failure_keeps_slot 0 g_start fork_fail blank_engine (by decide) (by decide)
      (by decide) (by decide)).1,
   (C20_spawn_failure_keeps_slot 0 g_start fork_fail blank_engine (by decide) (by decide)
      (by decide) (by decide)).2.1,
   by decide⟩

/-- Under the store invariant the loop of `sb_oldest_index` leaves after at
most one iteration: every iteration bound of at least one gives the same
value. -/
theorem sb_oldest_loop_fuel (s : session_t) (h : store_inv s) (n : Nat) (hn : 1 ≤ n) :
    sb_oldest_loop n (wrap32 (s.sb_head - s.sb_count)) = sb_oldest_index s := by
  obtain ⟨h1, h2, h3, h4⟩ := h
  simp only [SCROLLBACK_LINES] at *
  unfold sb_oldest_index
  dsimp only
  rw [wrap32_eq _ (by omega) (by omega)]
  obtain ⟨m, rfl⟩ : ∃ m, n = m + 1 := ⟨n - 1, by omega⟩
  rw [sb_oldest_loop_one _ m (by omega) (by omega),
    sb_oldest_loop_one _ _ (by omega) (by omega)]

/-- C21: under the store invariant `sb_oldest_index` leaves its loop (every
iteration bound of at least one gives its value) and returns
`(sb_head - sb_count) mod SCROLLBACK_LINES` in `[0, SCROLLBACK_LINES)`; for a
logical index `i` in `[0, sb_count)`, `sb_phys_index(i)` is
`(sb_oldest_index() + i) mod SCROLLBACK_LINES`, lies in `[0, SCROLLBACK_LINES)`
and is injective in `i`. -/
theorem C21_wrapped_index (s : session_t) (h : store_inv s) :
    sb_oldest_index s = (s.sb_head - s.sb_count) % SCROLLBACK_LINES
    ∧ 0 ≤ sb_oldest_index s ∧ sb_oldest_index s < SCROLLBACK_LINES
    ∧ (∀ n : Nat, 1 ≤ n →
        sb_oldest_loop n (wrap32 (s.sb_head - s.sb_count)) = sb_oldest_index s)
    ∧ (∀ i, 0 ≤ i → i < s.sb_count →
        sb_phys_index s i = (sb_oldest_index s + i) % SCROLLBACK_LINES
        ∧ sb_phys_index s i = Int.tmod (sb_oldest_index s + i) SCROLLBACK_LINES
        ∧ 0 ≤ sb_phys_index s i ∧ sb_phys_index s i < SCROLLBACK_LINES)
    ∧ (∀ i j, 0 ≤ i → i < s.sb_count → 0 ≤ j → j < s.sb_count →
        sb_phys_index s i = sb_phys_index s j → i = j) := by
  have hold := sb_oldest_index_inv s h
  have hphys := sb_phys_index_inv s h
  have hfuel := sb_oldest_loop_fuel s h
  obtain ⟨h1, h2, h3, h4⟩ := h
  simp only [SCROLLBACK_LINES] at *
  refine ⟨?_, ?_, ?_, hfuel, ?_, ?_⟩
  · rw [hold]; split <;> omega
  · rw [hold]; split <;> omega
  · rw [hold]; split <;> omega
  · intro i hi0 hi1
    have hb : 0 ≤ sb_oldest_index s ∧ sb_oldest_index s < 2000 := by
      rw [hold]; split <;> omega
    have ht : sb_phys_index s i = Int.tmod (sb_oldest_index s + i) 2000 := by
      unfold sb_phys_index
      simp only [SCROLLBACK_LINES]
      rw [wrap32_eq _ (by omega) (by omega)]
    refine ⟨?_, ht, ?_, ?_⟩
    · rw [hphys i hi0 hi1, hold]
      split <;> omega
    · rw [hphys i hi0 hi1]; omega
    · rw [hphys i hi0 hi1]; omega
  · intro i j hi0 hi1 hj0 hj1 hij
    rw [hphys i hi0 hi1, hphys j hj0 hj1] at hij
    omega

/-- Witness for C21: in the full ring with head 3 the oldest row is physical
row 3, and the logical indices 0, 1996, 1997 and 1999 map to the physical rows
3, 1999, 0 and 2. -/
theorem C21_wrapped_index_witness :
    store_inv wrapped_store
    ∧ sb_oldest_index wrapped_store
        = (wrapped_store.sb_head - wrapped_store.sb_count) % SCROLLBACK_LINES
    ∧ sb_oldest_index wrapped_store = 3
    ∧ sb_phys_index wrapped_store 0 = 3
    ∧ sb_phys_index wrapped_store 1996 = 1999
    ∧ sb_phys_index wrapped_store 1997 = 0
    ∧ sb_phys_index wrapped_store 1999 = 2 :=
  ⟨by decide, (C21_wrapped_index wrapped_store (by decide)).1, by decide, by decide,
   by decide, by decide, by decide⟩

end GKDTerm
